import Mathlib

/-!
# Managed cluster reconciliation (pkg/hub/managedcluster/controller.go)

A shallow embedding of `managedClusterController.sync` and of the two routines it
calls, `removeManagedClusterResources` and `removeManagedClusterFinalizer`.

The controller talks to the hub through client interfaces.  Here the hub is an
explicit `World` (the stored clusters and the dependent objects), every client
call is appended to a trace of `Call`s, and an `Env` decides which calls fail
with an injected fault.  A fault is never `NotFound`: that answer comes from the
content of the store alone.
-/

namespace Registration

/-! ## Constants of the source -/

def manifestDir : String := "pkg/hub/managedcluster"

def clusterRolePrefix : String := "system:open-cluster-management:managedcluster"

def managedClusterFinalizer : String := "cluster.open-cluster-management.io/api-resource-cleanup"

/-- The condition type `v1.ManagedClusterConditionHubAccepted` of the cluster API package, an
external module.  Its value there is "HubAcceptedManagedCluster"; the spec calls it the
"HubAccepted" condition.  No statement below depends on the value. -/
def ManagedClusterConditionHubAccepted : String := "HubAcceptedManagedCluster"

/-! ## Data model -/

/-- Values of `metav1.ConditionStatus`. -/
inductive ConditionStatus where
  | condTrue
  | condFalse
  | condUnknown
deriving DecidableEq, Repr

/-- The `v1.StatusCondition` of a managed cluster; `lastTransitionTime = 0` is the unset time. -/
structure StatusCondition where
  type : String
  status : ConditionStatus
  reason : String
  message : String
  lastTransitionTime : Nat
deriving DecidableEq, Repr

/-- The fields of `v1.ManagedCluster` the controller reads or writes.  `deletionTimestamp`
is the `*metav1.Time` pointer: `none` is the nil pointer, `some t` a time `t` counted from
the zero time. -/
structure ManagedCluster where
  name : String
  deletionTimestamp : Option Nat
  finalizers : List String
  hubAcceptsClient : Bool
  conditions : List StatusCondition
deriving DecidableEq, Repr

/-- The method `(*metav1.Time).IsZero`: true for the nil pointer and for the zero time. -/
def IsZero : Option Nat → Bool
  | none => true
  | some t => t == 0

/-! ## Errors -/

/-- The reason carried by an API status error. -/
inductive StatusReason where
  | notFound
  | conflict
  | forbidden
  | internalError
deriving DecidableEq, Repr

/-- A Go error that is not an aggregate: a status error of a client, or the value of
`fmt.Errorf`. -/
inductive PlainError where
  | status (reason : StatusReason) (msg : String)
  | errorf (msg : String)
deriving DecidableEq, Repr

/-- The text of `Error()` on a plain error. -/
def PlainError.Error : PlainError → String
  | .status _ msg => msg
  | .errorf msg => msg

/-- The function `errors.IsNotFound` on a non-nil error. -/
def IsNotFound : PlainError → Bool
  | .status .notFound _ => true
  | _ => false

/-- The errors `sync` returns: one plain error, or the aggregate built by
`NewMultiLineAggregate`. -/
inductive GoError where
  | single (e : PlainError)
  | aggregate (errs : List PlainError)
deriving DecidableEq, Repr

/-- The text of `Error()`; an aggregate joins the texts of its members with newlines. -/
def GoError.Error : GoError → String
  | .single e => e.Error
  | .aggregate errs => "\n".intercalate (errs.map PlainError.Error)

/-- The function `operatorhelpers.NewMultiLineAggregate` of library-go on a list of non-nil
errors: nil for the empty list, else the aggregate of the list. -/
def NewMultiLineAggregate (errs : List PlainError) : Option GoError :=
  if errs.isEmpty then none else some (.aggregate errs)

/-! ## The hub: calls, faults and the world -/

/-- The calls the controller makes on its collaborators, with their arguments. -/
inductive Call where
  | getManagedCluster (name : String)
  | updateManagedCluster (obj : ManagedCluster)
  | deleteNamespace (name : String)
  | deleteClusterRole (name : String)
  | deleteClusterRoleBinding (name : String)
  | applyManifest (file : String) (managedClusterName : String)
  | updateStatus (name : String) (cond : StatusCondition)
  | event (reason : String) (message : String)
deriving DecidableEq, Repr

/-- The reason of an injected failure; `NotFound` is not among them. -/
inductive FaultReason where
  | conflict
  | forbidden
  | internalError
deriving DecidableEq, Repr

/-- An injected failure of one call. -/
structure Fault where
  reason : FaultReason
  msg : String
deriving DecidableEq, Repr

def FaultReason.toStatusReason : FaultReason → StatusReason
  | .conflict => .conflict
  | .forbidden => .forbidden
  | .internalError => .internalError

def Fault.toError (f : Fault) : PlainError :=
  .status f.reason.toStatusReason f.msg

/-- What the surroundings decide during one reconciliation: which calls fail, the clock, and
the text `%T` prints for the `Type` field of the apply result of a manifest. -/
structure Env where
  fault : Call → Option Fault
  now : Nat
  applyType : String → String

/-- The objects on the hub.  An object in a namespace is identified by the namespace and the
manifest that renders it. -/
structure World where
  clusters : List ManagedCluster
  namespaces : List String
  clusterRoles : List String
  clusterRoleBindings : List String
  namespaced : List (String × String)
deriving DecidableEq, Repr

/-- The hub together with the calls made so far. -/
structure St where
  world : World
  trace : List Call
deriving DecidableEq, Repr

def record (c : Call) (s : St) : St :=
  { s with trace := s.trace ++ [c] }

/-- The resource name of managed clusters as the API machinery prints it, with its group. -/
def managedClustersResource : String := "managedclusters.cluster.open-cluster-management.io"

/-- The NotFound status error of the API machinery for a resource, with its API group when
it has one, and an object name. -/
def notFoundError (resource name : String) : PlainError :=
  .status .notFound (resource ++ " \"" ++ name ++ "\" not found")

/-- The call `ManagedClusters().Get`. -/
def clientGet (env : Env) (name : String) (s : St) : Except PlainError ManagedCluster × St :=
  let s1 := record (.getManagedCluster name) s
  match env.fault (.getManagedCluster name) with
  | some f => (.error f.toError, s1)
  | none =>
    match s.world.clusters.find? (fun c => c.name == name) with
    | none => (.error (notFoundError managedClustersResource name), s1)
    | some mc => (.ok mc, s1)

/-- The call `ManagedClusters().Update`: on success the stored object of the same name is
replaced by `obj`. -/
def clientUpdate (env : Env) (obj : ManagedCluster) (s : St) : Option PlainError × St :=
  let s1 := record (.updateManagedCluster obj) s
  match env.fault (.updateManagedCluster obj) with
  | some f => (some f.toError, s1)
  | none =>
    if s.world.clusters.any (fun c => c.name == obj.name) then
      (none, { s1 with world := { s1.world with
        clusters := s1.world.clusters.map (fun c => if c.name == obj.name then obj else c) } })
    else
      (some (notFoundError managedClustersResource obj.name), s1)

/-- The call `Namespaces().Delete`; the objects inside the namespace go with it. -/
def deleteNamespace (env : Env) (name : String) (s : St) : Option PlainError × St :=
  let s1 := record (.deleteNamespace name) s
  match env.fault (.deleteNamespace name) with
  | some f => (some f.toError, s1)
  | none =>
    if name ∈ s.world.namespaces then
      (none, { s1 with world := { s1.world with
        namespaces := s1.world.namespaces.filter (fun n => n != name)
        namespaced := s1.world.namespaced.filter (fun o => o.1 != name) } })
    else
      (some (notFoundError "namespaces" name), s1)

/-- The call `ClusterRoles().Delete`. -/
def deleteClusterRole (env : Env) (name : String) (s : St) : Option PlainError × St :=
  let s1 := record (.deleteClusterRole name) s
  match env.fault (.deleteClusterRole name) with
  | some f => (some f.toError, s1)
  | none =>
    if name ∈ s.world.clusterRoles then
      (none, { s1 with world := { s1.world with
        clusterRoles := s1.world.clusterRoles.filter (fun n => n != name) } })
    else
      (some (notFoundError "clusterroles.rbac.authorization.k8s.io" name), s1)

/-- The call `ClusterRoleBindings().Delete`. -/
def deleteClusterRoleBinding (env : Env) (name : String) (s : St) : Option PlainError × St :=
  let s1 := record (.deleteClusterRoleBinding name) s
  match env.fault (.deleteClusterRoleBinding name) with
  | some f => (some f.toError, s1)
  | none =>
    if name ∈ s.world.clusterRoleBindings then
      (none, { s1 with world := { s1.world with
        clusterRoleBindings := s1.world.clusterRoleBindings.filter (fun n => n != name) } })
    else
      (some (notFoundError "clusterrolebindings.rbac.authorization.k8s.io" name), s1)

/-! ## The manifest provisioner -/

/-- The seven manifests `sync` passes to `resourceapply.ApplyDirectly`, in that order. -/
def manifestFiles : List String :=
  [ "manifests/managedcluster-clusterrole.yaml",
    "manifests/managedcluster-clusterrolebinding.yaml",
    "manifests/managedcluster-namespace.yaml",
    "manifests/managedcluster-registration-role.yaml",
    "manifests/managedcluster-registration-rolebinding.yaml",
    "manifests/managedcluster-work-role.yaml",
    "manifests/managedcluster-work-rolebinding.yaml" ]

/-- The object a manifest renders to. -/
inductive ManifestObject where
  | clusterRole (name : String)
  | clusterRoleBinding (name : String)
  | ns (name : String)
  | inNamespace (nsName : String) (file : String)
deriving DecidableEq, Repr

/-- Modelled from the spec: the manifest bodies (package bindata) are not in src.  The cluster
role and the cluster role binding are named `<prefix>:<clusterName>`, the namespace is named
after the cluster, and the roles and role bindings live in that namespace. -/
def manifestObject (file managedClusterName : String) : ManifestObject :=
  if file = "manifests/managedcluster-clusterrole.yaml" then
    .clusterRole (clusterRolePrefix ++ ":" ++ managedClusterName)
  else if file = "manifests/managedcluster-clusterrolebinding.yaml" then
    .clusterRoleBinding (clusterRolePrefix ++ ":" ++ managedClusterName)
  else if file = "manifests/managedcluster-namespace.yaml" then
    .ns managedClusterName
  else
    .inNamespace managedClusterName file

/-- Adds `x` to `l` unless it is there already. -/
def ensure {α : Type} [DecidableEq α] (x : α) (l : List α) : List α :=
  if x ∈ l then l else l ++ [x]

/-- The hub after an object has been applied: it exists, once. -/
def World.withObject (w : World) : ManifestObject → World
  | .clusterRole n => { w with clusterRoles := ensure n w.clusterRoles }
  | .clusterRoleBinding n => { w with clusterRoleBindings := ensure n w.clusterRoleBindings }
  | .ns n => { w with namespaces := ensure n w.namespaces }
  | .inNamespace n f => { w with namespaced := ensure (n, f) w.namespaced }

/-- The fields of `resourceapply.ApplyResult` that `sync` reads; `typeName` is the text `%T`
prints for the field `Type`. -/
structure ApplyResult where
  File : String
  typeName : String
  Error : Option PlainError
deriving DecidableEq, Repr

/-- One manifest of `ApplyDirectly`: rendered for the cluster and applied. -/
def applyManifest (env : Env) (managedClusterName file : String) (s : St) : ApplyResult × St :=
  let s1 := record (.applyManifest file managedClusterName) s
  match env.fault (.applyManifest file managedClusterName) with
  | some f => ({ File := file, typeName := env.applyType file, Error := some f.toError }, s1)
  | none =>
    ({ File := file, typeName := env.applyType file, Error := none },
     { s1 with world := s1.world.withObject (manifestObject file managedClusterName) })

/-- The function `resourceapply.ApplyDirectly` of library-go: every file is applied, in order,
whether or not an earlier one failed, and one result per file is returned. -/
def ApplyDirectly (env : Env) (managedClusterName : String) :
    List String → St → List ApplyResult × St
  | [], s => ([], s)
  | file :: files, s =>
    let (r, s1) := applyManifest env managedClusterName file s
    let (rs, s2) := ApplyDirectly env managedClusterName files s1
    (r :: rs, s2)

/-- The verb `%q` of package fmt on a string without characters that need an escape, as the
manifest names are. -/
def goQuote (str : String) : String := "\"" ++ str ++ "\""

/-! ## Package helpers -/

/-- Modelled from the spec: `helpers.FindManagedClusterCondition` (package helpers is not in
src).  Conditions are keyed by type; the entry of the given type, if any. -/
def FindManagedClusterCondition (conditions : List StatusCondition) (conditionType : String) :
    Option StatusCondition :=
  conditions.find? (fun c => c.type == conditionType)

/-- Modelled from the spec: `helpers.IsConditionTrue` (package helpers is not in src).  The
condition is "currently True": it is there and its status is True. -/
def IsConditionTrue : Option StatusCondition → Bool
  | none => false
  | some c => c.status == .condTrue

/-- Modelled from the spec: `helpers.UpdateManagedClusterConditionFn` (package helpers is not in
src).  Replace the entry with matching type if its status, reason or message differ, updating
lastTransitionTime only when status changes; insert if absent; no-op if identical. -/
def UpdateManagedClusterConditionFn (now : Nat) (cond : StatusCondition) :
    List StatusCondition → List StatusCondition
  | [] => [{ cond with lastTransitionTime := now }]
  | c :: cs =>
    if c.type = cond.type then
      if c.status = cond.status ∧ c.reason = cond.reason ∧ c.message = cond.message then
        c :: cs
      else
        { type := c.type, status := cond.status, reason := cond.reason, message := cond.message,
          lastTransitionTime :=
            if c.status = cond.status then c.lastTransitionTime else now } :: cs
    else
      c :: UpdateManagedClusterConditionFn now cond cs

/-- Modelled from the spec: `helpers.UpdateManagedClusterStatus` (package helpers is not in src),
called with one condition.  Read-modify-write of the condition list of the stored cluster;
returns whether a write occurred and the store error, if any. -/
def UpdateManagedClusterStatus (env : Env) (name : String) (cond : StatusCondition) (s : St) :
    (Bool × Option PlainError) × St :=
  let s1 := record (.updateStatus name cond) s
  match env.fault (.updateStatus name cond) with
  | some f => ((false, some f.toError), s1)
  | none =>
    match s.world.clusters.find? (fun c => c.name == name) with
    | none => ((false, some (notFoundError managedClustersResource name)), s1)
    | some mc =>
      let conditions := UpdateManagedClusterConditionFn env.now cond mc.conditions
      if conditions = mc.conditions then
        ((false, none), s1)
      else
        ((true, none), { s1 with world := { s1.world with
          clusters := s1.world.clusters.map
            (fun c => if c.name == name then { c with conditions := conditions } else c) } })

/-! ## The controller -/

/-- The test `err != nil && !errors.IsNotFound(err)`. -/
def isFailure : Option PlainError → Bool
  | none => false
  | some err => !IsNotFound err

/-- The routine `removeManagedClusterResources`. -/
def removeManagedClusterResources (env : Env) (managedClusterName : String) (s : St) :
    Option PlainError × St :=
  let (err, s1) := deleteNamespace env managedClusterName s
  if isFailure err then (err, s1) else
  let s2 := record (.event "ManagedClusterNamespaceDeleted"
    ("namespace " ++ managedClusterName ++ " is deleted")) s1
  let clusterRoleName := clusterRolePrefix ++ ":" ++ managedClusterName
  let (err, s3) := deleteClusterRole env clusterRoleName s2
  if isFailure err then (err, s3) else
  let s4 := record (.event "ManagedClusterClusterRoleDeleted"
    ("clusterrole " ++ clusterRoleName ++ " is deleted")) s3
  let clusterRoleBindingName := clusterRolePrefix ++ ":" ++ managedClusterName
  let (err, s5) := deleteClusterRoleBinding env clusterRoleBindingName s4
  if isFailure err then (err, s5) else
  let s6 := record (.event "ManagedClusterClusterRoleBindingDeleted"
    ("clusterrolebinding " ++ clusterRoleBindingName ++ " is deleted")) s5
  (none, s6)

/-- The routine `removeManagedClusterFinalizer`. -/
def removeManagedClusterFinalizer (env : Env) (managedCluster : ManagedCluster) (s : St) :
    Option PlainError × St :=
  let copiedFinalizers := managedCluster.finalizers.filter (fun f => f != managedClusterFinalizer)
  if managedCluster.finalizers.length != copiedFinalizers.length then
    clientUpdate env { managedCluster with finalizers := copiedFinalizers } s
  else
    (none, s)

/-- The loop of `sync` that looks for the guard finalizer. -/
def hasFinalizer (finalizers : List String) : Bool :=
  finalizers.any (fun f => f == managedClusterFinalizer)

/-- The loop of `sync` over the apply results: one `fmt.Errorf` per failed manifest. -/
def applyErrors (resourceResults : List ApplyResult) : List PlainError :=
  resourceResults.filterMap (fun result =>
    match result.Error with
    | none => none
    | some err =>
      some (.errorf (goQuote result.File ++ " (" ++ result.typeName ++ "): " ++ err.Error)))

/-- The text of `Error()` on an error that may be nil; `sync` calls it on a non-nil one. -/
def errorText : Option GoError → String
  | none => ""
  | some err => err.Error

/-- The condition `sync` writes on the deny path. -/
def deniedCondition : StatusCondition :=
  { type := ManagedClusterConditionHubAccepted, status := .condFalse,
    reason := "HubClusterAdminDenied", message := "Denied by hub cluster admin",
    lastTransitionTime := 0 }

/-- The condition `sync` writes on the accept path, given the errors of the manifests. -/
def acceptedCondition (errs : List PlainError) : StatusCondition :=
  let acceptedCondition : StatusCondition :=
    { type := ManagedClusterConditionHubAccepted, status := .condTrue,
      reason := "HubClusterAdminAccepted", message := "Accepted by hub cluster admin",
      lastTransitionTime := 0 }
  if errs.length > 0 then
    { acceptedCondition with
      reason := "Error", message := errorText (NewMultiLineAggregate errs) }
  else
    acceptedCondition

/-- The method `managedClusterController.sync` for the queue key `managedClusterName`: the
error it returns (`none` is nil) and the hub afterwards.  The first test joins the two nested
tests of the source, `DeletionTimestamp.IsZero()` and `!hasFinalizer`: the branch that
appends the guard and returns is taken when both hold, and every other case falls through. -/
def sync (env : Env) (managedClusterName : String) (s : St) : Option GoError × St :=
  match clientGet env managedClusterName s with
  | (.error err, s1) =>
    if IsNotFound err then (none, s1) else (some (.single err), s1)
  | (.ok managedCluster, s1) =>
    if IsZero managedCluster.deletionTimestamp && !hasFinalizer managedCluster.finalizers then
      let (err, s2) := clientUpdate env
        { managedCluster with
          finalizers := managedCluster.finalizers ++ [managedClusterFinalizer] } s1
      (err.map .single, s2)
    else if !IsZero managedCluster.deletionTimestamp then
      match removeManagedClusterResources env managedClusterName s1 with
      | (some err, s2) => (some (.single err), s2)
      | (none, s2) =>
        let (err, s3) := removeManagedClusterFinalizer env managedCluster s2
        (err.map .single, s3)
    else if !managedCluster.hubAcceptsClient then
      if !IsConditionTrue (FindManagedClusterCondition managedCluster.conditions
          ManagedClusterConditionHubAccepted) then
        (none, s1)
      else
        let s2 := record (.event "ManagedClusterDenied"
          ("managed cluster " ++ managedClusterName ++ " is denied by hub cluster admin")) s1
        match removeManagedClusterResources env managedClusterName s2 with
        | (some err, s3) => (some (.single err), s3)
        | (none, s3) =>
          let (r, s4) := UpdateManagedClusterStatus env managedClusterName deniedCondition s3
          (r.2.map .single, s4)
    else
      let (resourceResults, s2) := ApplyDirectly env managedClusterName manifestFiles s1
      let errs := applyErrors resourceResults
      let (r, s3) := UpdateManagedClusterStatus env managedClusterName (acceptedCondition errs) s2
      let errs := match r.2 with
        | some updatedErr => errs ++ [updatedErr]
        | none => errs
      let s4 := if r.1 then
          record (.event "ManagedClusterAccepted"
            ("managed cluster " ++ managedClusterName ++ " is accepted by hub cluster admin")) s3
        else s3
      (NewMultiLineAggregate errs, s4)

/-! ## Concrete inputs -/

/-- An environment in which no call fails. -/
def quietEnv : Env :=
  { fault := fun _ => none, now := 7, applyType := fun _ => "string" }

/-- The fresh cluster `east-1`: no finalizers, no conditions, not accepted. -/
def east1Fresh : ManagedCluster :=
  { name := "east-1", deletionTimestamp := none, finalizers := [],
    hubAcceptsClient := false, conditions := [] }

/-- A hub that stores the given cluster and nothing else. -/
def hubWith (mc : ManagedCluster) : St :=
  { world := { clusters := [mc], namespaces := [], clusterRoles := [],
               clusterRoleBindings := [], namespaced := [] },
    trace := [] }

/-! ## Vocabulary of the statements and concrete inputs -/

/-- The calls of a cleanup in which no delete is refused by the store. -/
def cleanupCalls (managedClusterName : String) : List Call :=
  [ .deleteNamespace managedClusterName,
    .event "ManagedClusterNamespaceDeleted" ("namespace " ++ managedClusterName ++ " is deleted"),
    .deleteClusterRole (clusterRolePrefix ++ ":" ++ managedClusterName),
    .event "ManagedClusterClusterRoleDeleted"
      ("clusterrole " ++ (clusterRolePrefix ++ ":" ++ managedClusterName) ++ " is deleted"),
    .deleteClusterRoleBinding (clusterRolePrefix ++ ":" ++ managedClusterName),
    .event "ManagedClusterClusterRoleBindingDeleted"
      ("clusterrolebinding " ++ (clusterRolePrefix ++ ":" ++ managedClusterName) ++
        " is deleted") ]

/-- No injected fault on the three deletes of a cleanup. -/
def deletesUnfaulted (env : Env) (managedClusterName : String) : Prop :=
  env.fault (.deleteNamespace managedClusterName) = none
  ∧ env.fault (.deleteClusterRole (clusterRolePrefix ++ ":" ++ managedClusterName)) = none
  ∧ env.fault (.deleteClusterRoleBinding (clusterRolePrefix ++ ":" ++ managedClusterName)) = none

/-- The first injected fault among the three deletes of a cleanup, in the order of the
source: namespace, cluster role, cluster role binding. -/
def firstDeleteFault (env : Env) (managedClusterName : String) : Option Fault :=
  match env.fault (.deleteNamespace managedClusterName) with
  | some f => some f
  | none =>
    match env.fault (.deleteClusterRole (clusterRolePrefix ++ ":" ++ managedClusterName)) with
    | some f => some f
    | none =>
      env.fault (.deleteClusterRoleBinding (clusterRolePrefix ++ ":" ++ managedClusterName))

/-- The calls a cleanup makes on the hub: deletes of dependents and events. -/
def Call.isCleanupCall : Call → Bool
  | .deleteNamespace _ => true
  | .deleteClusterRole _ => true
  | .deleteClusterRoleBinding _ => true
  | .event _ _ => true
  | _ => false

/-- The calls of a cleanup, as decided by the injected faults: the routine stops at the first
delete that fails. -/
def cleanupTrace (env : Env) (managedClusterName : String) : List Call :=
  match env.fault (.deleteNamespace managedClusterName) with
  | some _ => (cleanupCalls managedClusterName).take 1
  | none =>
    match env.fault (.deleteClusterRole (clusterRolePrefix ++ ":" ++ managedClusterName)) with
    | some _ => (cleanupCalls managedClusterName).take 3
    | none =>
      match env.fault
          (.deleteClusterRoleBinding (clusterRolePrefix ++ ":" ++ managedClusterName)) with
      | some _ => (cleanupCalls managedClusterName).take 5
      | none => cleanupCalls managedClusterName

/-- The calls made between two states of the hub. -/
def callsSince (s s' : St) : List Call := s'.trace.drop s.trace.length

/-- The cluster `east-1` with the guard finalizer, on which deletion has been requested. -/
def east1Deleting : ManagedCluster :=
  { name := "east-1", deletionTimestamp := some 5, finalizers := [managedClusterFinalizer],
    hubAcceptsClient := true, conditions := [] }

/-- An environment in which every Update of a cluster is answered with a conflict, and
nothing else fails. -/
def conflictEnv : Env :=
  { fault := fun c =>
      match c with
      | .updateManagedCluster _ => some { reason := .conflict, msg := "object has been modified" }
      | _ => none,
    now := 7, applyType := fun _ => "string" }

/-- A hub that stores the given cluster together with its namespace, cluster role and
cluster role binding. -/
def hubProvisioned (mc : ManagedCluster) : St :=
  { world := { clusters := [mc], namespaces := [mc.name],
               clusterRoles := [clusterRolePrefix ++ ":" ++ mc.name],
               clusterRoleBindings := [clusterRolePrefix ++ ":" ++ mc.name],
               namespaced := [] },
    trace := [] }

/-- The cluster `east-1` after it has been accepted and provisioned. -/
def east1Accepted : ManagedCluster :=
  { name := "east-1", deletionTimestamp := none, finalizers := [managedClusterFinalizer],
    hubAcceptsClient := true,
    conditions := [{ type := ManagedClusterConditionHubAccepted, status := .condTrue,
                     reason := "HubClusterAdminAccepted",
                     message := "Accepted by hub cluster admin", lastTransitionTime := 3 }] }

/-- The accepted `east-1` after the administrator has set `hubAcceptsClient` to false. -/
def east1Revoked : ManagedCluster :=
  { east1Accepted with hubAcceptsClient := false }

/-- The object exists on the hub. -/
def World.has (w : World) : ManifestObject → Prop
  | .clusterRole n => n ∈ w.clusterRoles
  | .clusterRoleBinding n => n ∈ w.clusterRoleBindings
  | .ns n => n ∈ w.namespaces
  | .inNamespace n f => (n, f) ∈ w.namespaced

/-- The result `ApplyDirectly` reports for one manifest. -/
def applyResultOf (env : Env) (managedClusterName file : String) : ApplyResult :=
  { File := file, typeName := env.applyType file,
    Error := (env.fault (.applyManifest file managedClusterName)).map Fault.toError }

/-- The errors `sync` collects for the manifests: one per manifest with an injected fault, in
the order of the files. -/
def manifestErrors (env : Env) (managedClusterName : String) (files : List String) :
    List PlainError :=
  files.filterMap (fun file =>
    (env.fault (.applyManifest file managedClusterName)).map (fun f =>
      PlainError.errorf (goQuote file ++ " (" ++ env.applyType file ++ "): " ++ f.msg)))

/-- The status-update error of the accept path, as a list: empty when the update is not
refused. -/
def statusUpdateErrors (env : Env) (managedClusterName : String) (cond : StatusCondition) :
    List PlainError :=
  match env.fault (.updateStatus managedClusterName cond) with
  | some f => [f.toError]
  | none => []

/-- The guarded `east-1` once the administrator accepts it, before any provisioning. -/
def east1Guarded : ManagedCluster :=
  { name := "east-1", deletionTimestamp := none, finalizers := [managedClusterFinalizer],
    hubAcceptsClient := true, conditions := [] }

/-- One of the three dependents the cleanup deletes exists for the cluster. -/
def hasDependents (w : World) (name : String) : Prop :=
  name ∈ w.namespaces
  ∨ (clusterRolePrefix ++ ":" ++ name) ∈ w.clusterRoles
  ∨ (clusterRolePrefix ++ ":" ++ name) ∈ w.clusterRoleBindings

instance (w : World) (name : String) : Decidable (hasDependents w name) := by
  unfold hasDependents
  infer_instance

/-- The administrator sets `hubAcceptsClient` of the cluster. -/
def St.setAccepts (s : St) (name : String) (v : Bool) : St :=
  { s with world := { s.world with
      clusters := s.world.clusters.map
        (fun c => if c.name == name then { c with hubAcceptsClient := v } else c) } }

/-- Deletion of the cluster is requested at time `t + 1`; a deletion timestamp that is set is
never changed. -/
def St.requestDeletion (s : St) (name : String) (t : Nat) : St :=
  { s with world := { s.world with
      clusters := s.world.clusters.map
        (fun c => if c.name == name then
            (if IsZero c.deletionTimestamp then { c with deletionTimestamp := some (t + 1) }
             else c)
          else c) } }

/-- The states of the hub reachable for one cluster: from a state in which the cluster has no
dependents, by reconciliations of the cluster under environments that satisfy `allowed`, by
changes of `hubAcceptsClient` and by deletion requests. -/
inductive Reachable (allowed : Env → Prop) (name : String) : St → Prop where
  | init (s : St) (h : ¬ hasDependents s.world name) : Reachable allowed name s
  | reconcile (s : St) (env : Env) (hs : Reachable allowed name s) (henv : allowed env) :
      Reachable allowed name (sync env name s).2
  | setAccepts (s : St) (v : Bool) (hs : Reachable allowed name s) :
      Reachable allowed name (s.setAccepts name v)
  | requestDeletion (s : St) (t : Nat) (hs : Reachable allowed name s) :
      Reachable allowed name (s.requestDeletion name t)

/-- The status update of the accept path (the one that writes status True) is never refused;
every other call may fail. -/
def acceptStatusUnfaulted (env : Env) : Prop :=
  ∀ name cond, cond.status = .condTrue → env.fault (.updateStatus name cond) = none

/-- An environment in which every status update is refused, and nothing else fails. -/
def statusFaultEnv : Env :=
  { fault := fun c =>
      match c with
      | .updateStatus _ _ => some { reason := .internalError, msg := "etcd unavailable" }
      | _ => none,
    now := 7, applyType := fun _ => "string" }

/-- The hub after `east-1` was provisioned while its status update was refused, and the
administrator then set `hubAcceptsClient` to false. -/
def leakedHub : St :=
  (sync statusFaultEnv "east-1" (hubWith east1Guarded)).2.setAccepts "east-1" false

/-- The gate of the controller, as a fact about the hub: when a dependent of the cluster
exists, the stored cluster is deleting, or it carries the guard and its HubAccepted condition
is True. -/
def Gated (name : String) (w : World) : Prop :=
  ∀ mc, w.clusters.find? (fun c => c.name == name) = some mc → hasDependents w name →
    IsZero mc.deletionTimestamp = false
    ∨ (managedClusterFinalizer ∈ mc.finalizers
        ∧ IsConditionTrue (FindManagedClusterCondition mc.conditions
            ManagedClusterConditionHubAccepted) = true)

/-- The hub after `east-1` was provisioned and accepted, and the administrator then set
`hubAcceptsClient` to false. -/
def revokedHub : St :=
  (sync quietEnv "east-1" (hubWith east1Guarded)).2.setAccepts "east-1" false

/-- An environment in which the namespace manifest and the work role manifest fail to apply,
and nothing else fails. -/
def applyFaultEnv : Env :=
  { fault := fun c =>
      match c with
      | .applyManifest file _ =>
        if file = "manifests/managedcluster-namespace.yaml" then
          some { reason := .forbidden, msg := "namespaces is forbidden" }
        else if file = "manifests/managedcluster-work-role.yaml" then
          some { reason := .internalError, msg := "etcd unavailable" }
        else none
      | _ => none,
    now := 7, applyType := fun _ => "string" }

/-- An environment in which the delete of a cluster role is refused, and nothing else
fails. -/
def deleteFaultEnv : Env :=
  { fault := fun c =>
      match c with
      | .deleteClusterRole _ => some { reason := .internalError, msg := "etcd unavailable" }
      | _ => none,
    now := 7, applyType := fun _ => "string" }

/-- A hub that stores `east-1` and, of its dependents, only the cluster role. -/
def hubRoleOnly : St :=
  { world := { clusters := [east1Deleting], namespaces := [],
               clusterRoles := [clusterRolePrefix ++ ":" ++ "east-1"],
               clusterRoleBindings := [], namespaced := [] },
    trace := [] }

/-- A cluster whose finalizers hold the guard twice, between other finalizers. -/
def twiceGuarded : ManagedCluster :=
  { name := "east-1", deletionTimestamp := some 5,
    finalizers := ["a", managedClusterFinalizer, "b", managedClusterFinalizer],
    hubAcceptsClient := true, conditions := [] }

/-- The call is an Update of a cluster. -/
def Call.isUpdate : Call → Bool
  | .updateManagedCluster _ => true
  | _ => false

/-- The call is a delete of a namespace, a cluster role or a cluster role binding. -/
def Call.isDelete : Call → Bool
  | .deleteNamespace _ => true
  | .deleteClusterRole _ => true
  | .deleteClusterRoleBinding _ => true
  | _ => false

/-- The call is the apply of a manifest. -/
def Call.isApply : Call → Bool
  | .applyManifest _ _ => true
  | _ => false

/-- The call is a request to update a status condition. -/
def Call.isStatusUpdate : Call → Bool
  | .updateStatus _ _ => true
  | _ => false

/-- An environment in which every Get of a cluster is refused, and nothing else fails. -/
def getFaultEnv : Env :=
  { fault := fun c =>
      match c with
      | .getManagedCluster _ => some { reason := .internalError, msg := "etcd unavailable" }
      | _ => none,
    now := 7, applyType := fun _ => "string" }

/-- The deleting `east-1` without the guard finalizer. -/
def east1Unguarded : ManagedCluster :=
  { name := "east-1", deletionTimestamp := some 5, finalizers := ["other"],
    hubAcceptsClient := true, conditions := [] }

/-- The finalizer gate, as a fact about the hub: when a dependent of the cluster exists, the
stored cluster is deleting or carries the guard. -/
def GuardGated (name : String) (w : World) : Prop :=
  ∀ mc, w.clusters.find? (fun c => c.name == name) = some mc → hasDependents w name →
    IsZero mc.deletionTimestamp = false ∨ managedClusterFinalizer ∈ mc.finalizers

/-! # Theorems -/

/-! ## Basic facts -/

theorem hasFinalizer_iff (finalizers : List String) :
    hasFinalizer finalizers = true ↔ managedClusterFinalizer ∈ finalizers := by
  unfold hasFinalizer
  simp [List.any_eq_true]

theorem hasFinalizer_eq_false (finalizers : List String)
    (h : managedClusterFinalizer ∉ finalizers) : hasFinalizer finalizers = false := by
  cases hf : hasFinalizer finalizers
  · rfl
  · exact absurd ((hasFinalizer_iff finalizers).1 hf) h

theorem clientGet_found (env : Env) (name : String) (s : St) (mc : ManagedCluster)
    (hfault : env.fault (.getManagedCluster name) = none)
    (hstored : s.world.clusters.find? (fun c => c.name == name) = some mc) :
    clientGet env name s = (.ok mc, record (.getManagedCluster name) s) := by
  simp [clientGet, hfault, hstored]

/-! ## The cleanup routine -/

theorem isFailure_fault (f : Fault) : isFailure (some f.toError) = true := by
  cases f with
  | mk reason msg => cases reason <;> rfl

theorem isFailure_notFound (resource name : String) :
    isFailure (some (notFoundError resource name)) = false := rfl

@[simp] theorem IsNotFound_notFoundError (resource name : String) :
    IsNotFound (notFoundError resource name) = true := rfl

@[simp] theorem IsNotFound_fault (f : Fault) : IsNotFound f.toError = false := by
  cases f with
  | mk reason msg => cases reason <;> rfl

/-- The cleanup never touches the stored clusters. -/
theorem removeManagedClusterResources_clusters (env : Env) (name : String) (s : St) :
    (removeManagedClusterResources env name s).2.world.clusters = s.world.clusters := by
  simp only [removeManagedClusterResources, deleteNamespace, deleteClusterRole,
    deleteClusterRoleBinding, record]
  cases env.fault (.deleteNamespace name) <;>
  cases env.fault (.deleteClusterRole (clusterRolePrefix ++ ":" ++ name)) <;>
  cases env.fault (.deleteClusterRoleBinding (clusterRolePrefix ++ ":" ++ name)) <;>
  simp [isFailure] <;> split_ifs <;> simp

/-- With no fault on its deletes the cleanup returns nil, makes its six calls and leaves none
of the three objects behind. -/
theorem removeManagedClusterResources_unfaulted (env : Env) (name : String) (s : St)
    (h : deletesUnfaulted env name) :
    (removeManagedClusterResources env name s).1 = none
    ∧ (removeManagedClusterResources env name s).2.trace = s.trace ++ cleanupCalls name
    ∧ name ∉ (removeManagedClusterResources env name s).2.world.namespaces
    ∧ (clusterRolePrefix ++ ":" ++ name) ∉
        (removeManagedClusterResources env name s).2.world.clusterRoles
    ∧ (clusterRolePrefix ++ ":" ++ name) ∉
        (removeManagedClusterResources env name s).2.world.clusterRoleBindings := by
  obtain ⟨h1, h2, h3⟩ := h
  simp only [removeManagedClusterResources, deleteNamespace, deleteClusterRole,
    deleteClusterRoleBinding, record, h1, h2, h3, cleanupCalls]
  split_ifs <;> simp_all [isFailure]

/-- The error of the cleanup is the first injected fault of its deletes. -/
theorem removeManagedClusterResources_result (env : Env) (name : String) (s : St) :
    (removeManagedClusterResources env name s).1 =
      (firstDeleteFault env name).map Fault.toError := by
  simp only [removeManagedClusterResources, deleteNamespace, deleteClusterRole,
    deleteClusterRoleBinding, record, firstDeleteFault]
  cases env.fault (.deleteNamespace name) <;>
  cases env.fault (.deleteClusterRole (clusterRolePrefix ++ ":" ++ name)) <;>
  cases env.fault (.deleteClusterRoleBinding (clusterRolePrefix ++ ":" ++ name)) <;>
  simp [isFailure] <;> split_ifs <;> simp_all

theorem deletesUnfaulted_of_success (env : Env) (name : String) (s : St)
    (h : (removeManagedClusterResources env name s).1 = none) : deletesUnfaulted env name := by
  rw [removeManagedClusterResources_result] at h
  unfold firstDeleteFault at h
  unfold deletesUnfaulted
  cases h1 : env.fault (.deleteNamespace name) <;>
  cases h2 : env.fault (.deleteClusterRole (clusterRolePrefix ++ ":" ++ name)) <;>
  cases h3 : env.fault (.deleteClusterRoleBinding (clusterRolePrefix ++ ":" ++ name)) <;>
  simp_all

/-- The trace of the cleanup. -/
theorem removeManagedClusterResources_trace (env : Env) (name : String) (s : St) :
    (removeManagedClusterResources env name s).2.trace = s.trace ++ cleanupTrace env name := by
  simp only [removeManagedClusterResources, deleteNamespace, deleteClusterRole,
    deleteClusterRoleBinding, record, cleanupTrace, cleanupCalls]
  cases env.fault (.deleteNamespace name) <;>
  cases env.fault (.deleteClusterRole (clusterRolePrefix ++ ":" ++ name)) <;>
  cases env.fault (.deleteClusterRoleBinding (clusterRolePrefix ++ ":" ++ name)) <;>
  simp [isFailure] <;> split_ifs <;> simp_all

theorem cleanupCalls_isCleanupCall (name : String) :
    ∀ c ∈ cleanupCalls name, c.isCleanupCall = true := by
  simp [cleanupCalls, Call.isCleanupCall]

theorem cleanupTrace_isCleanupCall (env : Env) (name : String) :
    ∀ c ∈ cleanupTrace env name, c.isCleanupCall = true := by
  intro c hc
  have hsub : ∀ n, c ∈ (cleanupCalls name).take n → c.isCleanupCall = true :=
    fun n h => cleanupCalls_isCleanupCall name c (List.mem_of_mem_take h)
  unfold cleanupTrace at hc
  split at hc
  · exact hsub _ hc
  · split at hc
    · exact hsub _ hc
    · split at hc
      · exact hsub _ hc
      · exact cleanupCalls_isCleanupCall name c hc

/-! ## The finalizer step -/

theorem find_name {clusters : List ManagedCluster} {name : String} {mc : ManagedCluster}
    (hstored : clusters.find? (fun c => c.name == name) = some mc) : mc.name = name := by
  have := List.find?_some hstored
  simpa using this

theorem any_of_find {clusters : List ManagedCluster} {name : String} {mc : ManagedCluster}
    (hstored : clusters.find? (fun c => c.name == name) = some mc) :
    clusters.any (fun c => c.name == name) = true := by
  rw [List.any_eq_true]
  exact ⟨mc, List.mem_of_find?_eq_some hstored, by simp [find_name hstored]⟩

/-- The finalizer step of `sync` as one equation. -/
theorem sync_eq_addFinalizer (env : Env) (name : String) (s : St) (mc : ManagedCluster)
    (hfault : env.fault (.getManagedCluster name) = none)
    (hstored : s.world.clusters.find? (fun c => c.name == name) = some mc)
    (hzero : IsZero mc.deletionTimestamp = true)
    (hguard : managedClusterFinalizer ∉ mc.finalizers) :
    sync env name s =
      ((clientUpdate env { mc with finalizers := mc.finalizers ++ [managedClusterFinalizer] }
          (record (.getManagedCluster name) s)).1.map .single,
       (clientUpdate env { mc with finalizers := mc.finalizers ++ [managedClusterFinalizer] }
          (record (.getManagedCluster name) s)).2) := by
  simp only [sync, clientGet_found env name s mc hfault hstored, hzero,
    hasFinalizer_eq_false _ hguard]
  rfl

/-- C1: for a stored cluster that is not deleting and lacks the guard finalizer, one `sync`
makes exactly the calls Get and Update, the Update carrying the cluster read with the guard
appended at the end of its finalizers and its other fields unchanged; it makes no delete, no
apply and no status update, returns the error of the Update, and leaves the dependent objects
as they were.  When the Update succeeds the cluster is stored with the new finalizers. -/
theorem sync_adds_guard_finalizer (env : Env) (name : String) (s : St) (mc : ManagedCluster)
    (hfault : env.fault (.getManagedCluster name) = none)
    (hstored : s.world.clusters.find? (fun c => c.name == name) = some mc)
    (hzero : IsZero mc.deletionTimestamp = true)
    (hguard : managedClusterFinalizer ∉ mc.finalizers) :
    (sync env name s).2.trace = s.trace ++ [.getManagedCluster name,
        .updateManagedCluster
          { mc with finalizers := mc.finalizers ++ [managedClusterFinalizer] }]
    ∧ (sync env name s).1 = (env.fault (.updateManagedCluster
          { mc with finalizers := mc.finalizers ++ [managedClusterFinalizer] })).map
        (fun f => .single f.toError)
    ∧ (sync env name s).2.world.namespaces = s.world.namespaces
    ∧ (sync env name s).2.world.clusterRoles = s.world.clusterRoles
    ∧ (sync env name s).2.world.clusterRoleBindings = s.world.clusterRoleBindings
    ∧ (sync env name s).2.world.namespaced = s.world.namespaced
    ∧ (sync env name s).2.world.clusters =
        (if env.fault (.updateManagedCluster
            { mc with finalizers := mc.finalizers ++ [managedClusterFinalizer] }) = none then
          s.world.clusters.map (fun c => if c.name == name then
            { mc with finalizers := mc.finalizers ++ [managedClusterFinalizer] } else c)
        else s.world.clusters) := by
  have hany := any_of_find hstored
  rw [sync_eq_addFinalizer env name s mc hfault hstored hzero hguard]
  obtain rfl : mc.name = name := find_name hstored
  cases hu : env.fault (.updateManagedCluster
      { mc with finalizers := mc.finalizers ++ [managedClusterFinalizer] }) with
  | none => simp [clientUpdate, record, hu, hany]
  | some f => simp [clientUpdate, record, hu, hany]

/-- The scenario of C1: the fresh `east-1` ends with the guard as its only finalizer and no
condition, and no dependent object is created. -/
theorem sync_adds_guard_finalizer_witness :
    (sync quietEnv "east-1" (hubWith east1Fresh)).2.trace =
      [.getManagedCluster "east-1",
       .updateManagedCluster { east1Fresh with finalizers := [managedClusterFinalizer] }]
    ∧ (sync quietEnv "east-1" (hubWith east1Fresh)).2.world.clusters =
      [{ east1Fresh with finalizers := [managedClusterFinalizer] }]
    ∧ (sync quietEnv "east-1" (hubWith east1Fresh)).2.world.namespaces = [] := by
  have h := sync_adds_guard_finalizer quietEnv "east-1" (hubWith east1Fresh) east1Fresh
    rfl (by decide) rfl (by decide)
  refine ⟨?_, ?_, ?_⟩
  · simpa [hubWith, east1Fresh] using h.1
  · have := h.2.2.2.2.2.2
    simpa [hubWith, east1Fresh, quietEnv] using this
  · simpa [hubWith] using h.2.2.1

/-! ## The delete path -/

theorem find_map_replace (clusters : List ManagedCluster) (name : String) (obj : ManagedCluster)
    (hobj : obj.name = name) (hany : clusters.any (fun c => c.name == name) = true) :
    (clusters.map (fun c => if c.name == name then obj else c)).find?
      (fun c => c.name == name) = some obj := by
  induction clusters with
  | nil => simp at hany
  | cons c cs ih =>
    by_cases hc : c.name = name
    · simp [hc, hobj]
    · have hany' : cs.any (fun c => c.name == name) = true := by
        simpa [hc] using hany
      have hb : (c.name == name) = false := by simpa using hc
      simp only [List.map_cons, hb, Bool.false_eq_true, if_false, List.find?_cons]
      exact ih hany'

/-- The delete path of `sync` as one equation. -/
theorem sync_eq_deleting (env : Env) (name : String) (s : St) (mc : ManagedCluster)
    (hfault : env.fault (.getManagedCluster name) = none)
    (hstored : s.world.clusters.find? (fun c => c.name == name) = some mc)
    (hdel : IsZero mc.deletionTimestamp = false) :
    sync env name s =
      match removeManagedClusterResources env name (record (.getManagedCluster name) s) with
      | (some err, s2) => (some (.single err), s2)
      | (none, s2) =>
        ((removeManagedClusterFinalizer env mc s2).1.map .single,
         (removeManagedClusterFinalizer env mc s2).2) := by
  simp only [sync, clientGet_found env name s mc hfault hstored, hdel]
  rfl

/-- The finalizer removal on a hub that stores the cluster: when the Update it may issue is
not refused, the stored cluster is the old one without the guard, and the dependents are not
touched. -/
theorem removeManagedClusterFinalizer_stored (env : Env) (name : String) (s : St)
    (mc : ManagedCluster)
    (hstored : s.world.clusters.find? (fun c => c.name == name) = some mc)
    (hupd : managedClusterFinalizer ∈ mc.finalizers →
      env.fault (.updateManagedCluster
        { mc with finalizers := mc.finalizers.filter (fun f => f != managedClusterFinalizer) })
        = none) :
    (removeManagedClusterFinalizer env mc s).1 = none
    ∧ (removeManagedClusterFinalizer env mc s).2.world.clusters.find?
        (fun c => c.name == name) =
        some { mc with
          finalizers := mc.finalizers.filter (fun f => f != managedClusterFinalizer) }
    ∧ (removeManagedClusterFinalizer env mc s).2.world.namespaces = s.world.namespaces
    ∧ (removeManagedClusterFinalizer env mc s).2.world.clusterRoles = s.world.clusterRoles
    ∧ (removeManagedClusterFinalizer env mc s).2.world.clusterRoleBindings =
        s.world.clusterRoleBindings := by
  have hany := any_of_find hstored
  have hname : mc.name = name := find_name hstored
  subst hname
  by_cases hg : managedClusterFinalizer ∈ mc.finalizers
  · have hlen : (mc.finalizers.filter (fun f => f != managedClusterFinalizer)).length
        ≠ mc.finalizers.length := by
      intro h
      have := (List.filter_length_eq_length.1 h) _ hg
      simp at this
    have hlen' : mc.finalizers.length
        ≠ (mc.finalizers.filter (fun f => f != managedClusterFinalizer)).length :=
      fun h => hlen h.symm
    have hmap := find_map_replace s.world.clusters mc.name
      { mc with finalizers := mc.finalizers.filter (fun f => f != managedClusterFinalizer) }
      rfl hany
    have hne : (mc.finalizers.length
        != (mc.finalizers.filter (fun f => f != managedClusterFinalizer)).length) = true := by
      simpa using hlen'
    simp only [removeManagedClusterFinalizer, clientUpdate, record, hupd hg, hany, hne, if_true]
    exact ⟨trivial, hmap, trivial, trivial, trivial⟩
  · have hfil : mc.finalizers.filter (fun f => f != managedClusterFinalizer) = mc.finalizers := by
      rw [List.filter_eq_self]
      intro a ha
      have : a ≠ managedClusterFinalizer := fun h => hg (h ▸ ha)
      simpa using this
    simp [removeManagedClusterFinalizer, hfil, hstored]

theorem callsSince_append (s s' : St) (calls : List Call) (h : s'.trace = s.trace ++ calls) :
    callsSince s s' = calls := by
  simp [callsSince, h]

/-- The finalizer removal touches none of the dependents, whatever its Update does. -/
theorem removeManagedClusterFinalizer_dependents (env : Env) (mc : ManagedCluster) (s : St) :
    (removeManagedClusterFinalizer env mc s).2.world.namespaces = s.world.namespaces
    ∧ (removeManagedClusterFinalizer env mc s).2.world.clusterRoles = s.world.clusterRoles
    ∧ (removeManagedClusterFinalizer env mc s).2.world.clusterRoleBindings =
        s.world.clusterRoleBindings := by
  simp only [removeManagedClusterFinalizer]
  split_ifs
  · unfold clientUpdate
    cases env.fault (.updateManagedCluster { mc with
        finalizers := mc.finalizers.filter (fun f => f != managedClusterFinalizer) }) with
    | some f => exact ⟨rfl, rfl, rfl⟩
    | none =>
      simp only [record]
      split_ifs <;> exact ⟨rfl, rfl, rfl⟩
  · exact ⟨rfl, rfl, rfl⟩

/-- C2, amended: for a stored cluster with the deletion timestamp set, if the cleanup
succeeds, then after `sync` the namespace, the cluster role and the cluster role binding of the
cluster do not exist, whatever the Update does; if moreover the Update that removes the guard
(issued when the guard is there) is not refused, `sync` returns nil and the stored cluster is
the old one with the guard filtered out of its finalizers.  If the cleanup fails, `sync`
returns that failure, issues no cluster Update and leaves the stored clusters, hence the
guard, as they were. -/
theorem sync_deleting (env : Env) (name : String) (s : St) (mc : ManagedCluster)
    (hfault : env.fault (.getManagedCluster name) = none)
    (hstored : s.world.clusters.find? (fun c => c.name == name) = some mc)
    (hdel : IsZero mc.deletionTimestamp = false) :
    ((removeManagedClusterResources env name (record (.getManagedCluster name) s)).1 = none →
      name ∉ (sync env name s).2.world.namespaces
      ∧ (clusterRolePrefix ++ ":" ++ name) ∉ (sync env name s).2.world.clusterRoles
      ∧ (clusterRolePrefix ++ ":" ++ name) ∉ (sync env name s).2.world.clusterRoleBindings
      ∧ ((managedClusterFinalizer ∈ mc.finalizers →
          env.fault (.updateManagedCluster { mc with
            finalizers := mc.finalizers.filter (fun f => f != managedClusterFinalizer) })
            = none) →
        (sync env name s).1 = none
        ∧ (sync env name s).2.world.clusters.find? (fun c => c.name == name) =
            some { mc with
              finalizers := mc.finalizers.filter (fun f => f != managedClusterFinalizer) }
        ∧ managedClusterFinalizer ∉
            mc.finalizers.filter (fun f => f != managedClusterFinalizer)))
    ∧ (∀ err,
      (removeManagedClusterResources env name (record (.getManagedCluster name) s)).1
        = some err →
      (sync env name s).1 = some (.single err)
      ∧ (∀ obj, Call.updateManagedCluster obj ∉ callsSince s (sync env name s).2)
      ∧ (sync env name s).2.world.clusters = s.world.clusters) := by
  rw [sync_eq_deleting env name s mc hfault hstored hdel]
  have hcl := removeManagedClusterResources_clusters env name (record (.getManagedCluster name) s)
  have htr := removeManagedClusterResources_trace env name (record (.getManagedCluster name) s)
  constructor
  · intro hok
    have hun := deletesUnfaulted_of_success env name _ hok
    obtain ⟨_, _, hns, hcr, hcrb⟩ :=
      removeManagedClusterResources_unfaulted env name (record (.getManagedCluster name) s) hun
    rcases hr : removeManagedClusterResources env name (record (.getManagedCluster name) s)
      with ⟨e, s2⟩
    rw [hr] at hok hcl hns hcr hcrb
    simp only at hok hcl hns hcr hcrb
    subst hok
    have hstored2 : s2.world.clusters.find? (fun c => c.name == name) = some mc := by
      rw [hcl]; exact hstored
    obtain ⟨f1, f2, f3⟩ := removeManagedClusterFinalizer_dependents env mc s2
    simp only [f1, f2, f3]
    refine ⟨hns, hcr, hcrb, ?_⟩
    intro hupd
    obtain ⟨h1, h2, _, _, _⟩ :=
      removeManagedClusterFinalizer_stored env name s2 mc hstored2 hupd
    simp only [h1, h2, Option.map_none']
    exact ⟨trivial, trivial, by simp⟩
  · intro err herr
    rcases hr : removeManagedClusterResources env name (record (.getManagedCluster name) s)
      with ⟨e, s2⟩
    rw [hr] at herr hcl htr
    simp only at herr hcl htr
    subst herr
    refine ⟨rfl, ?_, hcl⟩
    intro obj hmem
    have hcalls : callsSince s s2 = .getManagedCluster name :: cleanupTrace env name := by
      apply callsSince_append
      rw [htr]
      simp [record]
    simp only [hcalls, List.mem_cons] at hmem
    rcases hmem with h | h
    · cases h
    · have := cleanupTrace_isCleanupCall env name _ h
      simp [Call.isCleanupCall] at this

/-- The scenario of C2: deletion requested on the provisioned `east-1`; afterwards the
dependents are gone and the stored cluster has no finalizer; the namespace is gone as well when
the Update is answered with a conflict. -/
theorem sync_deleting_witness :
    (sync quietEnv "east-1" (hubProvisioned east1Deleting)).1 = none
    ∧ (sync quietEnv "east-1" (hubProvisioned east1Deleting)).2.world.clusters.find?
        (fun c => c.name == "east-1") = some { east1Deleting with finalizers := [] }
    ∧ "east-1" ∉ (sync quietEnv "east-1" (hubProvisioned east1Deleting)).2.world.namespaces
    ∧ (clusterRolePrefix ++ ":" ++ "east-1") ∉
        (sync quietEnv "east-1" (hubProvisioned east1Deleting)).2.world.clusterRoles
    ∧ (clusterRolePrefix ++ ":" ++ "east-1") ∉
        (sync quietEnv "east-1" (hubProvisioned east1Deleting)).2.world.clusterRoleBindings
    ∧ "east-1" ∉
        (sync conflictEnv "east-1" (hubProvisioned east1Deleting)).2.world.namespaces := by
  have h := (sync_deleting quietEnv "east-1" (hubProvisioned east1Deleting) east1Deleting
    rfl (by decide) rfl).1
    (by simp [removeManagedClusterResources_result, firstDeleteFault, quietEnv])
  have hc := (sync_deleting conflictEnv "east-1" (hubProvisioned east1Deleting) east1Deleting
    rfl (by decide) rfl).1
    (by simp [removeManagedClusterResources_result, firstDeleteFault, conflictEnv])
  have hg := h.2.2.2 (fun _ => rfl)
  refine ⟨hg.1, ?_, h.1, h.2.1, h.2.2.1, hc.1⟩
  have h2 := hg.2.1
  have hf : east1Deleting.finalizers.filter (fun f => f != managedClusterFinalizer) = [] := by
    decide
  rw [hf] at h2
  exact h2

/-- C2 as stated fails when the Update that removes the guard is refused: the cleanup of the
deleting `east-1` succeeds, yet after `sync` the stored cluster still carries the guard. -/
theorem sync_deleting_guard_kept_on_conflict :
    IsZero east1Deleting.deletionTimestamp = false
    ∧ (removeManagedClusterResources conflictEnv "east-1"
        (record (.getManagedCluster "east-1") (hubProvisioned east1Deleting))).1 = none
    ∧ (sync conflictEnv "east-1" (hubProvisioned east1Deleting)).2.world.clusters
        = [east1Deleting]
    ∧ managedClusterFinalizer ∈ east1Deleting.finalizers
    ∧ (sync conflictEnv "east-1" (hubProvisioned east1Deleting)).1 =
        some (.single (.status .conflict "object has been modified")) := by
  decide

/-! ## The status updater -/

theorem find_map_update (clusters : List ManagedCluster) (name : String)
    (g : ManagedCluster → ManagedCluster) (hg : ∀ c, (g c).name = c.name) :
    (clusters.map (fun c => if c.name == name then g c else c)).find?
      (fun c => c.name == name) = (clusters.find? (fun c => c.name == name)).map g := by
  induction clusters with
  | nil => rfl
  | cons c cs ih =>
    by_cases hc : c.name = name
    · have hb : (c.name == name) = true := by simpa using hc
      have hb' : ((g c).name == name) = true := by simpa [hg] using hc
      simp only [List.map_cons, hb, if_true, List.find?_cons, hb', Option.map_some']
    · have hb : (c.name == name) = false := by simpa using hc
      simp only [List.map_cons, hb, Bool.false_eq_true, if_false, List.find?_cons]
      exact ih

/-- The status updater on a hub that stores the cluster: one call, the injected fault as its
error, the dependents untouched, and without a fault the stored conditions are the old ones
with the condition set. -/
theorem UpdateManagedClusterStatus_stored (env : Env) (name : String) (cond : StatusCondition)
    (s : St) (mc : ManagedCluster)
    (hstored : s.world.clusters.find? (fun c => c.name == name) = some mc) :
    (UpdateManagedClusterStatus env name cond s).2.trace = s.trace ++ [.updateStatus name cond]
    ∧ (UpdateManagedClusterStatus env name cond s).1.2 =
        (env.fault (.updateStatus name cond)).map Fault.toError
    ∧ (UpdateManagedClusterStatus env name cond s).2.world.namespaces = s.world.namespaces
    ∧ (UpdateManagedClusterStatus env name cond s).2.world.clusterRoles = s.world.clusterRoles
    ∧ (UpdateManagedClusterStatus env name cond s).2.world.clusterRoleBindings =
        s.world.clusterRoleBindings
    ∧ (UpdateManagedClusterStatus env name cond s).2.world.namespaced = s.world.namespaced
    ∧ (UpdateManagedClusterStatus env name cond s).2.world.clusters.find?
        (fun c => c.name == name) =
        some (if env.fault (.updateStatus name cond) = none then
          { mc with conditions := UpdateManagedClusterConditionFn env.now cond mc.conditions }
        else mc)
    ∧ (UpdateManagedClusterStatus env name cond s).1.1 =
        decide (env.fault (.updateStatus name cond) = none
          ∧ UpdateManagedClusterConditionFn env.now cond mc.conditions ≠ mc.conditions) := by
  cases hf : env.fault (.updateStatus name cond) with
  | some f => simp [UpdateManagedClusterStatus, record, hf, hstored]
  | none =>
    by_cases hsame : UpdateManagedClusterConditionFn env.now cond mc.conditions = mc.conditions
    · simp [UpdateManagedClusterStatus, record, hf, hstored, hsame]
    · have hmap := find_map_update s.world.clusters name
        (fun c => { c with
          conditions := UpdateManagedClusterConditionFn env.now cond mc.conditions })
        (fun _ => rfl)
      rw [hstored] at hmap
      simp only [UpdateManagedClusterStatus, record, hf, hstored, hsame, if_false]
      exact ⟨trivial, rfl, trivial, trivial, trivial, trivial, by simpa using hmap,
        by simp [hsame]⟩

/-- After a condition has been set, the entry of its type carries its status, reason and
message. -/
theorem find_UpdateManagedClusterConditionFn (now : Nat) (cond : StatusCondition)
    (conditions : List StatusCondition) :
    ∃ c, FindManagedClusterCondition (UpdateManagedClusterConditionFn now cond conditions)
        cond.type = some c
      ∧ c.type = cond.type ∧ c.status = cond.status ∧ c.reason = cond.reason
      ∧ c.message = cond.message := by
  induction conditions with
  | nil => exact ⟨{ cond with lastTransitionTime := now },
      by simp [UpdateManagedClusterConditionFn, FindManagedClusterCondition], rfl, rfl, rfl, rfl⟩
  | cons c cs ih =>
    unfold UpdateManagedClusterConditionFn
    by_cases ht : c.type = cond.type
    · by_cases hsame : c.status = cond.status ∧ c.reason = cond.reason ∧ c.message = cond.message
      · exact ⟨c, by simp [ht, hsame, FindManagedClusterCondition], ht, hsame.1, hsame.2.1,
          hsame.2.2⟩
      · refine ⟨StatusCondition.mk c.type cond.status cond.reason cond.message
            (if c.status = cond.status then c.lastTransitionTime else now), ?_, ht, rfl, rfl, rfl⟩
        simp only [ht, hsame, if_true, if_false, FindManagedClusterCondition,
          List.find?_cons, beq_self_eq_true]
    · obtain ⟨c', hfind, hrest⟩ := ih
      refine ⟨c', ?_, hrest⟩
      have hb : (c.type == cond.type) = false := by simpa using ht
      simp only [ht, if_false, FindManagedClusterCondition, List.find?_cons, hb]
      exact hfind

/-! ## The deny path -/

/-- The deny path of `sync` as one equation. -/
theorem sync_eq_deny (env : Env) (name : String) (s : St) (mc : ManagedCluster)
    (hfault : env.fault (.getManagedCluster name) = none)
    (hstored : s.world.clusters.find? (fun c => c.name == name) = some mc)
    (hzero : IsZero mc.deletionTimestamp = true)
    (hguard : managedClusterFinalizer ∈ mc.finalizers)
    (hdenied : mc.hubAcceptsClient = false)
    (htrue : IsConditionTrue (FindManagedClusterCondition mc.conditions
      ManagedClusterConditionHubAccepted) = true) :
    sync env name s =
      match removeManagedClusterResources env name
        (record (.event "ManagedClusterDenied"
          ("managed cluster " ++ name ++ " is denied by hub cluster admin"))
          (record (.getManagedCluster name) s)) with
      | (some err, s3) => (some (.single err), s3)
      | (none, s3) =>
        ((UpdateManagedClusterStatus env name deniedCondition s3).1.2.map .single,
         (UpdateManagedClusterStatus env name deniedCondition s3).2) := by
  simp only [sync, clientGet_found env name s mc hfault hstored, hzero,
    (hasFinalizer_iff _).2 hguard, hdenied, htrue]
  rfl

/-- C3: for a stored cluster that is not deleting, carries the guard, has
`hubAcceptsClient = false` and whose HubAccepted condition is True, when the cleanup succeeds
`sync` makes the three deletes, then one status update with the condition HubAccepted, False,
"HubClusterAdminDenied", "Denied by hub cluster admin", and no other call (no apply, no
Update); none of the three dependents exists afterwards, and `sync` returns the error of the
status update, nil when there is none, in which case the stored cluster carries the
condition. -/
theorem sync_deny (env : Env) (name : String) (s : St) (mc : ManagedCluster)
    (hfault : env.fault (.getManagedCluster name) = none)
    (hstored : s.world.clusters.find? (fun c => c.name == name) = some mc)
    (hzero : IsZero mc.deletionTimestamp = true)
    (hguard : managedClusterFinalizer ∈ mc.finalizers)
    (hdenied : mc.hubAcceptsClient = false)
    (htrue : IsConditionTrue (FindManagedClusterCondition mc.conditions
      ManagedClusterConditionHubAccepted) = true)
    (hclean : (removeManagedClusterResources env name
        (record (.event "ManagedClusterDenied"
          ("managed cluster " ++ name ++ " is denied by hub cluster admin"))
          (record (.getManagedCluster name) s))).1 = none) :
    (sync env name s).2.trace = s.trace ++
      ([.getManagedCluster name,
        .event "ManagedClusterDenied"
          ("managed cluster " ++ name ++ " is denied by hub cluster admin")]
        ++ cleanupCalls name
        ++ [.updateStatus name
              { type := ManagedClusterConditionHubAccepted, status := .condFalse,
                reason := "HubClusterAdminDenied", message := "Denied by hub cluster admin",
                lastTransitionTime := 0 }])
    ∧ name ∉ (sync env name s).2.world.namespaces
    ∧ (clusterRolePrefix ++ ":" ++ name) ∉ (sync env name s).2.world.clusterRoles
    ∧ (clusterRolePrefix ++ ":" ++ name) ∉ (sync env name s).2.world.clusterRoleBindings
    ∧ (sync env name s).1 =
        (env.fault (.updateStatus name deniedCondition)).map (fun f => .single f.toError)
    ∧ (env.fault (.updateStatus name deniedCondition) = none →
        ∃ mc', (sync env name s).2.world.clusters.find? (fun c => c.name == name) = some mc'
          ∧ ∃ c, FindManagedClusterCondition mc'.conditions ManagedClusterConditionHubAccepted
              = some c
            ∧ c.status = .condFalse ∧ c.reason = "HubClusterAdminDenied"
            ∧ c.message = "Denied by hub cluster admin") := by
  rw [sync_eq_deny env name s mc hfault hstored hzero hguard hdenied htrue]
  have hun := deletesUnfaulted_of_success env name _ hclean
  obtain ⟨_, htr, hns, hcr, hcrb⟩ := removeManagedClusterResources_unfaulted env name
    (record (.event "ManagedClusterDenied"
      ("managed cluster " ++ name ++ " is denied by hub cluster admin"))
      (record (.getManagedCluster name) s)) hun
  have hcl := removeManagedClusterResources_clusters env name
    (record (.event "ManagedClusterDenied"
      ("managed cluster " ++ name ++ " is denied by hub cluster admin"))
      (record (.getManagedCluster name) s))
  rcases hr : removeManagedClusterResources env name
    (record (.event "ManagedClusterDenied"
      ("managed cluster " ++ name ++ " is denied by hub cluster admin"))
      (record (.getManagedCluster name) s)) with ⟨e, s3⟩
  rw [hr] at hclean htr hns hcr hcrb hcl
  simp only at hclean htr hns hcr hcrb hcl
  subst hclean
  have hstored3 : s3.world.clusters.find? (fun c => c.name == name) = some mc := by
    rw [hcl]; exact hstored
  obtain ⟨u1, u2, u3, u4, u5, _, u7, _⟩ :=
    UpdateManagedClusterStatus_stored env name deniedCondition s3 mc hstored3
  simp only [u1, u2, u3, u4, u5, u7, htr]
  refine ⟨by simp [record, deniedCondition], hns, hcr, hcrb, ?_, ?_⟩
  · cases env.fault (.updateStatus name deniedCondition) <;> rfl
  · intro hnone
    refine ⟨_, rfl, ?_⟩
    simp only [hnone, if_true]
    obtain ⟨c, hc, _, h2, h3, h4⟩ :=
      find_UpdateManagedClusterConditionFn env.now deniedCondition mc.conditions
    exact ⟨c, hc, h2, h3, h4⟩

/-- The scenario of C3: the administrator revokes the provisioned `east-1`. -/
theorem sync_deny_witness :
    "east-1" ∉ (sync quietEnv "east-1" (hubProvisioned east1Revoked)).2.world.namespaces
    ∧ (sync quietEnv "east-1" (hubProvisioned east1Revoked)).1 = none
    ∧ (sync quietEnv "east-1" (hubProvisioned east1Revoked)).2.world.clusters =
        [{ east1Revoked with conditions :=
            [{ type := ManagedClusterConditionHubAccepted, status := .condFalse,
               reason := "HubClusterAdminDenied", message := "Denied by hub cluster admin",
               lastTransitionTime := 7 }] }] := by
  have h := sync_deny quietEnv "east-1" (hubProvisioned east1Revoked) east1Revoked
    rfl (by decide) rfl (by decide) rfl (by decide)
    (by simp [removeManagedClusterResources_result, firstDeleteFault, quietEnv])
  exact ⟨h.2.1, h.2.2.2.2.1, by decide⟩

/-! ## The manifest provisioner: facts -/

theorem mem_ensure_self {α : Type} [DecidableEq α] (x : α) (l : List α) : x ∈ ensure x l := by
  unfold ensure
  split_ifs with h
  · exact h
  · simp

theorem mem_ensure_of_mem {α : Type} [DecidableEq α] (x y : α) (l : List α) (h : y ∈ l) :
    y ∈ ensure x l := by
  unfold ensure
  split_ifs
  · exact h
  · simp [h]

theorem withObject_has_self (w : World) (o : ManifestObject) : (w.withObject o).has o := by
  cases o <;> simp [World.withObject, World.has, mem_ensure_self]

theorem withObject_has_of_has (w : World) (o o' : ManifestObject) (h : w.has o') :
    (w.withObject o).has o' := by
  cases o <;> cases o' <;> simp_all [World.withObject, World.has, mem_ensure_of_mem]

theorem withObject_clusters (w : World) (o : ManifestObject) :
    (w.withObject o).clusters = w.clusters := by
  cases o <;> rfl

theorem applyManifest_eq (env : Env) (name file : String) (s : St) :
    applyManifest env name file s =
      (applyResultOf env name file,
       { world := if env.fault (.applyManifest file name) = none then
           s.world.withObject (manifestObject file name) else s.world,
         trace := s.trace ++ [.applyManifest file name] }) := by
  unfold applyManifest applyResultOf
  cases env.fault (.applyManifest file name) <;> simp [record]

/-- The results of `ApplyDirectly`: one per file, in order, carrying the injected fault. -/
theorem ApplyDirectly_results (env : Env) (name : String) (files : List String) (s : St) :
    (ApplyDirectly env name files s).1 = files.map (applyResultOf env name) := by
  induction files generalizing s with
  | nil => rfl
  | cons f fs ih => simp [ApplyDirectly, applyManifest_eq, ih]

/-- The calls of `ApplyDirectly`: one apply per file, in order. -/
theorem ApplyDirectly_trace (env : Env) (name : String) (files : List String) (s : St) :
    (ApplyDirectly env name files s).2.trace =
      s.trace ++ files.map (fun f => Call.applyManifest f name) := by
  induction files generalizing s with
  | nil => simp [ApplyDirectly]
  | cons f fs ih => simp [ApplyDirectly, applyManifest_eq, ih]

theorem ApplyDirectly_clusters (env : Env) (name : String) (files : List String) (s : St) :
    (ApplyDirectly env name files s).2.world.clusters = s.world.clusters := by
  induction files generalizing s with
  | nil => rfl
  | cons f fs ih =>
    simp only [ApplyDirectly, applyManifest_eq, ih]
    split_ifs
    · exact withObject_clusters _ _
    · rfl

/-- Applying manifests removes nothing from the hub. -/
theorem ApplyDirectly_has_of_has (env : Env) (name : String) (files : List String) (s : St)
    (o : ManifestObject) (h : s.world.has o) :
    (ApplyDirectly env name files s).2.world.has o := by
  induction files generalizing s with
  | nil => exact h
  | cons f fs ih =>
    simp only [ApplyDirectly, applyManifest_eq]
    apply ih
    show World.has (if _ then _ else _) o
    split_ifs
    · exact withObject_has_of_has _ _ _ h
    · exact h

/-- A manifest that is applied without a fault leaves its object on the hub. -/
theorem ApplyDirectly_has_applied (env : Env) (name : String) (files : List String) (s : St)
    (file : String) (hmem : file ∈ files)
    (hfault : env.fault (.applyManifest file name) = none) :
    (ApplyDirectly env name files s).2.world.has (manifestObject file name) := by
  induction files generalizing s with
  | nil => cases hmem
  | cons f fs ih =>
    simp only [ApplyDirectly, applyManifest_eq]
    rcases List.mem_cons.1 hmem with rfl | hfs
    · apply ApplyDirectly_has_of_has
      show World.has (if _ then _ else _) _
      rw [if_pos hfault]
      exact withObject_has_self _ _
    · exact ih _ hfs

/-! ## The accept path -/

theorem Fault_toError_Error (f : Fault) : f.toError.Error = f.msg := rfl

theorem applyErrors_results (env : Env) (name : String) (files : List String) :
    applyErrors (files.map (applyResultOf env name)) = manifestErrors env name files := by
  induction files with
  | nil => rfl
  | cons f fs ih =>
    unfold applyErrors manifestErrors at *
    cases hf : env.fault (.applyManifest f name) <;>
      simp [List.filterMap_cons, applyResultOf, hf, ih, Fault_toError_Error]

theorem manifestErrors_nil (env : Env) (name : String) (files : List String)
    (h : ∀ file ∈ files, env.fault (.applyManifest file name) = none) :
    manifestErrors env name files = [] := by
  unfold manifestErrors
  rw [List.filterMap_eq_nil_iff]
  intro file hfile
  simp [h file hfile]

/-- The accept path of `sync` as one equation. -/
theorem sync_eq_accept (env : Env) (name : String) (s : St) (mc : ManagedCluster)
    (hfault : env.fault (.getManagedCluster name) = none)
    (hstored : s.world.clusters.find? (fun c => c.name == name) = some mc)
    (hzero : IsZero mc.deletionTimestamp = true)
    (hguard : managedClusterFinalizer ∈ mc.finalizers)
    (haccepts : mc.hubAcceptsClient = true) :
    sync env name s =
      (NewMultiLineAggregate
        (manifestErrors env name manifestFiles ++
          statusUpdateErrors env name (acceptedCondition (manifestErrors env name manifestFiles))),
       { world :=
           (UpdateManagedClusterStatus env name
              (acceptedCondition (manifestErrors env name manifestFiles))
              (ApplyDirectly env name manifestFiles
                (record (.getManagedCluster name) s)).2).2.world,
         trace := s.trace ++
           ([.getManagedCluster name]
            ++ manifestFiles.map (fun f => Call.applyManifest f name)
            ++ [.updateStatus name (acceptedCondition (manifestErrors env name manifestFiles))]
            ++ (if env.fault (.updateStatus name
                  (acceptedCondition (manifestErrors env name manifestFiles))) = none
                ∧ UpdateManagedClusterConditionFn env.now
                  (acceptedCondition (manifestErrors env name manifestFiles)) mc.conditions
                  ≠ mc.conditions
                then [.event "ManagedClusterAccepted"
                  ("managed cluster " ++ name ++ " is accepted by hub cluster admin")]
                else [])) }) := by
  have hcl := ApplyDirectly_clusters env name manifestFiles (record (.getManagedCluster name) s)
  have hres := ApplyDirectly_results env name manifestFiles (record (.getManagedCluster name) s)
  have htr := ApplyDirectly_trace env name manifestFiles (record (.getManagedCluster name) s)
  simp only [sync, clientGet_found env name s mc hfault hstored, hzero,
    (hasFinalizer_iff _).2 hguard, haccepts]
  rcases ha : ApplyDirectly env name manifestFiles (record (.getManagedCluster name) s)
    with ⟨results, s2⟩
  rw [ha] at hcl hres htr
  simp only at hcl hres htr
  subst hres
  have hstored2 : s2.world.clusters.find? (fun c => c.name == name) = some mc := by
    rw [hcl]; exact hstored
  rw [applyErrors_results]
  obtain ⟨u1, u2, _, _, _, _, _, u8⟩ := UpdateManagedClusterStatus_stored env name
    (acceptedCondition (manifestErrors env name manifestFiles)) s2 mc hstored2
  rcases hu : UpdateManagedClusterStatus env name
    (acceptedCondition (manifestErrors env name manifestFiles)) s2 with ⟨⟨updated, uerr⟩, s3⟩
  rw [hu] at u1 u2 u8
  simp only at u1 u2 u8
  subst u2 u8
  cases hf : env.fault (.updateStatus name
      (acceptedCondition (manifestErrors env name manifestFiles))) with
  | some f =>
    simp [statusUpdateErrors, hf, record, u1, htr]
    cases s3
    simp_all [record]
  | none =>
    by_cases hsame : UpdateManagedClusterConditionFn env.now
        (acceptedCondition (manifestErrors env name manifestFiles)) mc.conditions = mc.conditions
    · simp [statusUpdateErrors, hf, record, u1, htr, hsame]
      cases s3
      simp_all [record]
    · simp [statusUpdateErrors, hf, record, u1, htr, hsame]

theorem acceptedCondition_nil :
    acceptedCondition [] =
      { type := ManagedClusterConditionHubAccepted, status := .condTrue,
        reason := "HubClusterAdminAccepted", message := "Accepted by hub cluster admin",
        lastTransitionTime := 0 } := rfl

/-- The dependents of a cluster exist after an accept path on which the three manifests that
render them are applied without a fault. -/
theorem sync_accept_dependents (env : Env) (name : String) (s : St) (mc : ManagedCluster)
    (hfault : env.fault (.getManagedCluster name) = none)
    (hstored : s.world.clusters.find? (fun c => c.name == name) = some mc)
    (hzero : IsZero mc.deletionTimestamp = true)
    (hguard : managedClusterFinalizer ∈ mc.finalizers)
    (haccepts : mc.hubAcceptsClient = true)
    (hall : ∀ file ∈ manifestFiles, env.fault (.applyManifest file name) = none) :
    name ∈ (sync env name s).2.world.namespaces
    ∧ (clusterRolePrefix ++ ":" ++ name) ∈ (sync env name s).2.world.clusterRoles
    ∧ (clusterRolePrefix ++ ":" ++ name) ∈ (sync env name s).2.world.clusterRoleBindings := by
  rw [sync_eq_accept env name s mc hfault hstored hzero hguard haccepts]
  have hcl := ApplyDirectly_clusters env name manifestFiles (record (.getManagedCluster name) s)
  have hstored2 : (ApplyDirectly env name manifestFiles
      (record (.getManagedCluster name) s)).2.world.clusters.find?
        (fun c => c.name == name) = some mc := by
    rw [hcl]; exact hstored
  obtain ⟨_, _, u3, u4, u5, _, _, _⟩ := UpdateManagedClusterStatus_stored env name
    (acceptedCondition (manifestErrors env name manifestFiles)) _ mc hstored2
  have h1 := ApplyDirectly_has_applied env name manifestFiles
    (record (.getManagedCluster name) s) "manifests/managedcluster-namespace.yaml"
    (by decide) (hall _ (by decide))
  have h2 := ApplyDirectly_has_applied env name manifestFiles
    (record (.getManagedCluster name) s) "manifests/managedcluster-clusterrole.yaml"
    (by decide) (hall _ (by decide))
  have h3 := ApplyDirectly_has_applied env name manifestFiles
    (record (.getManagedCluster name) s) "manifests/managedcluster-clusterrolebinding.yaml"
    (by decide) (hall _ (by decide))
  simp only [u3, u4, u5]
  exact ⟨h1, h2, h3⟩

/-- C4: for a stored cluster that is not deleting, carries the guard and has
`hubAcceptsClient = true`, if none of the seven manifests fails then `sync` makes the seven
applies and one status update with the condition HubAccepted, True,
"HubClusterAdminAccepted", "Accepted by hub cluster admin" (followed by an event when the
update wrote), makes no delete and no cluster Update, and returns nil when the status update
is not refused; the stored cluster then carries that condition and the namespace, cluster role
and cluster role binding of the cluster exist. -/
theorem sync_accept_all_applied (env : Env) (name : String) (s : St) (mc : ManagedCluster)
    (hfault : env.fault (.getManagedCluster name) = none)
    (hstored : s.world.clusters.find? (fun c => c.name == name) = some mc)
    (hzero : IsZero mc.deletionTimestamp = true)
    (hguard : managedClusterFinalizer ∈ mc.finalizers)
    (haccepts : mc.hubAcceptsClient = true)
    (hall : ∀ file ∈ manifestFiles, env.fault (.applyManifest file name) = none) :
    (∃ events, (sync env name s).2.trace = s.trace ++
        ([.getManagedCluster name]
          ++ manifestFiles.map (fun f => Call.applyManifest f name)
          ++ [.updateStatus name
                { type := ManagedClusterConditionHubAccepted, status := .condTrue,
                  reason := "HubClusterAdminAccepted",
                  message := "Accepted by hub cluster admin", lastTransitionTime := 0 }]
          ++ events)
      ∧ ∀ c ∈ events, c = .event "ManagedClusterAccepted"
          ("managed cluster " ++ name ++ " is accepted by hub cluster admin"))
    ∧ (env.fault (.updateStatus name
          { type := ManagedClusterConditionHubAccepted, status := .condTrue,
            reason := "HubClusterAdminAccepted",
            message := "Accepted by hub cluster admin", lastTransitionTime := 0 }) = none →
        (sync env name s).1 = none
        ∧ ∃ mc', (sync env name s).2.world.clusters.find? (fun c => c.name == name) = some mc'
          ∧ ∃ c, FindManagedClusterCondition mc'.conditions ManagedClusterConditionHubAccepted
              = some c
            ∧ c.status = .condTrue ∧ c.reason = "HubClusterAdminAccepted"
            ∧ c.message = "Accepted by hub cluster admin")
    ∧ name ∈ (sync env name s).2.world.namespaces
    ∧ (clusterRolePrefix ++ ":" ++ name) ∈ (sync env name s).2.world.clusterRoles
    ∧ (clusterRolePrefix ++ ":" ++ name) ∈ (sync env name s).2.world.clusterRoleBindings := by
  refine ⟨?_, ?_, sync_accept_dependents env name s mc hfault hstored hzero hguard haccepts hall⟩
  · rw [sync_eq_accept env name s mc hfault hstored hzero hguard haccepts,
      manifestErrors_nil env name manifestFiles hall, acceptedCondition_nil]
    refine ⟨_, rfl, ?_⟩
    intro c hc
    split_ifs at hc
    · simpa using hc
    · cases hc
  · intro hnone
    rw [sync_eq_accept env name s mc hfault hstored hzero hguard haccepts,
      manifestErrors_nil env name manifestFiles hall, acceptedCondition_nil]
    have hcl := ApplyDirectly_clusters env name manifestFiles
      (record (.getManagedCluster name) s)
    have hstored2 : (ApplyDirectly env name manifestFiles
        (record (.getManagedCluster name) s)).2.world.clusters.find?
          (fun c => c.name == name) = some mc := by
      rw [hcl]; exact hstored
    obtain ⟨_, _, _, _, _, _, u7, _⟩ := UpdateManagedClusterStatus_stored env name
      { type := ManagedClusterConditionHubAccepted, status := .condTrue,
        reason := "HubClusterAdminAccepted",
        message := "Accepted by hub cluster admin", lastTransitionTime := 0 } _ mc hstored2
    refine ⟨by simp [statusUpdateErrors, hnone, NewMultiLineAggregate], _, u7, ?_⟩
    simp only [hnone, if_true]
    obtain ⟨c, hc, _, h2, h3, h4⟩ := find_UpdateManagedClusterConditionFn env.now
      { type := ManagedClusterConditionHubAccepted, status := .condTrue,
        reason := "HubClusterAdminAccepted",
        message := "Accepted by hub cluster admin", lastTransitionTime := 0 } mc.conditions
    exact ⟨c, hc, h2, h3, h4⟩

/-- The scenario of C4: the guarded, accepted `east-1` is provisioned and marked accepted. -/
theorem sync_accept_all_applied_witness :
    (sync quietEnv "east-1" (hubWith east1Guarded)).1 = none
    ∧ "east-1" ∈ (sync quietEnv "east-1" (hubWith east1Guarded)).2.world.namespaces
    ∧ (clusterRolePrefix ++ ":" ++ "east-1") ∈
        (sync quietEnv "east-1" (hubWith east1Guarded)).2.world.clusterRoles
    ∧ (sync quietEnv "east-1" (hubWith east1Guarded)).2.world.clusters =
        [{ east1Guarded with conditions :=
            [{ type := ManagedClusterConditionHubAccepted, status := .condTrue,
               reason := "HubClusterAdminAccepted",
               message := "Accepted by hub cluster admin", lastTransitionTime := 7 }] }] := by
  have h := sync_accept_all_applied quietEnv "east-1" (hubWith east1Guarded) east1Guarded
    rfl (by decide) rfl (by decide) rfl (fun _ _ => rfl)
  exact ⟨(h.2.1 rfl).1, h.2.2.1, h.2.2.2.1, by decide⟩

/-! ## The system around the controller -/

/-- C5 as stated fails: `east-1` is provisioned while the status update is refused, so no
HubAccepted condition is stored; the administrator then denies it; the next `sync` finds the
condition not True, does nothing and returns nil, and the dependents are still there. -/
theorem denied_cluster_keeps_dependents :
    Reachable (fun _ => True) "east-1" leakedHub
    ∧ leakedHub.world.clusters.find? (fun c => c.name == "east-1") =
        some { east1Guarded with hubAcceptsClient := false }
    ∧ (sync quietEnv "east-1" leakedHub).1 = none
    ∧ hasDependents (sync quietEnv "east-1" leakedHub).2.world "east-1" := by
  refine ⟨?_, by decide, by decide, by decide⟩
  exact Reachable.setAccepts _ false
    (Reachable.reconcile _ statusFaultEnv (Reachable.init _ (by decide)) trivial)

theorem sync_get_fault (env : Env) (name : String) (s : St) (f : Fault)
    (hfault : env.fault (.getManagedCluster name) = some f) :
    sync env name s = (some (.single f.toError), record (.getManagedCluster name) s) := by
  simp [sync, clientGet, hfault]

theorem sync_not_found (env : Env) (name : String) (s : St)
    (hfault : env.fault (.getManagedCluster name) = none)
    (hstored : s.world.clusters.find? (fun c => c.name == name) = none) :
    sync env name s = (none, record (.getManagedCluster name) s) := by
  simp [sync, clientGet, hfault, hstored]

theorem sync_deny_noop (env : Env) (name : String) (s : St) (mc : ManagedCluster)
    (hfault : env.fault (.getManagedCluster name) = none)
    (hstored : s.world.clusters.find? (fun c => c.name == name) = some mc)
    (hzero : IsZero mc.deletionTimestamp = true)
    (hguard : managedClusterFinalizer ∈ mc.finalizers)
    (hdenied : mc.hubAcceptsClient = false)
    (hcond : IsConditionTrue (FindManagedClusterCondition mc.conditions
      ManagedClusterConditionHubAccepted) = false) :
    sync env name s = (none, record (.getManagedCluster name) s) := by
  simp [sync, clientGet_found env name s mc hfault hstored, hzero,
    (hasFinalizer_iff _).2 hguard, hdenied, hcond]

/-- The finalizer removal touches no dependent, and the stored cluster afterwards is the old
one, with or without the guard. -/
theorem removeManagedClusterFinalizer_frame (env : Env) (name : String) (s : St)
    (mc : ManagedCluster)
    (hstored : s.world.clusters.find? (fun c => c.name == name) = some mc) :
    (removeManagedClusterFinalizer env mc s).2.world.namespaces = s.world.namespaces
    ∧ (removeManagedClusterFinalizer env mc s).2.world.clusterRoles = s.world.clusterRoles
    ∧ (removeManagedClusterFinalizer env mc s).2.world.clusterRoleBindings =
        s.world.clusterRoleBindings
    ∧ ((removeManagedClusterFinalizer env mc s).2.world.clusters.find?
          (fun c => c.name == name) = some mc
      ∨ (removeManagedClusterFinalizer env mc s).2.world.clusters.find?
          (fun c => c.name == name) = some { mc with
            finalizers := mc.finalizers.filter (fun f => f != managedClusterFinalizer) }) := by
  have hany := any_of_find hstored
  obtain rfl : mc.name = name := find_name hstored
  have hmap := find_map_replace s.world.clusters mc.name
    { mc with finalizers := mc.finalizers.filter (fun f => f != managedClusterFinalizer) }
    rfl hany
  simp only [removeManagedClusterFinalizer]
  split_ifs
  · unfold clientUpdate
    cases env.fault (.updateManagedCluster { mc with
        finalizers := mc.finalizers.filter (fun f => f != managedClusterFinalizer) }) with
    | some f => exact ⟨rfl, rfl, rfl, Or.inl hstored⟩
    | none =>
      simp only [hany, if_true, record]
      exact ⟨trivial, trivial, trivial, Or.inr hmap⟩
  · exact ⟨rfl, rfl, rfl, Or.inl hstored⟩

theorem clientUpdate_frame (env : Env) (obj : ManagedCluster) (s : St) :
    (clientUpdate env obj s).2.world.namespaces = s.world.namespaces
    ∧ (clientUpdate env obj s).2.world.clusterRoles = s.world.clusterRoles
    ∧ (clientUpdate env obj s).2.world.clusterRoleBindings = s.world.clusterRoleBindings := by
  unfold clientUpdate
  cases env.fault (.updateManagedCluster obj) with
  | some f => exact ⟨rfl, rfl, rfl⟩
  | none =>
    simp only [record]
    split_ifs <;> exact ⟨rfl, rfl, rfl⟩

theorem acceptedCondition_status (errs : List PlainError) :
    (acceptedCondition errs).status = .condTrue
    ∧ (acceptedCondition errs).type = ManagedClusterConditionHubAccepted := by
  unfold acceptedCondition
  simp only
  split_ifs <;> exact ⟨rfl, rfl⟩

/-- A reconciliation in which the status update of the accept path is not refused keeps the
gate. -/
theorem sync_gated (env : Env) (name : String) (s : St)
    (henv : acceptStatusUnfaulted env) (hinv : Gated name s.world) :
    Gated name (sync env name s).2.world := by
  cases hfault : env.fault (.getManagedCluster name) with
  | some f => rw [sync_get_fault env name s f hfault]; exact hinv
  | none =>
    cases hstored : s.world.clusters.find? (fun c => c.name == name) with
    | none => rw [sync_not_found env name s hfault hstored]; exact hinv
    | some mc =>
      cases hzero : IsZero mc.deletionTimestamp with
      | false =>
        intro mc' hmc' _
        left
        rw [sync_eq_deleting env name s mc hfault hstored hzero] at hmc'
        have hcl := removeManagedClusterResources_clusters env name
          (record (.getManagedCluster name) s)
        rcases hr : removeManagedClusterResources env name
          (record (.getManagedCluster name) s) with ⟨e, s2⟩
        rw [hr] at hmc' hcl
        simp only at hcl
        have hstored2 : s2.world.clusters.find? (fun c => c.name == name) = some mc := by
          rw [hcl]; exact hstored
        cases e with
        | some err =>
          simp only at hmc'
          rw [hstored2] at hmc'
          cases hmc'
          exact hzero
        | none =>
          simp only at hmc'
          obtain ⟨_, _, _, h | h⟩ := removeManagedClusterFinalizer_frame env name s2 mc hstored2
          · rw [h] at hmc'
            cases hmc'
            exact hzero
          · rw [h] at hmc'
            cases hmc'
            exact hzero
      | true =>
        by_cases hguard : managedClusterFinalizer ∈ mc.finalizers
        · cases hacc : mc.hubAcceptsClient with
          | false =>
            cases hcond : IsConditionTrue (FindManagedClusterCondition mc.conditions
                ManagedClusterConditionHubAccepted) with
            | false =>
              rw [sync_deny_noop env name s mc hfault hstored hzero hguard hacc hcond]
              exact hinv
            | true =>
              rw [sync_eq_deny env name s mc hfault hstored hzero hguard hacc hcond]
              have hcl := removeManagedClusterResources_clusters env name
                (record (.event "ManagedClusterDenied"
                  ("managed cluster " ++ name ++ " is denied by hub cluster admin"))
                  (record (.getManagedCluster name) s))
              cases hclean : (removeManagedClusterResources env name
                (record (.event "ManagedClusterDenied"
                  ("managed cluster " ++ name ++ " is denied by hub cluster admin"))
                  (record (.getManagedCluster name) s))).1 with
              | none =>
                have hun := deletesUnfaulted_of_success env name _ hclean
                obtain ⟨_, _, hns, hcr, hcrb⟩ := removeManagedClusterResources_unfaulted env name
                  (record (.event "ManagedClusterDenied"
                    ("managed cluster " ++ name ++ " is denied by hub cluster admin"))
                    (record (.getManagedCluster name) s)) hun
                rcases hr : removeManagedClusterResources env name
                  (record (.event "ManagedClusterDenied"
                    ("managed cluster " ++ name ++ " is denied by hub cluster admin"))
                    (record (.getManagedCluster name) s)) with ⟨e, s3⟩
                rw [hr] at hclean hns hcr hcrb hcl
                simp only at hclean hns hcr hcrb hcl
                subst hclean
                have hstored3 : s3.world.clusters.find? (fun c => c.name == name) = some mc := by
                  rw [hcl]; exact hstored
                obtain ⟨_, _, u3, u4, u5, _, _, _⟩ :=
                  UpdateManagedClusterStatus_stored env name deniedCondition s3 mc hstored3
                intro mc' _ hdeps
                exfalso
                unfold hasDependents at hdeps
                simp only [u3, u4, u5] at hdeps
                tauto
              | some err =>
                rcases hr : removeManagedClusterResources env name
                  (record (.event "ManagedClusterDenied"
                    ("managed cluster " ++ name ++ " is denied by hub cluster admin"))
                    (record (.getManagedCluster name) s)) with ⟨e, s3⟩
                rw [hr] at hclean hcl
                simp only at hclean hcl
                subst hclean
                intro mc' hmc' _
                simp only at hmc'
                rw [hcl] at hmc'
                have hmc : mc' = mc := by
                  have h2 : some mc' = some mc := hmc'.symm.trans hstored
                  exact Option.some.inj h2
                subst hmc
                exact Or.inr ⟨hguard, hcond⟩
          | true =>
            intro mc' hmc' _
            rw [sync_eq_accept env name s mc hfault hstored hzero hguard hacc] at hmc'
            simp only at hmc'
            have hcl := ApplyDirectly_clusters env name manifestFiles
              (record (.getManagedCluster name) s)
            have hstored2 : (ApplyDirectly env name manifestFiles
                (record (.getManagedCluster name) s)).2.world.clusters.find?
                  (fun c => c.name == name) = some mc := by
              rw [hcl]; exact hstored
            obtain ⟨_, _, _, _, _, _, u7, _⟩ := UpdateManagedClusterStatus_stored env name
              (acceptedCondition (manifestErrors env name manifestFiles)) _ mc hstored2
            have hst := acceptedCondition_status (manifestErrors env name manifestFiles)
            rw [u7, henv name _ hst.1] at hmc'
            simp only [if_true] at hmc'
            cases hmc'
            refine Or.inr ⟨hguard, ?_⟩
            obtain ⟨c, hc, _, h2, _, _⟩ := find_UpdateManagedClusterConditionFn env.now
              (acceptedCondition (manifestErrors env name manifestFiles)) mc.conditions
            rw [hst.2] at hc
            simp only [hc, IsConditionTrue, h2, hst.1, beq_self_eq_true]
        · intro mc' _ hdeps
          exfalso
          rw [sync_eq_addFinalizer env name s mc hfault hstored hzero hguard] at hdeps
          obtain ⟨f1, f2, f3⟩ := clientUpdate_frame env
            { mc with finalizers := mc.finalizers ++ [managedClusterFinalizer] }
            (record (.getManagedCluster name) s)
          unfold hasDependents at hdeps
          simp only [f1, f2, f3] at hdeps
          rcases hinv mc hstored hdeps with h | h
          · rw [hzero] at h
            cases h
          · exact hguard h.1

theorem setAccepts_gated (name : String) (s : St) (v : Bool) (hinv : Gated name s.world) :
    Gated name (s.setAccepts name v).world := by
  intro mc' hmc' hdeps
  have hmap := find_map_update s.world.clusters name
    (fun c => { c with hubAcceptsClient := v }) (fun _ => rfl)
  simp only [St.setAccepts] at hmc' hdeps
  rw [hmap] at hmc'
  cases hstored : s.world.clusters.find? (fun c => c.name == name) with
  | none => rw [hstored] at hmc'; cases hmc'
  | some mc =>
    rw [hstored] at hmc'
    cases hmc'
    exact hinv mc hstored hdeps

theorem requestDeletion_gated (name : String) (s : St) (t : Nat) :
    Gated name (s.requestDeletion name t).world := by
  intro mc' hmc' hdeps
  have hmap := find_map_update s.world.clusters name
    (fun c => if IsZero c.deletionTimestamp then { c with deletionTimestamp := some (t + 1) }
      else c)
    (fun c => by dsimp only; split_ifs <;> rfl)
  simp only [St.requestDeletion] at hmc' hdeps
  rw [hmap] at hmc'
  cases hstored : s.world.clusters.find? (fun c => c.name == name) with
  | none => rw [hstored] at hmc'; cases hmc'
  | some mc =>
    rw [hstored] at hmc'
    simp only [Option.map_some', Option.some.injEq] at hmc'
    subst hmc'
    cases hz : IsZero mc.deletionTimestamp with
    | true => left; simp [IsZero]
    | false => simp [hz]

/-- The gate holds in every reachable state, when the status update of the accept path is
never refused. -/
theorem gated_of_reachable (name : String) (s : St)
    (h : Reachable acceptStatusUnfaulted name s) : Gated name s.world := by
  induction h with
  | init s h => exact fun _ _ hdeps => absurd hdeps h
  | reconcile s env _ henv ih => exact sync_gated env name s henv ih
  | setAccepts s v _ ih => exact setAccepts_gated name s v ih
  | requestDeletion s t _ _ => exact requestDeletion_gated name s t

/-- After a `sync` that returns nil for a denied or deleting cluster no dependent exists,
provided none existed before on the two paths that delete nothing: the denied cluster whose
condition is not True, and the finalizer step. -/
theorem sync_nil_no_dependents (env : Env) (name : String) (s : St) (mc : ManagedCluster)
    (hstored : s.world.clusters.find? (fun c => c.name == name) = some mc)
    (hstate : mc.hubAcceptsClient = false ∨ IsZero mc.deletionTimestamp = false)
    (hnil : (sync env name s).1 = none)
    (hnoop : IsZero mc.deletionTimestamp = true → managedClusterFinalizer ∈ mc.finalizers →
      IsConditionTrue (FindManagedClusterCondition mc.conditions
        ManagedClusterConditionHubAccepted) = false → ¬ hasDependents s.world name)
    (hadd : IsZero mc.deletionTimestamp = true → managedClusterFinalizer ∉ mc.finalizers →
      ¬ hasDependents s.world name) :
    ¬ hasDependents (sync env name s).2.world name := by
  intro hdeps
  cases hfault : env.fault (.getManagedCluster name) with
  | some f =>
    rw [sync_get_fault env name s f hfault] at hnil
    cases hnil
  | none =>
    cases hzero : IsZero mc.deletionTimestamp with
    | false =>
      rw [sync_eq_deleting env name s mc hfault hstored hzero] at hnil hdeps
      have hcl := removeManagedClusterResources_clusters env name
        (record (.getManagedCluster name) s)
      cases hclean : (removeManagedClusterResources env name
          (record (.getManagedCluster name) s)).1 with
      | some err =>
        rcases hr : removeManagedClusterResources env name
          (record (.getManagedCluster name) s) with ⟨e, s2⟩
        rw [hr] at hclean hnil
        simp only at hclean
        subst hclean
        cases hnil
      | none =>
        have hun := deletesUnfaulted_of_success env name _ hclean
        obtain ⟨_, _, hns, hcr, hcrb⟩ := removeManagedClusterResources_unfaulted env name
          (record (.getManagedCluster name) s) hun
        rcases hr : removeManagedClusterResources env name
          (record (.getManagedCluster name) s) with ⟨e, s2⟩
        rw [hr] at hclean hns hcr hcrb hcl hdeps
        simp only at hclean hns hcr hcrb hcl
        subst hclean
        have hstored2 : s2.world.clusters.find? (fun c => c.name == name) = some mc := by
          rw [hcl]; exact hstored
        obtain ⟨f1, f2, f3, _⟩ := removeManagedClusterFinalizer_frame env name s2 mc hstored2
        unfold hasDependents at hdeps
        simp only [f1, f2, f3] at hdeps
        tauto
    | true =>
      have hacc : mc.hubAcceptsClient = false := by
        rcases hstate with h | h
        · exact h
        · rw [hzero] at h; cases h
      by_cases hguard : managedClusterFinalizer ∈ mc.finalizers
      · cases hcond : IsConditionTrue (FindManagedClusterCondition mc.conditions
            ManagedClusterConditionHubAccepted) with
        | false =>
          rw [sync_deny_noop env name s mc hfault hstored hzero hguard hacc hcond] at hdeps
          exact hnoop hzero hguard hcond hdeps
        | true =>
          rw [sync_eq_deny env name s mc hfault hstored hzero hguard hacc hcond] at hnil hdeps
          have hcl := removeManagedClusterResources_clusters env name
            (record (.event "ManagedClusterDenied"
              ("managed cluster " ++ name ++ " is denied by hub cluster admin"))
              (record (.getManagedCluster name) s))
          cases hclean : (removeManagedClusterResources env name
            (record (.event "ManagedClusterDenied"
              ("managed cluster " ++ name ++ " is denied by hub cluster admin"))
              (record (.getManagedCluster name) s))).1 with
          | some err =>
            rcases hr : removeManagedClusterResources env name
              (record (.event "ManagedClusterDenied"
                ("managed cluster " ++ name ++ " is denied by hub cluster admin"))
                (record (.getManagedCluster name) s)) with ⟨e, s3⟩
            rw [hr] at hclean hnil
            simp only at hclean
            subst hclean
            cases hnil
          | none =>
            have hun := deletesUnfaulted_of_success env name _ hclean
            obtain ⟨_, _, hns, hcr, hcrb⟩ := removeManagedClusterResources_unfaulted env name
              (record (.event "ManagedClusterDenied"
                ("managed cluster " ++ name ++ " is denied by hub cluster admin"))
                (record (.getManagedCluster name) s)) hun
            rcases hr : removeManagedClusterResources env name
              (record (.event "ManagedClusterDenied"
                ("managed cluster " ++ name ++ " is denied by hub cluster admin"))
                (record (.getManagedCluster name) s)) with ⟨e, s3⟩
            rw [hr] at hclean hns hcr hcrb hcl hdeps
            simp only at hclean hns hcr hcrb hcl
            subst hclean
            have hstored3 : s3.world.clusters.find? (fun c => c.name == name) = some mc := by
              rw [hcl]; exact hstored
            obtain ⟨_, _, u3, u4, u5, _, _, _⟩ :=
              UpdateManagedClusterStatus_stored env name deniedCondition s3 mc hstored3
            unfold hasDependents at hdeps
            simp only [u3, u4, u5] at hdeps
            tauto
      · rw [sync_eq_addFinalizer env name s mc hfault hstored hzero hguard] at hdeps
        obtain ⟨f1, f2, f3⟩ := clientUpdate_frame env
          { mc with finalizers := mc.finalizers ++ [managedClusterFinalizer] }
          (record (.getManagedCluster name) s)
        apply hadd hzero hguard
        unfold hasDependents at hdeps ⊢
        simp only [f1, f2, f3] at hdeps
        exact hdeps

theorem acceptStatusUnfaulted_quietEnv : acceptStatusUnfaulted quietEnv :=
  fun _ _ _ => rfl

/-! ## The accept path with failures -/

theorem acceptedCondition_of_ne_nil (errs : List PlainError) (h : errs ≠ []) :
    acceptedCondition errs =
      { type := ManagedClusterConditionHubAccepted, status := .condTrue,
        reason := "Error", message := (GoError.aggregate errs).Error,
        lastTransitionTime := 0 } := by
  cases errs with
  | nil => exact absurd rfl h
  | cons e es => simp [acceptedCondition, NewMultiLineAggregate, errorText]

theorem manifestErrors_eq_nil_iff (env : Env) (name : String) (files : List String) :
    manifestErrors env name files = [] ↔
      ∀ file ∈ files, env.fault (.applyManifest file name) = none := by
  unfold manifestErrors
  rw [List.filterMap_eq_nil_iff]
  constructor
  · intro h file hfile
    have := h file hfile
    simpa using this
  · intro h file hfile
    simp [h file hfile]

theorem mem_manifestErrors (env : Env) (name : String) (files : List String) (file : String)
    (f : Fault) (hfile : file ∈ files) (hf : env.fault (.applyManifest file name) = some f) :
    PlainError.errorf (goQuote file ++ " (" ++ env.applyType file ++ "): " ++ f.msg) ∈
      manifestErrors env name files := by
  unfold manifestErrors
  rw [List.mem_filterMap]
  exact ⟨file, hfile, by simp [hf]⟩

/-- C6: on the accept path, when at least one manifest fails, the status update is still
requested, after the seven applies; its condition has type HubAccepted, reason "Error" and as
message the text of the aggregate of the errors of the manifests; no status update with the
reason "HubClusterAdminAccepted" is requested in that reconciliation, and when the update is
not refused the stored HubAccepted condition carries the reason "Error" and that message. -/
theorem sync_accept_manifest_failures (env : Env) (name : String) (s : St)
    (mc : ManagedCluster)
    (hfault : env.fault (.getManagedCluster name) = none)
    (hstored : s.world.clusters.find? (fun c => c.name == name) = some mc)
    (hzero : IsZero mc.deletionTimestamp = true)
    (hguard : managedClusterFinalizer ∈ mc.finalizers)
    (haccepts : mc.hubAcceptsClient = true)
    (hfail : ∃ file ∈ manifestFiles, env.fault (.applyManifest file name) ≠ none) :
    (∃ events, callsSince s (sync env name s).2 =
        [.getManagedCluster name]
          ++ manifestFiles.map (fun f => Call.applyManifest f name)
          ++ [.updateStatus name
                { type := ManagedClusterConditionHubAccepted, status := .condTrue,
                  reason := "Error",
                  message := (GoError.aggregate (manifestErrors env name manifestFiles)).Error,
                  lastTransitionTime := 0 }]
          ++ events
      ∧ ∀ c ∈ events, c = .event "ManagedClusterAccepted"
          ("managed cluster " ++ name ++ " is accepted by hub cluster admin"))
    ∧ (∀ n cond, Call.updateStatus n cond ∈ callsSince s (sync env name s).2 →
        cond.reason ≠ "HubClusterAdminAccepted")
    ∧ (env.fault (.updateStatus name
          (acceptedCondition (manifestErrors env name manifestFiles))) = none →
        ∃ mc', (sync env name s).2.world.clusters.find? (fun c => c.name == name) = some mc'
          ∧ ∃ c, FindManagedClusterCondition mc'.conditions ManagedClusterConditionHubAccepted
              = some c
            ∧ c.reason = "Error"
            ∧ c.message = (GoError.aggregate (manifestErrors env name manifestFiles)).Error) := by
  have hne : manifestErrors env name manifestFiles ≠ [] := by
    intro h
    obtain ⟨file, hfile, hf⟩ := hfail
    exact hf ((manifestErrors_eq_nil_iff env name manifestFiles).1 h file hfile)
  have hcond := acceptedCondition_of_ne_nil _ hne
  have hcalls : ∃ events, callsSince s (sync env name s).2 =
        [.getManagedCluster name]
          ++ manifestFiles.map (fun f => Call.applyManifest f name)
          ++ [.updateStatus name
                { type := ManagedClusterConditionHubAccepted, status := .condTrue,
                  reason := "Error",
                  message := (GoError.aggregate (manifestErrors env name manifestFiles)).Error,
                  lastTransitionTime := 0 }]
          ++ events
      ∧ ∀ c ∈ events, c = .event "ManagedClusterAccepted"
          ("managed cluster " ++ name ++ " is accepted by hub cluster admin") := by
    rw [sync_eq_accept env name s mc hfault hstored hzero hguard haccepts, hcond]
    refine ⟨_, callsSince_append _ _ _ rfl, ?_⟩
    intro c hc
    split_ifs at hc
    · simpa using hc
    · cases hc
  refine ⟨hcalls, ?_, ?_⟩
  · obtain ⟨events, hev, hevents⟩ := hcalls
    intro n cond hmem
    rw [hev] at hmem
    simp only [List.mem_append, List.mem_singleton, List.mem_map] at hmem
    rcases hmem with ((h | ⟨f, _, h⟩) | h) | h
    · cases h
    · cases h
    · cases h
      simp
    · have := hevents _ h
      cases this
  · intro hnone
    rw [sync_eq_accept env name s mc hfault hstored hzero hguard haccepts]
    have hcl := ApplyDirectly_clusters env name manifestFiles
      (record (.getManagedCluster name) s)
    have hstored2 : (ApplyDirectly env name manifestFiles
        (record (.getManagedCluster name) s)).2.world.clusters.find?
          (fun c => c.name == name) = some mc := by
      rw [hcl]; exact hstored
    obtain ⟨_, _, _, _, _, _, u7, _⟩ := UpdateManagedClusterStatus_stored env name
      (acceptedCondition (manifestErrors env name manifestFiles)) _ mc hstored2
    refine ⟨_, u7, ?_⟩
    simp only [hnone, if_true]
    obtain ⟨c, hc, _, _, h3, h4⟩ := find_UpdateManagedClusterConditionFn env.now
      (acceptedCondition (manifestErrors env name manifestFiles)) mc.conditions
    rw [(acceptedCondition_status _).2] at hc
    rw [hcond] at h3 h4
    exact ⟨c, hc, h3, h4⟩

/-- The scenario of C6: two manifests fail for the guarded, accepted `east-1`; the condition
is still written, with reason "Error" and the two errors, one per line, as message. -/
theorem sync_accept_manifest_failures_witness :
    (∀ n cond, Call.updateStatus n cond ∈
        callsSince (hubWith east1Guarded)
          (sync applyFaultEnv "east-1" (hubWith east1Guarded)).2 →
        cond.reason ≠ "HubClusterAdminAccepted")
    ∧ (sync applyFaultEnv "east-1" (hubWith east1Guarded)).2.world.clusters =
        [{ east1Guarded with conditions :=
            [{ type := ManagedClusterConditionHubAccepted, status := .condTrue,
               reason := "Error",
               message := "\"manifests/managedcluster-namespace.yaml\" (string): " ++
                 "namespaces is forbidden\n" ++
                 "\"manifests/managedcluster-work-role.yaml\" (string): etcd unavailable",
               lastTransitionTime := 7 }] }] :=
  ⟨(sync_accept_manifest_failures applyFaultEnv "east-1" (hubWith east1Guarded) east1Guarded
      rfl (by decide) rfl (by decide) rfl
      ⟨"manifests/managedcluster-namespace.yaml", by decide, by decide⟩).2.1,
   by decide⟩

/-! ## The error of the accept path -/

theorem NewMultiLineAggregate_eq_none_iff (errs : List PlainError) :
    NewMultiLineAggregate errs = none ↔ errs = [] := by
  cases errs <;> simp [NewMultiLineAggregate]

theorem NewMultiLineAggregate_of_mem (errs : List PlainError) (e : PlainError)
    (h : e ∈ errs) : NewMultiLineAggregate errs = some (.aggregate errs) := by
  cases errs with
  | nil => cases h
  | cons a as => simp [NewMultiLineAggregate]

/-- C7: on the accept path the error of `sync` is the aggregate (nil when the list is empty)
of the errors of the failed manifests, in the order of the manifests, followed by the error
of the status update when it is refused; the aggregate holds an error for every failed
manifest, whose text ends with the message of the failure, and its text is the texts of its
members, one per line; `sync` returns nil exactly when no manifest failed and the status
update was not refused. -/
theorem sync_accept_error (env : Env) (name : String) (s : St) (mc : ManagedCluster)
    (hfault : env.fault (.getManagedCluster name) = none)
    (hstored : s.world.clusters.find? (fun c => c.name == name) = some mc)
    (hzero : IsZero mc.deletionTimestamp = true)
    (hguard : managedClusterFinalizer ∈ mc.finalizers)
    (haccepts : mc.hubAcceptsClient = true) :
    (sync env name s).1 =
      NewMultiLineAggregate
        (manifestFiles.filterMap (fun file =>
            (env.fault (.applyManifest file name)).map (fun f =>
              PlainError.errorf
                (goQuote file ++ " (" ++ env.applyType file ++ "): " ++ f.msg)))
          ++ (match env.fault (.updateStatus name
                (acceptedCondition (manifestErrors env name manifestFiles))) with
              | some f => [f.toError]
              | none => []))
    ∧ (∀ file ∈ manifestFiles, ∀ f, env.fault (.applyManifest file name) = some f →
        ∃ errs, (sync env name s).1 = some (.aggregate errs)
          ∧ PlainError.errorf (goQuote file ++ " (" ++ env.applyType file ++ "): " ++ f.msg)
              ∈ errs)
    ∧ (∀ f, env.fault (.updateStatus name
          (acceptedCondition (manifestErrors env name manifestFiles))) = some f →
        ∃ errs, (sync env name s).1 = some (.aggregate errs) ∧ f.toError ∈ errs)
    ∧ (∀ errs, (sync env name s).1 = some (.aggregate errs) →
        (GoError.aggregate errs).Error = "\n".intercalate (errs.map PlainError.Error))
    ∧ ((sync env name s).1 = none ↔
        (∀ file ∈ manifestFiles, env.fault (.applyManifest file name) = none)
        ∧ env.fault (.updateStatus name
            (acceptedCondition (manifestErrors env name manifestFiles))) = none) := by
  have heq := sync_eq_accept env name s mc hfault hstored hzero hguard haccepts
  have h1 : (sync env name s).1 = NewMultiLineAggregate
      (manifestErrors env name manifestFiles ++
        statusUpdateErrors env name
          (acceptedCondition (manifestErrors env name manifestFiles))) := by
    rw [heq]
  refine ⟨h1, ?_, ?_, fun _ _ => rfl, ?_⟩
  · intro file hfile f hf
    have hmem : PlainError.errorf (goQuote file ++ " (" ++ env.applyType file ++ "): " ++ f.msg)
        ∈ manifestErrors env name manifestFiles ++
          statusUpdateErrors env name
            (acceptedCondition (manifestErrors env name manifestFiles)) :=
      List.mem_append_left _ (mem_manifestErrors env name manifestFiles file f hfile hf)
    exact ⟨_, h1.trans (NewMultiLineAggregate_of_mem _ _ hmem), hmem⟩
  · intro f hf
    have hmem : f.toError ∈ manifestErrors env name manifestFiles ++
          statusUpdateErrors env name
            (acceptedCondition (manifestErrors env name manifestFiles)) :=
      List.mem_append_right _ (by simp [statusUpdateErrors, hf])
    exact ⟨_, h1.trans (NewMultiLineAggregate_of_mem _ _ hmem), hmem⟩
  · rw [h1, NewMultiLineAggregate_eq_none_iff, List.append_eq_nil,
      manifestErrors_eq_nil_iff]
    constructor
    · rintro ⟨ha, hb⟩
      refine ⟨ha, ?_⟩
      unfold statusUpdateErrors at hb
      cases hf : env.fault (.updateStatus name
          (acceptedCondition (manifestErrors env name manifestFiles))) with
      | none => rfl
      | some f => rw [hf] at hb; cases hb
    · rintro ⟨ha, hb⟩
      exact ⟨ha, by simp [statusUpdateErrors, hb]⟩

/-- The scenario of C7: two manifests fail; the error of `sync` is the aggregate of their two
errors, in the order of the manifests. -/
theorem sync_accept_error_witness :
    (sync applyFaultEnv "east-1" (hubWith east1Guarded)).1 =
      some (.aggregate
        [.errorf ("\"manifests/managedcluster-namespace.yaml\" (string): " ++
            "namespaces is forbidden"),
         .errorf "\"manifests/managedcluster-work-role.yaml\" (string): etcd unavailable"]) :=
  (sync_accept_error applyFaultEnv "east-1" (hubWith east1Guarded) east1Guarded
    rfl (by decide) rfl (by decide) rfl).1.trans (by decide)

/-! ## The deny path with a failed cleanup -/

theorem cleanupTrace_head (env : Env) (name : String) :
    ∃ rest, cleanupTrace env name = .deleteNamespace name :: rest := by
  unfold cleanupTrace cleanupCalls
  cases env.fault (.deleteNamespace name) <;>
  cases env.fault (.deleteClusterRole (clusterRolePrefix ++ ":" ++ name)) <;>
  cases env.fault (.deleteClusterRoleBinding (clusterRolePrefix ++ ":" ++ name)) <;>
  exact ⟨_, rfl⟩

/-- The first calls of the deny path: Get, the Denied event, the delete of the namespace. -/
theorem sync_deny_calls (env : Env) (name : String) (s : St) (mc : ManagedCluster)
    (hfault : env.fault (.getManagedCluster name) = none)
    (hstored : s.world.clusters.find? (fun c => c.name == name) = some mc)
    (hzero : IsZero mc.deletionTimestamp = true)
    (hguard : managedClusterFinalizer ∈ mc.finalizers)
    (hdenied : mc.hubAcceptsClient = false)
    (htrue : IsConditionTrue (FindManagedClusterCondition mc.conditions
      ManagedClusterConditionHubAccepted) = true) :
    ∃ rest, callsSince s (sync env name s).2 =
      [.getManagedCluster name,
       .event "ManagedClusterDenied"
         ("managed cluster " ++ name ++ " is denied by hub cluster admin"),
       .deleteNamespace name] ++ rest := by
  rw [sync_eq_deny env name s mc hfault hstored hzero hguard hdenied htrue]
  have htr := removeManagedClusterResources_trace env name
    (record (.event "ManagedClusterDenied"
      ("managed cluster " ++ name ++ " is denied by hub cluster admin"))
      (record (.getManagedCluster name) s))
  have hcl := removeManagedClusterResources_clusters env name
    (record (.event "ManagedClusterDenied"
      ("managed cluster " ++ name ++ " is denied by hub cluster admin"))
      (record (.getManagedCluster name) s))
  obtain ⟨tail, htail⟩ := cleanupTrace_head env name
  rcases hr : removeManagedClusterResources env name
    (record (.event "ManagedClusterDenied"
      ("managed cluster " ++ name ++ " is denied by hub cluster admin"))
      (record (.getManagedCluster name) s)) with ⟨e, s3⟩
  rw [hr] at htr hcl
  simp only [record, htail] at htr hcl
  cases e with
  | some err =>
    exact ⟨tail, callsSince_append _ _ _ (by simp [htr])⟩
  | none =>
    have hstored3 : s3.world.clusters.find? (fun c => c.name == name) = some mc := by
      rw [hcl]; exact hstored
    obtain ⟨u1, _⟩ := UpdateManagedClusterStatus_stored env name deniedCondition s3 mc hstored3
    exact ⟨tail ++ [.updateStatus name deniedCondition],
      callsSince_append _ _ _ (by simp [u1, htr])⟩

/-- C8: on the deny path, if the cleanup fails, `sync` returns the failure of the cleanup and
requests no status update; the stored clusters are unchanged, so the HubAccepted condition is
still True, and the next reconciliation takes the deny path again: it starts with the Denied
event and the delete of the namespace. -/
theorem sync_deny_cleanup_failed (env : Env) (name : String) (s : St) (mc : ManagedCluster)
    (err : PlainError)
    (hfault : env.fault (.getManagedCluster name) = none)
    (hstored : s.world.clusters.find? (fun c => c.name == name) = some mc)
    (hzero : IsZero mc.deletionTimestamp = true)
    (hguard : managedClusterFinalizer ∈ mc.finalizers)
    (hdenied : mc.hubAcceptsClient = false)
    (htrue : IsConditionTrue (FindManagedClusterCondition mc.conditions
      ManagedClusterConditionHubAccepted) = true)
    (hfail : (removeManagedClusterResources env name
        (record (.event "ManagedClusterDenied"
          ("managed cluster " ++ name ++ " is denied by hub cluster admin"))
          (record (.getManagedCluster name) s))).1 = some err) :
    (sync env name s).1 = some (.single err)
    ∧ (∀ n cond, Call.updateStatus n cond ∉ callsSince s (sync env name s).2)
    ∧ (sync env name s).2.world.clusters = s.world.clusters
    ∧ (∃ mc', (sync env name s).2.world.clusters.find? (fun c => c.name == name) = some mc'
        ∧ IsConditionTrue (FindManagedClusterCondition mc'.conditions
            ManagedClusterConditionHubAccepted) = true)
    ∧ (∀ env', env'.fault (.getManagedCluster name) = none →
        ∃ rest, callsSince (sync env name s).2 (sync env' name (sync env name s).2).2 =
          [.getManagedCluster name,
           .event "ManagedClusterDenied"
             ("managed cluster " ++ name ++ " is denied by hub cluster admin"),
           .deleteNamespace name] ++ rest) := by
  have heq := sync_eq_deny env name s mc hfault hstored hzero hguard hdenied htrue
  have htr := removeManagedClusterResources_trace env name
    (record (.event "ManagedClusterDenied"
      ("managed cluster " ++ name ++ " is denied by hub cluster admin"))
      (record (.getManagedCluster name) s))
  have hcl := removeManagedClusterResources_clusters env name
    (record (.event "ManagedClusterDenied"
      ("managed cluster " ++ name ++ " is denied by hub cluster admin"))
      (record (.getManagedCluster name) s))
  rcases hr : removeManagedClusterResources env name
    (record (.event "ManagedClusterDenied"
      ("managed cluster " ++ name ++ " is denied by hub cluster admin"))
      (record (.getManagedCluster name) s)) with ⟨e, s3⟩
  rw [hr] at heq htr hcl hfail
  simp only at heq htr hcl hfail
  subst hfail
  simp only at heq
  have hpost : (sync env name s).2.world.clusters.find? (fun c => c.name == name)
      = some mc := by
    rw [heq]; simp only; rw [hcl]; exact hstored
  refine ⟨by rw [heq], ?_, by rw [heq]; exact hcl, ⟨mc, hpost, htrue⟩, ?_⟩
  · intro n cond hmem
    have hcalls : callsSince s (sync env name s).2 =
        [.getManagedCluster name,
         .event "ManagedClusterDenied"
           ("managed cluster " ++ name ++ " is denied by hub cluster admin")]
          ++ cleanupTrace env name := by
      rw [heq]
      exact callsSince_append _ _ _ (by simp [htr, record])
    rw [hcalls] at hmem
    simp only [List.mem_append, List.mem_cons, List.mem_singleton, List.not_mem_nil,
      or_false] at hmem
    rcases hmem with (h | h) | h
    · cases h
    · cases h
    · have := cleanupTrace_isCleanupCall env name _ h
      simp [Call.isCleanupCall] at this
  · intro env' hfault'
    exact sync_deny_calls env' name _ mc hfault' hpost hzero hguard hdenied htrue

/-- The scenario of C8: the revoked `east-1` is reconciled while the delete of its cluster
role is refused; `sync` returns that error and the stored cluster is unchanged. -/
theorem sync_deny_cleanup_failed_witness :
    (sync deleteFaultEnv "east-1" (hubProvisioned east1Revoked)).1 =
      some (.single (.status .internalError "etcd unavailable"))
    ∧ (sync deleteFaultEnv "east-1" (hubProvisioned east1Revoked)).2.world.clusters =
      [east1Revoked] := by
  have h := sync_deny_cleanup_failed deleteFaultEnv "east-1" (hubProvisioned east1Revoked)
    east1Revoked (.status .internalError "etcd unavailable")
    rfl (by decide) rfl (by decide) rfl (by decide) (by decide)
  exact ⟨h.1, h.2.2.1⟩

/-! ## The cleanup routine: absent objects and failures -/

/-- C9: whatever objects exist, if no delete of the cleanup is refused (each one succeeds or
reports NotFound), `removeManagedClusterResources` returns nil and afterwards neither the
namespace nor the cluster role nor the cluster role binding of the cluster exists; a second
run, on the hub the first one left, returns nil as well. -/
theorem removeManagedClusterResources_tolerates_absent (env : Env) (name : String) (s : St)
    (h : deletesUnfaulted env name) :
    (removeManagedClusterResources env name s).1 = none
    ∧ name ∉ (removeManagedClusterResources env name s).2.world.namespaces
    ∧ (clusterRolePrefix ++ ":" ++ name) ∉
        (removeManagedClusterResources env name s).2.world.clusterRoles
    ∧ (clusterRolePrefix ++ ":" ++ name) ∉
        (removeManagedClusterResources env name s).2.world.clusterRoleBindings
    ∧ (∀ env', deletesUnfaulted env' name →
        (removeManagedClusterResources env' name
          (removeManagedClusterResources env name s).2).1 = none) := by
  obtain ⟨h1, _, h3, h4, h5⟩ := removeManagedClusterResources_unfaulted env name s h
  exact ⟨h1, h3, h4, h5,
    fun env' h' => (removeManagedClusterResources_unfaulted env' name _ h').1⟩

/-- The scenario of C9: only the cluster role of `east-1` exists; the cleanup returns nil,
the cluster role is gone, and a second cleanup returns nil. -/
theorem removeManagedClusterResources_tolerates_absent_witness :
    (removeManagedClusterResources quietEnv "east-1" hubRoleOnly).1 = none
    ∧ (clusterRolePrefix ++ ":" ++ "east-1") ∉
        (removeManagedClusterResources quietEnv "east-1" hubRoleOnly).2.world.clusterRoles
    ∧ (removeManagedClusterResources quietEnv "east-1"
        (removeManagedClusterResources quietEnv "east-1" hubRoleOnly).2).1 = none := by
  have h := removeManagedClusterResources_tolerates_absent quietEnv "east-1" hubRoleOnly
    ⟨rfl, rfl, rfl⟩
  exact ⟨h.1, h.2.2.1, h.2.2.2.2 quietEnv ⟨rfl, rfl, rfl⟩⟩

/-- C10: when a delete of the cleanup is refused with an error other than NotFound,
`removeManagedClusterResources` returns exactly that error and makes no later delete (the
order is namespace, cluster role, cluster role binding); the deletes made before it stay
done, and the objects after it are untouched. -/
theorem removeManagedClusterResources_aborts (env : Env) (name : String) (s : St) :
    (∀ f, env.fault (.deleteNamespace name) = some f →
      removeManagedClusterResources env name s =
        (some f.toError, record (.deleteNamespace name) s))
    ∧ (∀ f, env.fault (.deleteNamespace name) = none →
      env.fault (.deleteClusterRole (clusterRolePrefix ++ ":" ++ name)) = some f →
      (removeManagedClusterResources env name s).1 = some f.toError
      ∧ (removeManagedClusterResources env name s).2.trace = s.trace ++
          [.deleteNamespace name,
           .event "ManagedClusterNamespaceDeleted" ("namespace " ++ name ++ " is deleted"),
           .deleteClusterRole (clusterRolePrefix ++ ":" ++ name)]
      ∧ name ∉ (removeManagedClusterResources env name s).2.world.namespaces
      ∧ (removeManagedClusterResources env name s).2.world.clusterRoles = s.world.clusterRoles
      ∧ (removeManagedClusterResources env name s).2.world.clusterRoleBindings =
          s.world.clusterRoleBindings)
    ∧ (∀ f, env.fault (.deleteNamespace name) = none →
      env.fault (.deleteClusterRole (clusterRolePrefix ++ ":" ++ name)) = none →
      env.fault (.deleteClusterRoleBinding (clusterRolePrefix ++ ":" ++ name)) = some f →
      (removeManagedClusterResources env name s).1 = some f.toError
      ∧ (removeManagedClusterResources env name s).2.trace = s.trace ++
          [.deleteNamespace name,
           .event "ManagedClusterNamespaceDeleted" ("namespace " ++ name ++ " is deleted"),
           .deleteClusterRole (clusterRolePrefix ++ ":" ++ name),
           .event "ManagedClusterClusterRoleDeleted"
             ("clusterrole " ++ (clusterRolePrefix ++ ":" ++ name) ++ " is deleted"),
           .deleteClusterRoleBinding (clusterRolePrefix ++ ":" ++ name)]
      ∧ name ∉ (removeManagedClusterResources env name s).2.world.namespaces
      ∧ (clusterRolePrefix ++ ":" ++ name) ∉
          (removeManagedClusterResources env name s).2.world.clusterRoles
      ∧ (removeManagedClusterResources env name s).2.world.clusterRoleBindings =
          s.world.clusterRoleBindings) := by
  refine ⟨?_, ?_, ?_⟩
  · intro f h1
    simp [removeManagedClusterResources, deleteNamespace, record, h1, isFailure]
  · intro f h1 h2
    simp only [removeManagedClusterResources, deleteNamespace, deleteClusterRole, record,
      h1, h2]
    split_ifs <;> simp_all [isFailure]
  · intro f h1 h2 h3
    simp only [removeManagedClusterResources, deleteNamespace, deleteClusterRole,
      deleteClusterRoleBinding, record, h1, h2, h3]
    split_ifs <;> simp_all [isFailure]

/-- The scenario of C10: the delete of the cluster role of `east-1` is refused; the cleanup
returns that error after three calls, the namespace stays deleted and the cluster role
binding is not touched. -/
theorem removeManagedClusterResources_aborts_witness :
    (removeManagedClusterResources deleteFaultEnv "east-1"
        (hubProvisioned east1Revoked)).1 = some (.status .internalError "etcd unavailable")
    ∧ "east-1" ∉ (removeManagedClusterResources deleteFaultEnv "east-1"
        (hubProvisioned east1Revoked)).2.world.namespaces
    ∧ (removeManagedClusterResources deleteFaultEnv "east-1"
        (hubProvisioned east1Revoked)).2.world.clusterRoleBindings =
          [clusterRolePrefix ++ ":" ++ "east-1"] := by
  have h := (removeManagedClusterResources_aborts deleteFaultEnv "east-1"
    (hubProvisioned east1Revoked)).2.1 _ rfl rfl
  exact ⟨h.1, h.2.2.1, h.2.2.2.2⟩

/-! ## The finalizer removal -/

theorem clientUpdate_trace (env : Env) (obj : ManagedCluster) (s : St) :
    (clientUpdate env obj s).2.trace = s.trace ++ [.updateManagedCluster obj] := by
  unfold clientUpdate
  cases env.fault (.updateManagedCluster obj) with
  | some f => rfl
  | none =>
    simp only [record]
    split_ifs <;> rfl

theorem clientUpdate_fault (env : Env) (obj : ManagedCluster) (s : St) (f : Fault)
    (h : env.fault (.updateManagedCluster obj) = some f) :
    clientUpdate env obj s = (some f.toError, record (.updateManagedCluster obj) s) := by
  simp [clientUpdate, h]

theorem removeManagedClusterFinalizer_of_mem (env : Env) (mc : ManagedCluster) (s : St)
    (h : managedClusterFinalizer ∈ mc.finalizers) :
    removeManagedClusterFinalizer env mc s =
      clientUpdate env { mc with
        finalizers := mc.finalizers.filter (fun f => f != managedClusterFinalizer) } s := by
  have hlen : mc.finalizers.length
      ≠ (mc.finalizers.filter (fun f => f != managedClusterFinalizer)).length := by
    intro hl
    have := (List.filter_length_eq_length.1 hl.symm) _ h
    simp at this
  have hne : (mc.finalizers.length
      != (mc.finalizers.filter (fun f => f != managedClusterFinalizer)).length) = true := by
    simpa using hlen
  simp only [removeManagedClusterFinalizer, hne, if_true]

theorem removeManagedClusterFinalizer_of_not_mem (env : Env) (mc : ManagedCluster) (s : St)
    (h : managedClusterFinalizer ∉ mc.finalizers) :
    removeManagedClusterFinalizer env mc s = (none, s) := by
  have hfil : mc.finalizers.filter (fun f => f != managedClusterFinalizer) = mc.finalizers := by
    rw [List.filter_eq_self]
    intro a ha
    have : a ≠ managedClusterFinalizer := fun e => h (e ▸ ha)
    simpa using this
  simp [removeManagedClusterFinalizer, hfil]

theorem callsSince_self (s : St) : callsSince s s = [] := by
  simp [callsSince]

/-- C11: the list `removeManagedClusterFinalizer` computes is the finalizer list without the
guard: the guard does not occur in it, it is a sublist of the old list (the order is kept)
and every other finalizer occurs in it as often as before.  When the guard occurs in the old
list the routine makes exactly one call, an Update of the cluster with that list, and returns
what the Update returns; when it does not occur the routine makes no call, changes nothing and returns nil.
So an Update is issued if and only if the guard occurred. -/
theorem removeManagedClusterFinalizer_spec (env : Env) (mc : ManagedCluster) (s : St) :
    managedClusterFinalizer ∉ mc.finalizers.filter (fun f => f != managedClusterFinalizer)
    ∧ (mc.finalizers.filter (fun f => f != managedClusterFinalizer)).Sublist mc.finalizers
    ∧ (∀ f, f ≠ managedClusterFinalizer →
        (mc.finalizers.filter (fun f => f != managedClusterFinalizer)).count f
          = mc.finalizers.count f)
    ∧ (managedClusterFinalizer ∈ mc.finalizers →
        callsSince s (removeManagedClusterFinalizer env mc s).2 =
          [.updateManagedCluster { mc with
            finalizers := mc.finalizers.filter (fun f => f != managedClusterFinalizer) }]
        ∧ removeManagedClusterFinalizer env mc s =
          clientUpdate env { mc with
            finalizers := mc.finalizers.filter (fun f => f != managedClusterFinalizer) } s)
    ∧ (managedClusterFinalizer ∉ mc.finalizers →
        removeManagedClusterFinalizer env mc s = (none, s))
    ∧ ((∃ obj, Call.updateManagedCluster obj ∈
          callsSince s (removeManagedClusterFinalizer env mc s).2)
        ↔ managedClusterFinalizer ∈ mc.finalizers) := by
  have hmem : managedClusterFinalizer ∈ mc.finalizers →
      callsSince s (removeManagedClusterFinalizer env mc s).2 =
        [.updateManagedCluster { mc with
          finalizers := mc.finalizers.filter (fun f => f != managedClusterFinalizer) }] := by
    intro h
    rw [removeManagedClusterFinalizer_of_mem env mc s h]
    exact callsSince_append _ _ _ (clientUpdate_trace _ _ _)
  refine ⟨by simp, List.filter_sublist _, ?_, ?_, removeManagedClusterFinalizer_of_not_mem env mc s,
    ?_⟩
  · intro f hf
    rw [List.count_filter]
    simpa using hf
  · intro h
    exact ⟨hmem h, removeManagedClusterFinalizer_of_mem env mc s h⟩
  · constructor
    · rintro ⟨obj, hobj⟩
      by_contra hno
      rw [removeManagedClusterFinalizer_of_not_mem env mc s hno, callsSince_self] at hobj
      cases hobj
    · intro h
      exact ⟨{ mc with
        finalizers := mc.finalizers.filter (fun f => f != managedClusterFinalizer) },
        by rw [hmem h]; exact List.mem_singleton.2 rfl⟩

/-- The scenario of C11: the guard occurs twice; one Update is issued, with the two other
finalizers in their order. -/
theorem removeManagedClusterFinalizer_spec_witness :
    callsSince (hubWith twiceGuarded)
        (removeManagedClusterFinalizer quietEnv twiceGuarded (hubWith twiceGuarded)).2 =
      [.updateManagedCluster { twiceGuarded with finalizers := ["a", "b"] }] :=
  ((removeManagedClusterFinalizer_spec quietEnv twiceGuarded (hubWith twiceGuarded)).2.2.2.1
    (by decide)).1.trans (by decide)

/-! ## The calls of each path -/

/-- The calls of the finalizer step: Get and the Update that appends the guard. -/
theorem sync_addFinalizer_calls (env : Env) (name : String) (s : St) (mc : ManagedCluster)
    (hfault : env.fault (.getManagedCluster name) = none)
    (hstored : s.world.clusters.find? (fun c => c.name == name) = some mc)
    (hzero : IsZero mc.deletionTimestamp = true)
    (hguard : managedClusterFinalizer ∉ mc.finalizers) :
    callsSince s (sync env name s).2 =
      [.getManagedCluster name,
       .updateManagedCluster
         { mc with finalizers := mc.finalizers ++ [managedClusterFinalizer] }] := by
  rw [sync_eq_addFinalizer env name s mc hfault hstored hzero hguard]
  apply callsSince_append
  simp [clientUpdate_trace, record]

/-- The calls of the delete path: Get, the cleanup, and after a successful cleanup of a
cluster that carries the guard, the Update that removes it. -/
theorem sync_deleting_calls (env : Env) (name : String) (s : St) (mc : ManagedCluster)
    (hfault : env.fault (.getManagedCluster name) = none)
    (hstored : s.world.clusters.find? (fun c => c.name == name) = some mc)
    (hdel : IsZero mc.deletionTimestamp = false) :
    callsSince s (sync env name s).2 =
      .getManagedCluster name :: (cleanupTrace env name ++
        (if firstDeleteFault env name = none ∧ managedClusterFinalizer ∈ mc.finalizers then
          [.updateManagedCluster { mc with
            finalizers := mc.finalizers.filter (fun f => f != managedClusterFinalizer) }]
         else [])) := by
  rw [sync_eq_deleting env name s mc hfault hstored hdel]
  have htr := removeManagedClusterResources_trace env name (record (.getManagedCluster name) s)
  have hres := removeManagedClusterResources_result env name
    (record (.getManagedCluster name) s)
  rcases hr : removeManagedClusterResources env name (record (.getManagedCluster name) s)
    with ⟨e, s2⟩
  rw [hr] at htr hres
  simp only [record] at htr hres
  apply callsSince_append
  cases e with
  | some err =>
    have hne : firstDeleteFault env name ≠ none := by
      intro h
      rw [h] at hres
      cases hres
    simp [htr, hne]
  | none =>
    have hnone : firstDeleteFault env name = none := by
      cases h : firstDeleteFault env name with
      | none => rfl
      | some f => rw [h] at hres; cases hres
    by_cases hg : managedClusterFinalizer ∈ mc.finalizers
    · simp only [removeManagedClusterFinalizer_of_mem env mc s2 hg, clientUpdate_trace, htr]
      simp [hnone, hg]
    · simp only [removeManagedClusterFinalizer_of_not_mem env mc s2 hg, htr]
      simp [hg]

/-- The calls of the deny path: Get, the Denied event, the cleanup, and after a successful
cleanup the status update. -/
theorem sync_deny_calls_all (env : Env) (name : String) (s : St) (mc : ManagedCluster)
    (hfault : env.fault (.getManagedCluster name) = none)
    (hstored : s.world.clusters.find? (fun c => c.name == name) = some mc)
    (hzero : IsZero mc.deletionTimestamp = true)
    (hguard : managedClusterFinalizer ∈ mc.finalizers)
    (hdenied : mc.hubAcceptsClient = false)
    (htrue : IsConditionTrue (FindManagedClusterCondition mc.conditions
      ManagedClusterConditionHubAccepted) = true) :
    callsSince s (sync env name s).2 =
      .getManagedCluster name ::
        .event "ManagedClusterDenied"
          ("managed cluster " ++ name ++ " is denied by hub cluster admin") ::
        (cleanupTrace env name ++
          (if firstDeleteFault env name = none then [.updateStatus name deniedCondition]
           else [])) := by
  rw [sync_eq_deny env name s mc hfault hstored hzero hguard hdenied htrue]
  have htr := removeManagedClusterResources_trace env name
    (record (.event "ManagedClusterDenied"
      ("managed cluster " ++ name ++ " is denied by hub cluster admin"))
      (record (.getManagedCluster name) s))
  have hres := removeManagedClusterResources_result env name
    (record (.event "ManagedClusterDenied"
      ("managed cluster " ++ name ++ " is denied by hub cluster admin"))
      (record (.getManagedCluster name) s))
  have hcl := removeManagedClusterResources_clusters env name
    (record (.event "ManagedClusterDenied"
      ("managed cluster " ++ name ++ " is denied by hub cluster admin"))
      (record (.getManagedCluster name) s))
  rcases hr : removeManagedClusterResources env name
    (record (.event "ManagedClusterDenied"
      ("managed cluster " ++ name ++ " is denied by hub cluster admin"))
      (record (.getManagedCluster name) s)) with ⟨e, s3⟩
  rw [hr] at htr hres hcl
  simp only [record] at htr hres hcl
  apply callsSince_append
  cases e with
  | some err =>
    have hne : firstDeleteFault env name ≠ none := by
      intro h
      rw [h] at hres
      cases hres
    simp [htr, hne]
  | none =>
    have hnone : firstDeleteFault env name = none := by
      cases h : firstDeleteFault env name with
      | none => rfl
      | some f => rw [h] at hres; cases hres
    have hstored3 : s3.world.clusters.find? (fun c => c.name == name) = some mc := by
      rw [hcl]; exact hstored
    obtain ⟨u1, _⟩ := UpdateManagedClusterStatus_stored env name deniedCondition s3 mc hstored3
    simp [u1, htr, hnone]

/-- The calls of the accept path: Get, the seven applies, the status update, and the
Accepted event when the update wrote. -/
theorem sync_accept_calls (env : Env) (name : String) (s : St) (mc : ManagedCluster)
    (hfault : env.fault (.getManagedCluster name) = none)
    (hstored : s.world.clusters.find? (fun c => c.name == name) = some mc)
    (hzero : IsZero mc.deletionTimestamp = true)
    (hguard : managedClusterFinalizer ∈ mc.finalizers)
    (haccepts : mc.hubAcceptsClient = true) :
    callsSince s (sync env name s).2 =
      [.getManagedCluster name]
        ++ manifestFiles.map (fun f => Call.applyManifest f name)
        ++ [.updateStatus name (acceptedCondition (manifestErrors env name manifestFiles))]
        ++ (if env.fault (.updateStatus name
              (acceptedCondition (manifestErrors env name manifestFiles))) = none
            ∧ UpdateManagedClusterConditionFn env.now
              (acceptedCondition (manifestErrors env name manifestFiles)) mc.conditions
              ≠ mc.conditions
            then [.event "ManagedClusterAccepted"
              ("managed cluster " ++ name ++ " is accepted by hub cluster admin")]
            else []) := by
  rw [sync_eq_accept env name s mc hfault hstored hzero hguard haccepts]
  exact callsSince_append _ _ _ rfl

theorem callsSince_record (s : St) (c : Call) : callsSince s (record c s) = [c] :=
  callsSince_append _ _ _ rfl

theorem mem_cleanupTrace_kinds (env : Env) (name : String) (c : Call)
    (h : c ∈ cleanupTrace env name) :
    c.isApply = false ∧ c.isStatusUpdate = false ∧ c.isUpdate = false := by
  have hc := cleanupTrace_isCleanupCall env name c h
  cases c <;> simp_all [Call.isCleanupCall, Call.isApply, Call.isStatusUpdate, Call.isUpdate]

/-- The calls of one `sync`, by path: nothing but the Get; the finalizer step; the delete
path; the deny path; the accept path. -/
theorem sync_calls_cases (env : Env) (name : String) (s : St) :
    callsSince s (sync env name s).2 = [.getManagedCluster name]
    ∨ (∃ mc, s.world.clusters.find? (fun c => c.name == name) = some mc
        ∧ IsZero mc.deletionTimestamp = true ∧ managedClusterFinalizer ∉ mc.finalizers
        ∧ callsSince s (sync env name s).2 =
            [.getManagedCluster name,
             .updateManagedCluster
               { mc with finalizers := mc.finalizers ++ [managedClusterFinalizer] }])
    ∨ (∃ mc, s.world.clusters.find? (fun c => c.name == name) = some mc
        ∧ IsZero mc.deletionTimestamp = false
        ∧ callsSince s (sync env name s).2 =
            .getManagedCluster name :: (cleanupTrace env name ++
              (if firstDeleteFault env name = none ∧ managedClusterFinalizer ∈ mc.finalizers then
                [.updateManagedCluster { mc with
                  finalizers := mc.finalizers.filter (fun f => f != managedClusterFinalizer) }]
               else [])))
    ∨ (∃ mc, s.world.clusters.find? (fun c => c.name == name) = some mc
        ∧ IsZero mc.deletionTimestamp = true ∧ managedClusterFinalizer ∈ mc.finalizers
        ∧ callsSince s (sync env name s).2 =
            .getManagedCluster name ::
              .event "ManagedClusterDenied"
                ("managed cluster " ++ name ++ " is denied by hub cluster admin") ::
              (cleanupTrace env name ++
                (if firstDeleteFault env name = none then [.updateStatus name deniedCondition]
                 else [])))
    ∨ (∃ mc, s.world.clusters.find? (fun c => c.name == name) = some mc
        ∧ IsZero mc.deletionTimestamp = true ∧ managedClusterFinalizer ∈ mc.finalizers
        ∧ callsSince s (sync env name s).2 =
            [.getManagedCluster name]
              ++ manifestFiles.map (fun f => Call.applyManifest f name)
              ++ [.updateStatus name
                    (acceptedCondition (manifestErrors env name manifestFiles))]
              ++ (if env.fault (.updateStatus name
                    (acceptedCondition (manifestErrors env name manifestFiles))) = none
                  ∧ UpdateManagedClusterConditionFn env.now
                    (acceptedCondition (manifestErrors env name manifestFiles)) mc.conditions
                    ≠ mc.conditions
                  then [.event "ManagedClusterAccepted"
                    ("managed cluster " ++ name ++ " is accepted by hub cluster admin")]
                  else [])) := by
  cases hfault : env.fault (.getManagedCluster name) with
  | some f =>
    left
    rw [sync_get_fault env name s f hfault]
    exact callsSince_record _ _
  | none =>
    cases hstored : s.world.clusters.find? (fun c => c.name == name) with
    | none =>
      left
      rw [sync_not_found env name s hfault hstored]
      exact callsSince_record _ _
    | some mc =>
      cases hzero : IsZero mc.deletionTimestamp with
      | false =>
        right; right; left
        exact ⟨mc, rfl, hzero, sync_deleting_calls env name s mc hfault hstored hzero⟩
      | true =>
        by_cases hguard : managedClusterFinalizer ∈ mc.finalizers
        · cases hacc : mc.hubAcceptsClient with
          | false =>
            cases hcond : IsConditionTrue (FindManagedClusterCondition mc.conditions
                ManagedClusterConditionHubAccepted) with
            | false =>
              left
              rw [sync_deny_noop env name s mc hfault hstored hzero hguard hacc hcond]
              exact callsSince_record _ _
            | true =>
              right; right; right; left
              exact ⟨mc, rfl, hzero, hguard,
                sync_deny_calls_all env name s mc hfault hstored hzero hguard hacc hcond⟩
          | true =>
            right; right; right; right
            exact ⟨mc, rfl, hzero, hguard,
              sync_accept_calls env name s mc hfault hstored hzero hguard hacc⟩
        · right; left
          exact ⟨mc, rfl, hzero, hguard,
            sync_addFinalizer_calls env name s mc hfault hstored hzero hguard⟩

theorem eq_of_mem_ite_singleton {p : Prop} [Decidable p] {a c : Call}
    (h : c ∈ (if p then [a] else [])) : c = a := by
  split_ifs at h
  · exact List.mem_singleton.1 h
  · cases h

/-! ## One path per reconciliation -/

/-- C12: in every state, one `sync` makes the calls of at most one path.  If it issues an
Update that carries the guard (it appends the guard), its calls are the Get and that Update
and nothing else.  If it issues an Update without the guard (it removes the guard), or the
cluster it read is deleting, it applies no manifest and requests no status update.  If it
applies a manifest or requests a status update, the stored cluster it read is not deleting
and carries the guard; and when it applies a manifest it issues no delete and no Update. -/
theorem sync_one_path (env : Env) (name : String) (s : St) :
    (∀ obj, Call.updateManagedCluster obj ∈ callsSince s (sync env name s).2 →
        managedClusterFinalizer ∈ obj.finalizers →
        callsSince s (sync env name s).2 =
          [.getManagedCluster name, .updateManagedCluster obj])
    ∧ (∀ obj, Call.updateManagedCluster obj ∈ callsSince s (sync env name s).2 →
        managedClusterFinalizer ∉ obj.finalizers →
        ∀ c ∈ callsSince s (sync env name s).2, c.isApply = false ∧ c.isStatusUpdate = false)
    ∧ (∀ mc, s.world.clusters.find? (fun c => c.name == name) = some mc →
        IsZero mc.deletionTimestamp = false →
        ∀ c ∈ callsSince s (sync env name s).2, c.isApply = false ∧ c.isStatusUpdate = false)
    ∧ (∀ c ∈ callsSince s (sync env name s).2, c.isApply = true ∨ c.isStatusUpdate = true →
        ∃ mc, s.world.clusters.find? (fun c => c.name == name) = some mc
          ∧ IsZero mc.deletionTimestamp = true ∧ managedClusterFinalizer ∈ mc.finalizers)
    ∧ (∀ c ∈ callsSince s (sync env name s).2, c.isApply = true →
        ∀ c' ∈ callsSince s (sync env name s).2, c'.isDelete = false ∧ c'.isUpdate = false) := by
  rcases sync_calls_cases env name s with hA | ⟨mc, hst, hz, hg, hB⟩ | ⟨mc, hst, hz, hC⟩ |
    ⟨mc, hst, hz, hg, hD⟩ | ⟨mc, hst, hz, hg, hE⟩
  · -- nothing but the Get
    rw [hA]
    refine ⟨?_, ?_, ?_, ?_, ?_⟩
    · intro obj h; simp at h
    · intro obj h; simp at h
    · intro _ _ _ c hc
      rw [List.mem_singleton.1 hc]; exact ⟨rfl, rfl⟩
    · intro c hc h
      rw [List.mem_singleton.1 hc] at h
      simp [Call.isApply, Call.isStatusUpdate] at h
    · intro c hc h
      rw [List.mem_singleton.1 hc] at h
      simp [Call.isApply] at h
  · -- the finalizer step
    rw [hB]
    refine ⟨?_, ?_, ?_, ?_, ?_⟩
    · intro obj h _
      simp only [List.mem_cons, List.mem_singleton, List.not_mem_nil, or_false] at h
      rcases h with h | h
      · cases h
      · cases h; rfl
    · intro obj h hno
      simp only [List.mem_cons, List.mem_singleton, List.not_mem_nil, or_false] at h
      rcases h with h | h
      · cases h
      · cases h
        exact absurd (List.mem_append_right _ (List.mem_singleton.2 rfl)) hno
    · intro mc' hst' hz'
      rw [hst] at hst'
      cases hst'
      rw [hz] at hz'
      cases hz'
    · intro c hc h
      simp only [List.mem_cons, List.mem_singleton, List.not_mem_nil, or_false] at hc
      rcases hc with rfl | rfl <;> simp [Call.isApply, Call.isStatusUpdate] at h
    · intro c hc h
      simp only [List.mem_cons, List.mem_singleton, List.not_mem_nil, or_false] at hc
      rcases hc with rfl | rfl <;> simp [Call.isApply] at h
  · -- the delete path
    have hkinds : ∀ c ∈ callsSince s (sync env name s).2,
        c.isApply = false ∧ c.isStatusUpdate = false := by
      intro c hc
      rw [hC] at hc
      rcases List.mem_cons.1 hc with rfl | hc
      · exact ⟨rfl, rfl⟩
      · rcases List.mem_append.1 hc with hc | hc
        · exact ⟨(mem_cleanupTrace_kinds env name c hc).1,
            (mem_cleanupTrace_kinds env name c hc).2.1⟩
        · rw [eq_of_mem_ite_singleton hc]; exact ⟨rfl, rfl⟩
    refine ⟨?_, fun _ _ _ => hkinds, fun _ _ _ => hkinds, ?_, ?_⟩
    · intro obj h hin
      exfalso
      rw [hC] at h
      rcases List.mem_cons.1 h with h | h
      · cases h
      · rcases List.mem_append.1 h with h | h
        · have := (mem_cleanupTrace_kinds env name _ h).2.2
          simp [Call.isUpdate] at this
        · have := eq_of_mem_ite_singleton h
          cases this
          simp at hin
    · intro c hc h
      have := hkinds c hc
      rcases h with h | h
      · rw [this.1] at h; cases h
      · rw [this.2] at h; cases h
    · intro c hc h
      rw [(hkinds c hc).1] at h; cases h
  · -- the deny path
    have hshape : ∀ c ∈ callsSince s (sync env name s).2,
        c.isApply = false ∧ c.isUpdate = false := by
      intro c hc
      rw [hD] at hc
      rcases List.mem_cons.1 hc with rfl | hc
      · exact ⟨rfl, rfl⟩
      · rcases List.mem_cons.1 hc with rfl | hc
        · exact ⟨rfl, rfl⟩
        · rcases List.mem_append.1 hc with hc | hc
          · exact ⟨(mem_cleanupTrace_kinds env name c hc).1,
              (mem_cleanupTrace_kinds env name c hc).2.2⟩
          · rw [eq_of_mem_ite_singleton hc]; exact ⟨rfl, rfl⟩
    refine ⟨?_, ?_, ?_, fun _ _ _ => ⟨mc, hst, hz, hg⟩, ?_⟩
    · intro obj h _
      have := (hshape _ h).2
      simp [Call.isUpdate] at this
    · intro obj h _
      have := (hshape _ h).2
      simp [Call.isUpdate] at this
    · intro mc' hst' hz'
      rw [hst] at hst'
      cases hst'
      rw [hz] at hz'
      cases hz'
    · intro c hc h
      rw [(hshape c hc).1] at h; cases h
  · -- the accept path
    have hshape : ∀ c ∈ callsSince s (sync env name s).2,
        c.isDelete = false ∧ c.isUpdate = false := by
      intro c hc
      rw [hE] at hc
      simp only [List.mem_append, List.mem_singleton, List.mem_map] at hc
      rcases hc with ((rfl | ⟨f, _, rfl⟩) | rfl) | hc
      · exact ⟨rfl, rfl⟩
      · exact ⟨rfl, rfl⟩
      · exact ⟨rfl, rfl⟩
      · rw [eq_of_mem_ite_singleton hc]; exact ⟨rfl, rfl⟩
    refine ⟨?_, ?_, ?_, fun _ _ _ => ⟨mc, hst, hz, hg⟩, fun _ _ _ => hshape⟩
    · intro obj h _
      have := (hshape _ h).2
      simp [Call.isUpdate] at this
    · intro obj h _
      have := (hshape _ h).2
      simp [Call.isUpdate] at this
    · intro mc' hst' hz'
      rw [hst] at hst'
      cases hst'
      rw [hz] at hz'
      cases hz'

/-! ## The stored cluster after the deny and accept paths -/

/-- The stored cluster after a deny path whose cleanup succeeded: the condition has been set
unless the status update was refused. -/
theorem sync_deny_stored (env : Env) (name : String) (s : St) (mc : ManagedCluster)
    (hfault : env.fault (.getManagedCluster name) = none)
    (hstored : s.world.clusters.find? (fun c => c.name == name) = some mc)
    (hzero : IsZero mc.deletionTimestamp = true)
    (hguard : managedClusterFinalizer ∈ mc.finalizers)
    (hdenied : mc.hubAcceptsClient = false)
    (htrue : IsConditionTrue (FindManagedClusterCondition mc.conditions
      ManagedClusterConditionHubAccepted) = true)
    (hclean : (removeManagedClusterResources env name
        (record (.event "ManagedClusterDenied"
          ("managed cluster " ++ name ++ " is denied by hub cluster admin"))
          (record (.getManagedCluster name) s))).1 = none) :
    (sync env name s).2.world.clusters.find? (fun c => c.name == name) =
      some (if env.fault (.updateStatus name deniedCondition) = none then
        { mc with
          conditions := UpdateManagedClusterConditionFn env.now deniedCondition mc.conditions }
      else mc) := by
  rw [sync_eq_deny env name s mc hfault hstored hzero hguard hdenied htrue]
  have hcl := removeManagedClusterResources_clusters env name
    (record (.event "ManagedClusterDenied"
      ("managed cluster " ++ name ++ " is denied by hub cluster admin"))
      (record (.getManagedCluster name) s))
  rcases hr : removeManagedClusterResources env name
    (record (.event "ManagedClusterDenied"
      ("managed cluster " ++ name ++ " is denied by hub cluster admin"))
      (record (.getManagedCluster name) s)) with ⟨e, s3⟩
  rw [hr] at hclean hcl
  simp only at hclean hcl
  subst hclean
  have hstored3 : s3.world.clusters.find? (fun c => c.name == name) = some mc := by
    rw [hcl]; exact hstored
  obtain ⟨_, _, _, _, _, _, u7, _⟩ :=
    UpdateManagedClusterStatus_stored env name deniedCondition s3 mc hstored3
  exact u7

/-- The stored cluster after a deny path whose cleanup failed is the one that was read. -/
theorem sync_deny_failed_stored (env : Env) (name : String) (s : St) (mc : ManagedCluster)
    (err : PlainError)
    (hfault : env.fault (.getManagedCluster name) = none)
    (hstored : s.world.clusters.find? (fun c => c.name == name) = some mc)
    (hzero : IsZero mc.deletionTimestamp = true)
    (hguard : managedClusterFinalizer ∈ mc.finalizers)
    (hdenied : mc.hubAcceptsClient = false)
    (htrue : IsConditionTrue (FindManagedClusterCondition mc.conditions
      ManagedClusterConditionHubAccepted) = true)
    (hclean : (removeManagedClusterResources env name
        (record (.event "ManagedClusterDenied"
          ("managed cluster " ++ name ++ " is denied by hub cluster admin"))
          (record (.getManagedCluster name) s))).1 = some err) :
    (sync env name s).2.world.clusters.find? (fun c => c.name == name) = some mc := by
  rw [sync_eq_deny env name s mc hfault hstored hzero hguard hdenied htrue]
  have hcl := removeManagedClusterResources_clusters env name
    (record (.event "ManagedClusterDenied"
      ("managed cluster " ++ name ++ " is denied by hub cluster admin"))
      (record (.getManagedCluster name) s))
  rcases hr : removeManagedClusterResources env name
    (record (.event "ManagedClusterDenied"
      ("managed cluster " ++ name ++ " is denied by hub cluster admin"))
      (record (.getManagedCluster name) s)) with ⟨e, s3⟩
  rw [hr] at hclean hcl
  simp only at hclean hcl
  subst hclean
  simp only
  rw [hcl]
  exact hstored

/-- The stored cluster after an accept path: the condition has been set unless the status
update was refused. -/
theorem sync_accept_stored (env : Env) (name : String) (s : St) (mc : ManagedCluster)
    (hfault : env.fault (.getManagedCluster name) = none)
    (hstored : s.world.clusters.find? (fun c => c.name == name) = some mc)
    (hzero : IsZero mc.deletionTimestamp = true)
    (hguard : managedClusterFinalizer ∈ mc.finalizers)
    (haccepts : mc.hubAcceptsClient = true) :
    (sync env name s).2.world.clusters.find? (fun c => c.name == name) =
      some (if env.fault (.updateStatus name
          (acceptedCondition (manifestErrors env name manifestFiles))) = none then
        { mc with
          conditions := UpdateManagedClusterConditionFn env.now
            (acceptedCondition (manifestErrors env name manifestFiles)) mc.conditions }
      else mc) := by
  rw [sync_eq_accept env name s mc hfault hstored hzero hguard haccepts]
  have hcl := ApplyDirectly_clusters env name manifestFiles (record (.getManagedCluster name) s)
  have hstored2 : (ApplyDirectly env name manifestFiles
      (record (.getManagedCluster name) s)).2.world.clusters.find?
        (fun c => c.name == name) = some mc := by
    rw [hcl]; exact hstored
  obtain ⟨_, _, _, _, _, _, u7, _⟩ := UpdateManagedClusterStatus_stored env name
    (acceptedCondition (manifestErrors env name manifestFiles)) _ mc hstored2
  exact u7

theorem IsConditionTrue_eq_false_iff (conditions : List StatusCondition) :
    IsConditionTrue (FindManagedClusterCondition conditions
        ManagedClusterConditionHubAccepted) = false ↔
      (FindManagedClusterCondition conditions ManagedClusterConditionHubAccepted = none
        ∨ ∃ c, FindManagedClusterCondition conditions ManagedClusterConditionHubAccepted
            = some c ∧ c.status ≠ .condTrue) := by
  cases h : FindManagedClusterCondition conditions ManagedClusterConditionHubAccepted with
  | none => simp [IsConditionTrue]
  | some c => simp [IsConditionTrue]

/-! ## The denied cluster whose condition is not True -/

/-- C13: for a stored cluster that is not deleting, carries the guard and has
`hubAcceptsClient = false`: when its HubAccepted condition is absent or has a status other
than True, `sync` returns nil, its only call is the Get, and the hub is unchanged (no Update,
no delete, no apply, no status update).  Consequently, after a deny reconciliation whose
cleanup and status update succeeded, a second reconciliation returns nil, makes only the Get
and leaves the hub as it is. -/
theorem sync_denied_not_true (env : Env) (name : String) (s : St) (mc : ManagedCluster)
    (hfault : env.fault (.getManagedCluster name) = none)
    (hstored : s.world.clusters.find? (fun c => c.name == name) = some mc)
    (hzero : IsZero mc.deletionTimestamp = true)
    (hguard : managedClusterFinalizer ∈ mc.finalizers)
    (hdenied : mc.hubAcceptsClient = false) :
    ((FindManagedClusterCondition mc.conditions ManagedClusterConditionHubAccepted = none
        ∨ ∃ c, FindManagedClusterCondition mc.conditions ManagedClusterConditionHubAccepted
            = some c ∧ c.status ≠ .condTrue) →
      (sync env name s).1 = none
      ∧ callsSince s (sync env name s).2 = [.getManagedCluster name]
      ∧ (sync env name s).2.world = s.world)
    ∧ (IsConditionTrue (FindManagedClusterCondition mc.conditions
          ManagedClusterConditionHubAccepted) = true →
      (removeManagedClusterResources env name
        (record (.event "ManagedClusterDenied"
          ("managed cluster " ++ name ++ " is denied by hub cluster admin"))
          (record (.getManagedCluster name) s))).1 = none →
      env.fault (.updateStatus name deniedCondition) = none →
      ∀ env', env'.fault (.getManagedCluster name) = none →
        (sync env' name (sync env name s).2).1 = none
        ∧ callsSince (sync env name s).2 (sync env' name (sync env name s).2).2
            = [.getManagedCluster name]
        ∧ (sync env' name (sync env name s).2).2.world = (sync env name s).2.world) := by
  constructor
  · intro hcond
    have hfalse := (IsConditionTrue_eq_false_iff mc.conditions).2 hcond
    rw [sync_deny_noop env name s mc hfault hstored hzero hguard hdenied hfalse]
    exact ⟨rfl, callsSince_record _ _, rfl⟩
  · intro htrue hclean hupd env' hfault'
    have hpost := sync_deny_stored env name s mc hfault hstored hzero hguard hdenied htrue hclean
    rw [if_pos hupd] at hpost
    obtain ⟨c, hc, _, hstatus, _, _⟩ :=
      find_UpdateManagedClusterConditionFn env.now deniedCondition mc.conditions
    have hfalse : IsConditionTrue (FindManagedClusterCondition
        (UpdateManagedClusterConditionFn env.now deniedCondition mc.conditions)
        ManagedClusterConditionHubAccepted) = false := by
      have hc' : FindManagedClusterCondition
          (UpdateManagedClusterConditionFn env.now deniedCondition mc.conditions)
          ManagedClusterConditionHubAccepted = some c := hc
      rw [hc']
      simp [IsConditionTrue, hstatus, deniedCondition]
    rw [sync_deny_noop env' name (sync env name s).2 _ hfault' hpost hzero hguard hdenied hfalse]
    exact ⟨rfl, callsSince_record _ _, rfl⟩

/-- The scenario of C13: the provisioned `east-1` is revoked and reconciled; a second
reconciliation then does nothing. -/
theorem sync_denied_not_true_witness :
    (sync quietEnv "east-1" (sync quietEnv "east-1" (hubProvisioned east1Revoked)).2).1 = none
    ∧ (sync quietEnv "east-1" (sync quietEnv "east-1" (hubProvisioned east1Revoked)).2).2.world
        = (sync quietEnv "east-1" (hubProvisioned east1Revoked)).2.world := by
  have h := (sync_denied_not_true quietEnv "east-1" (hubProvisioned east1Revoked) east1Revoked
    rfl (by decide) rfl (by decide) rfl).2 (by decide) (by decide) rfl quietEnv rfl
  exact ⟨h.1, h.2.2⟩

/-! ## Re-running the accept path -/

theorem ensure_of_mem {α : Type} [DecidableEq α] (x : α) (l : List α) (h : x ∈ l) :
    ensure x l = l := by
  simp [ensure, h]

theorem withObject_of_has (w : World) (o : ManifestObject) (h : w.has o) :
    w.withObject o = w := by
  cases o <;> simp_all [World.withObject, World.has, ensure_of_mem]

/-- Applying manifests whose objects all exist leaves the hub as it is. -/
theorem ApplyDirectly_world_of_has (env : Env) (name : String) (files : List String) (s : St)
    (h : ∀ file ∈ files, s.world.has (manifestObject file name)) :
    (ApplyDirectly env name files s).2.world = s.world := by
  induction files generalizing s with
  | nil => rfl
  | cons f fs ih =>
    simp only [ApplyDirectly, applyManifest_eq]
    have hf := h f (List.mem_cons_self _ _)
    have hw : (if env.fault (.applyManifest f name) = none then
        s.world.withObject (manifestObject f name) else s.world) = s.world := by
      split_ifs
      · exact withObject_of_has _ _ hf
      · rfl
    rw [ih]
    · exact hw
    · intro file hfile
      show World.has (if _ then _ else _) _
      rw [hw]
      exact h file (List.mem_cons_of_mem _ hfile)

theorem World.has_congr (w w' : World) (o : ManifestObject)
    (h1 : w'.namespaces = w.namespaces) (h2 : w'.clusterRoles = w.clusterRoles)
    (h3 : w'.clusterRoleBindings = w.clusterRoleBindings) (h4 : w'.namespaced = w.namespaced)
    (h : w.has o) : w'.has o := by
  cases o <;> simp_all [World.has]

/-- Setting a condition a second time changes nothing, whatever the clock. -/
theorem UpdateManagedClusterConditionFn_idem (now now' : Nat) (cond : StatusCondition)
    (conditions : List StatusCondition) :
    UpdateManagedClusterConditionFn now' cond
        (UpdateManagedClusterConditionFn now cond conditions) =
      UpdateManagedClusterConditionFn now cond conditions := by
  induction conditions with
  | nil => simp [UpdateManagedClusterConditionFn]
  | cons c cs ih =>
    by_cases ht : c.type = cond.type
    · by_cases hsame : c.status = cond.status ∧ c.reason = cond.reason ∧ c.message = cond.message
      · simp [UpdateManagedClusterConditionFn, ht, hsame]
      · simp [UpdateManagedClusterConditionFn, ht, hsame]
    · simp [UpdateManagedClusterConditionFn, ht, ih]

/-- A status update that is not refused and finds the condition as it is writes nothing. -/
theorem UpdateManagedClusterStatus_same (env : Env) (name : String) (cond : StatusCondition)
    (s : St) (mc : ManagedCluster)
    (hstored : s.world.clusters.find? (fun c => c.name == name) = some mc)
    (hfault : env.fault (.updateStatus name cond) = none)
    (hsame : UpdateManagedClusterConditionFn env.now cond mc.conditions = mc.conditions) :
    UpdateManagedClusterStatus env name cond s = ((false, none), record (.updateStatus name cond) s) := by
  simp [UpdateManagedClusterStatus, hfault, hstored, hsame]

/-- Every manifest that was applied without a fault on the accept path has its object on the
hub afterwards. -/
theorem sync_accept_has (env : Env) (name : String) (s : St) (mc : ManagedCluster)
    (hfault : env.fault (.getManagedCluster name) = none)
    (hstored : s.world.clusters.find? (fun c => c.name == name) = some mc)
    (hzero : IsZero mc.deletionTimestamp = true)
    (hguard : managedClusterFinalizer ∈ mc.finalizers)
    (haccepts : mc.hubAcceptsClient = true)
    (file : String) (hfile : file ∈ manifestFiles)
    (happly : env.fault (.applyManifest file name) = none) :
    (sync env name s).2.world.has (manifestObject file name) := by
  rw [sync_eq_accept env name s mc hfault hstored hzero hguard haccepts]
  have hcl := ApplyDirectly_clusters env name manifestFiles (record (.getManagedCluster name) s)
  have hstored2 : (ApplyDirectly env name manifestFiles
      (record (.getManagedCluster name) s)).2.world.clusters.find?
        (fun c => c.name == name) = some mc := by
    rw [hcl]; exact hstored
  obtain ⟨_, _, u3, u4, u5, u6, _, _⟩ := UpdateManagedClusterStatus_stored env name
    (acceptedCondition (manifestErrors env name manifestFiles)) _ mc hstored2
  exact World.has_congr _ _ _ u3 u4 u5 u6
    (ApplyDirectly_has_applied env name manifestFiles _ file hfile happly)

/-- C14: for a stored cluster that is not deleting, carries the guard and has
`hubAcceptsClient = true`, after a reconciliation in which all seven manifests were applied
and the status update succeeded, a second reconciliation in which again no apply and no
status update is refused leaves the hub identical: the condition updater finds the HubAccepted
condition as it would set it and writes nothing (no Accepted event follows), the calls are
the Get, the seven applies and the status update (no Update, no delete), and `sync` returns
nil. -/
theorem sync_accept_twice (env env' : Env) (name : String) (s : St) (mc : ManagedCluster)
    (hfault : env.fault (.getManagedCluster name) = none)
    (hstored : s.world.clusters.find? (fun c => c.name == name) = some mc)
    (hzero : IsZero mc.deletionTimestamp = true)
    (hguard : managedClusterFinalizer ∈ mc.finalizers)
    (haccepts : mc.hubAcceptsClient = true)
    (hall : ∀ file ∈ manifestFiles, env.fault (.applyManifest file name) = none)
    (hupd : env.fault (.updateStatus name (acceptedCondition [])) = none)
    (hfault' : env'.fault (.getManagedCluster name) = none)
    (hall' : ∀ file ∈ manifestFiles, env'.fault (.applyManifest file name) = none)
    (hupd' : env'.fault (.updateStatus name (acceptedCondition [])) = none) :
    (sync env' name (sync env name s).2).1 = none
    ∧ (sync env' name (sync env name s).2).2.world = (sync env name s).2.world
    ∧ callsSince (sync env name s).2 (sync env' name (sync env name s).2).2 =
        [.getManagedCluster name]
          ++ manifestFiles.map (fun f => Call.applyManifest f name)
          ++ [.updateStatus name
                { type := ManagedClusterConditionHubAccepted, status := .condTrue,
                  reason := "HubClusterAdminAccepted",
                  message := "Accepted by hub cluster admin", lastTransitionTime := 0 }]
    ∧ (∃ mc', (sync env name s).2.world.clusters.find? (fun c => c.name == name) = some mc'
        ∧ UpdateManagedClusterConditionFn env'.now (acceptedCondition []) mc'.conditions
            = mc'.conditions
        ∧ (UpdateManagedClusterStatus env' name (acceptedCondition [])
            (ApplyDirectly env' name manifestFiles
              (record (.getManagedCluster name) (sync env name s).2)).2).1 = (false, none)) := by
  have herrs := manifestErrors_nil env name manifestFiles hall
  have herrs' := manifestErrors_nil env' name manifestFiles hall'
  have hpost := sync_accept_stored env name s mc hfault hstored hzero hguard haccepts
  rw [herrs, if_pos hupd] at hpost
  have hidem := UpdateManagedClusterConditionFn_idem env.now env'.now (acceptedCondition [])
    mc.conditions
  have hhas : ∀ file ∈ manifestFiles,
      (record (.getManagedCluster name) (sync env name s).2).world.has
        (manifestObject file name) :=
    fun file hfile =>
      sync_accept_has env name s mc hfault hstored hzero hguard haccepts file hfile
        (hall file hfile)
  have hworld := ApplyDirectly_world_of_has env' name manifestFiles
    (record (.getManagedCluster name) (sync env name s).2) hhas
  have hstored2 : (ApplyDirectly env' name manifestFiles
      (record (.getManagedCluster name) (sync env name s).2)).2.world.clusters.find?
        (fun c => c.name == name) =
      some { mc with
        conditions := UpdateManagedClusterConditionFn env.now (acceptedCondition [])
          mc.conditions } := by
    rw [hworld]; exact hpost
  have hsame := UpdateManagedClusterStatus_same env' name (acceptedCondition [])
    (ApplyDirectly env' name manifestFiles
      (record (.getManagedCluster name) (sync env name s).2)).2 _ hstored2 hupd' hidem
  have heq := sync_eq_accept env' name (sync env name s).2 _ hfault' hpost hzero hguard haccepts
  have hcalls := sync_accept_calls env' name (sync env name s).2 _ hfault' hpost hzero hguard
    haccepts
  rw [herrs'] at heq hcalls
  refine ⟨?_, ?_, ?_, ⟨_, hpost, hidem, ?_⟩⟩
  · rw [heq]
    simp [statusUpdateErrors, hupd', NewMultiLineAggregate]
  · rw [heq]
    simp only
    rw [hsame]
    exact hworld
  · rw [hcalls, acceptedCondition_nil]
    have hno : ¬ (env'.fault (.updateStatus name (acceptedCondition [])) = none
        ∧ UpdateManagedClusterConditionFn env'.now (acceptedCondition [])
          (UpdateManagedClusterConditionFn env.now (acceptedCondition []) mc.conditions)
          ≠ UpdateManagedClusterConditionFn env.now (acceptedCondition []) mc.conditions) :=
      fun h => h.2 hidem
    rw [acceptedCondition_nil] at hno
    simp only [hno, if_false, List.append_nil]
  · rw [hsame]

/-- The scenario of C14: the guarded, accepted `east-1` is reconciled twice; the second run
leaves the hub as the first one left it and returns nil. -/
theorem sync_accept_twice_witness :
    (sync quietEnv "east-1" (sync quietEnv "east-1" (hubWith east1Guarded)).2).1 = none
    ∧ (sync quietEnv "east-1" (sync quietEnv "east-1" (hubWith east1Guarded)).2).2.world
        = (sync quietEnv "east-1" (hubWith east1Guarded)).2.world := by
  have h := sync_accept_twice quietEnv quietEnv "east-1" (hubWith east1Guarded) east1Guarded
    rfl (by decide) rfl (by decide) rfl (fun _ _ => rfl) rfl rfl (fun _ _ => rfl) rfl
  exact ⟨h.1, h.2.1⟩

/-! ## The Get fails -/

/-- C15: when the Get of the cluster fails, `sync` makes no other call and leaves the hub as
it is; it returns nil when the error is NotFound and the error itself, unchanged, when it is
any other error. -/
theorem sync_get_error (env : Env) (name : String) (s : St) (err : PlainError)
    (h : (clientGet env name s).1 = .error err) :
    (sync env name s).2 = record (.getManagedCluster name) s
    ∧ callsSince s (sync env name s).2 = [.getManagedCluster name]
    ∧ (sync env name s).2.world = s.world
    ∧ (IsNotFound err = true → (sync env name s).1 = none)
    ∧ (IsNotFound err = false → (sync env name s).1 = some (.single err)) := by
  cases hfault : env.fault (.getManagedCluster name) with
  | some f =>
    have herr : err = f.toError := by
      simp [clientGet, hfault] at h
      exact h.symm
    subst herr
    rw [sync_get_fault env name s f hfault]
    exact ⟨rfl, callsSince_record _ _, rfl, fun hn => by simp at hn, fun _ => rfl⟩
  | none =>
    cases hstored : s.world.clusters.find? (fun c => c.name == name) with
    | some mc =>
      rw [clientGet_found env name s mc hfault hstored] at h
      cases h
    | none =>
      have herr : err = notFoundError managedClustersResource name := by
        simp [clientGet, hfault, hstored] at h
        exact h.symm
      subst herr
      rw [sync_not_found env name s hfault hstored]
      exact ⟨rfl, callsSince_record _ _, rfl, fun _ => rfl, fun hn => by simp at hn⟩

/-- The scenario of C15: a cluster that is not stored is reconciled, and a stored one is
reconciled while the Get is refused. -/
theorem sync_get_error_witness :
    (sync quietEnv "west-2" (hubWith east1Fresh)).1 = none
    ∧ (sync quietEnv "west-2" (hubWith east1Fresh)).2.world = (hubWith east1Fresh).world
    ∧ (sync getFaultEnv "east-1" (hubWith east1Fresh)).1 =
        some (.single (.status .internalError "etcd unavailable")) :=
  ⟨(sync_get_error quietEnv "west-2" (hubWith east1Fresh)
      (notFoundError managedClustersResource "west-2") rfl).2.2.2.1 rfl,
   (sync_get_error quietEnv "west-2" (hubWith east1Fresh)
      (notFoundError managedClustersResource "west-2") rfl).2.2.1,
   (sync_get_error getFaultEnv "east-1" (hubWith east1Fresh)
      (.status .internalError "etcd unavailable") rfl).2.2.2.2 rfl⟩

/-! ## A refused Update -/

theorem cleanupTrace_unfaulted (env : Env) (name : String) (h : deletesUnfaulted env name) :
    cleanupTrace env name = cleanupCalls name ∧ firstDeleteFault env name = none := by
  obtain ⟨h1, h2, h3⟩ := h
  simp [cleanupTrace, firstDeleteFault, h1, h2, h3]

/-- C17: a refused Update is returned as it is, after one attempt.  In the finalizer step,
when the Update that appends the guard is refused, `sync` returns exactly that error, its
calls are the Get and the one Update, and the hub is unchanged.  In
`removeManagedClusterFinalizer`, when the Update that removes the guard is refused, the
routine returns exactly that error after that one call and changes nothing; and `sync`, on the
delete path after a cleanup without failure, returns the same error, the Update being its
last call and the only Update. -/
theorem update_refused (env : Env) (name : String) (s : St) (mc : ManagedCluster) (f : Fault) :
    (env.fault (.getManagedCluster name) = none →
      s.world.clusters.find? (fun c => c.name == name) = some mc →
      IsZero mc.deletionTimestamp = true →
      managedClusterFinalizer ∉ mc.finalizers →
      env.fault (.updateManagedCluster
        { mc with finalizers := mc.finalizers ++ [managedClusterFinalizer] }) = some f →
      sync env name s =
        (some (.single f.toError),
         { world := s.world,
           trace := s.trace ++ [.getManagedCluster name,
             .updateManagedCluster
               { mc with finalizers := mc.finalizers ++ [managedClusterFinalizer] }] }))
    ∧ (managedClusterFinalizer ∈ mc.finalizers →
      env.fault (.updateManagedCluster { mc with
        finalizers := mc.finalizers.filter (fun f => f != managedClusterFinalizer) }) = some f →
      removeManagedClusterFinalizer env mc s =
        (some f.toError,
         { world := s.world,
           trace := s.trace ++ [.updateManagedCluster { mc with
             finalizers := mc.finalizers.filter (fun f => f != managedClusterFinalizer) }] }))
    ∧ (env.fault (.getManagedCluster name) = none →
      s.world.clusters.find? (fun c => c.name == name) = some mc →
      IsZero mc.deletionTimestamp = false →
      managedClusterFinalizer ∈ mc.finalizers →
      deletesUnfaulted env name →
      env.fault (.updateManagedCluster { mc with
        finalizers := mc.finalizers.filter (fun f => f != managedClusterFinalizer) }) = some f →
      (sync env name s).1 = some (.single f.toError)
      ∧ callsSince s (sync env name s).2 =
          .getManagedCluster name :: (cleanupCalls name ++
            [.updateManagedCluster { mc with
              finalizers := mc.finalizers.filter (fun f => f != managedClusterFinalizer) }])
      ∧ (sync env name s).2.world.clusters = s.world.clusters) := by
  refine ⟨?_, ?_, ?_⟩
  · intro hfault hstored hzero hguard hu
    rw [sync_eq_addFinalizer env name s mc hfault hstored hzero hguard,
      clientUpdate_fault env _ _ f hu]
    simp [record]
  · intro hguard hu
    rw [removeManagedClusterFinalizer_of_mem env mc s hguard, clientUpdate_fault env _ _ f hu]
    rfl
  · intro hfault hstored hdel hguard hun hu
    obtain ⟨htrace, hfirst⟩ := cleanupTrace_unfaulted env name hun
    have hcalls := sync_deleting_calls env name s mc hfault hstored hdel
    rw [htrace, hfirst, if_pos ⟨rfl, hguard⟩] at hcalls
    refine ⟨?_, hcalls, ?_⟩
    · rw [sync_eq_deleting env name s mc hfault hstored hdel]
      have hok := (removeManagedClusterResources_unfaulted env name
        (record (.getManagedCluster name) s) hun).1
      rcases hr : removeManagedClusterResources env name
        (record (.getManagedCluster name) s) with ⟨e, s2⟩
      rw [hr] at hok
      simp only at hok
      subst hok
      simp only
      rw [removeManagedClusterFinalizer_of_mem env mc s2 hguard,
        clientUpdate_fault env _ _ f hu]
      rfl
    · rw [sync_eq_deleting env name s mc hfault hstored hdel]
      have hok := (removeManagedClusterResources_unfaulted env name
        (record (.getManagedCluster name) s) hun).1
      have hcl := removeManagedClusterResources_clusters env name
        (record (.getManagedCluster name) s)
      rcases hr : removeManagedClusterResources env name
        (record (.getManagedCluster name) s) with ⟨e, s2⟩
      rw [hr] at hok hcl
      simp only at hok hcl
      subst hok
      simp only
      rw [removeManagedClusterFinalizer_of_mem env mc s2 hguard,
        clientUpdate_fault env _ _ f hu]
      exact hcl

/-- The scenario of C17: every Update is answered with a conflict; the fresh `east-1` and the
deleting `east-1` both get the conflict back from `sync`, after one Update. -/
theorem update_refused_witness :
    sync conflictEnv "east-1" (hubWith east1Fresh) =
      (some (.single (.status .conflict "object has been modified")),
       { world := (hubWith east1Fresh).world,
         trace := [.getManagedCluster "east-1",
           .updateManagedCluster { east1Fresh with finalizers := [managedClusterFinalizer] }] })
    ∧ (sync conflictEnv "east-1" (hubProvisioned east1Deleting)).1 =
        some (.single (.status .conflict "object has been modified")) :=
  ⟨(update_refused conflictEnv "east-1" (hubWith east1Fresh) east1Fresh
      { reason := .conflict, msg := "object has been modified" }).1
      rfl (by decide) rfl (by decide) rfl,
   ((update_refused conflictEnv "east-1" (hubProvisioned east1Deleting) east1Deleting
      { reason := .conflict, msg := "object has been modified" }).2.2
      rfl (by decide) rfl (by decide) ⟨rfl, rfl, rfl⟩ rfl).1⟩

/-! ## A deleting cluster without the guard -/

/-- C18: for a stored cluster with the deletion timestamp set and without the guard, the
calls of `sync` are the Get and the cleanup, and no Update: the guard is not added and the
stored clusters are unchanged; when the cleanup succeeds `sync` returns nil and neither the
namespace nor the cluster role nor the cluster role binding of the cluster exists. -/
theorem sync_deleting_unguarded (env : Env) (name : String) (s : St) (mc : ManagedCluster)
    (hfault : env.fault (.getManagedCluster name) = none)
    (hstored : s.world.clusters.find? (fun c => c.name == name) = some mc)
    (hdel : IsZero mc.deletionTimestamp = false)
    (hguard : managedClusterFinalizer ∉ mc.finalizers) :
    callsSince s (sync env name s).2 = .getManagedCluster name :: cleanupTrace env name
    ∧ (∀ obj, Call.updateManagedCluster obj ∉ callsSince s (sync env name s).2)
    ∧ (sync env name s).2.world.clusters = s.world.clusters
    ∧ ((removeManagedClusterResources env name (record (.getManagedCluster name) s)).1 = none →
        (sync env name s).1 = none
        ∧ callsSince s (sync env name s).2 = .getManagedCluster name :: cleanupCalls name
        ∧ name ∉ (sync env name s).2.world.namespaces
        ∧ (clusterRolePrefix ++ ":" ++ name) ∉ (sync env name s).2.world.clusterRoles
        ∧ (clusterRolePrefix ++ ":" ++ name) ∉
            (sync env name s).2.world.clusterRoleBindings) := by
  have hcalls := sync_deleting_calls env name s mc hfault hstored hdel
  have hif : ¬ (firstDeleteFault env name = none ∧ managedClusterFinalizer ∈ mc.finalizers) :=
    fun h => hguard h.2
  rw [if_neg hif, List.append_nil] at hcalls
  have heq : sync env name s =
      ((removeManagedClusterResources env name (record (.getManagedCluster name) s)).1.map
        .single,
       (removeManagedClusterResources env name (record (.getManagedCluster name) s)).2) := by
    rw [sync_eq_deleting env name s mc hfault hstored hdel]
    rcases hr : removeManagedClusterResources env name
      (record (.getManagedCluster name) s) with ⟨e, s2⟩
    cases e with
    | some err => rfl
    | none =>
      simp only
      rw [removeManagedClusterFinalizer_of_not_mem env mc s2 hguard]
  refine ⟨hcalls, ?_, ?_, ?_⟩
  · intro obj hmem
    rw [hcalls] at hmem
    rcases List.mem_cons.1 hmem with h | h
    · cases h
    · have := (mem_cleanupTrace_kinds env name _ h).2.2
      simp [Call.isUpdate] at this
  · rw [heq]
    exact removeManagedClusterResources_clusters env name _
  · intro hok
    have hun := deletesUnfaulted_of_success env name _ hok
    obtain ⟨_, _, hns, hcr, hcrb⟩ := removeManagedClusterResources_unfaulted env name
      (record (.getManagedCluster name) s) hun
    refine ⟨?_, ?_, ?_, ?_, ?_⟩
    · rw [heq]
      simp only [hok, Option.map_none']
    · rw [hcalls, (cleanupTrace_unfaulted env name hun).1]
    · rw [heq]; exact hns
    · rw [heq]; exact hcr
    · rw [heq]; exact hcrb

/-- The scenario of C18: the deleting `east-1` without the guard is reconciled; its
dependents are deleted, no Update is issued and the stored cluster is as before. -/
theorem sync_deleting_unguarded_witness :
    (sync quietEnv "east-1" (hubProvisioned east1Unguarded)).1 = none
    ∧ (sync quietEnv "east-1" (hubProvisioned east1Unguarded)).2.world.clusters
        = [east1Unguarded]
    ∧ "east-1" ∉ (sync quietEnv "east-1" (hubProvisioned east1Unguarded)).2.world.namespaces
    ∧ (∀ obj, Call.updateManagedCluster obj ∉
        callsSince (hubProvisioned east1Unguarded)
          (sync quietEnv "east-1" (hubProvisioned east1Unguarded)).2) := by
  have h := sync_deleting_unguarded quietEnv "east-1" (hubProvisioned east1Unguarded)
    east1Unguarded rfl (by decide) rfl (by decide)
  have h4 := h.2.2.2
    (by simp [removeManagedClusterResources_result, firstDeleteFault, quietEnv])
  exact ⟨h4.1, h.2.2.1, h4.2.2.1, h.2.1⟩

/-! ## The guard is added once -/

/-- For a stored cluster that is not deleting and carries the guard, `sync` issues no Update,
and the stored cluster afterwards has the same finalizers and deletion timestamp. -/
theorem sync_guarded_frame (env : Env) (name : String) (s : St) (mc : ManagedCluster)
    (hfault : env.fault (.getManagedCluster name) = none)
    (hstored : s.world.clusters.find? (fun c => c.name == name) = some mc)
    (hzero : IsZero mc.deletionTimestamp = true)
    (hguard : managedClusterFinalizer ∈ mc.finalizers) :
    (∀ obj, Call.updateManagedCluster obj ∉ callsSince s (sync env name s).2)
    ∧ ∃ mc', (sync env name s).2.world.clusters.find? (fun c => c.name == name) = some mc'
        ∧ mc'.finalizers = mc.finalizers
        ∧ mc'.deletionTimestamp = mc.deletionTimestamp := by
  cases hacc : mc.hubAcceptsClient with
  | false =>
    cases hcond : IsConditionTrue (FindManagedClusterCondition mc.conditions
        ManagedClusterConditionHubAccepted) with
    | false =>
      rw [sync_deny_noop env name s mc hfault hstored hzero hguard hacc hcond]
      refine ⟨?_, mc, hstored, rfl, rfl⟩
      intro obj hmem
      rw [callsSince_record] at hmem
      simp at hmem
    | true =>
      constructor
      · intro obj hmem
        rw [sync_deny_calls_all env name s mc hfault hstored hzero hguard hacc hcond] at hmem
        rcases List.mem_cons.1 hmem with h | h
        · cases h
        · rcases List.mem_cons.1 h with h | h
          · cases h
          · rcases List.mem_append.1 h with h | h
            · have := (mem_cleanupTrace_kinds env name _ h).2.2
              simp [Call.isUpdate] at this
            · have := eq_of_mem_ite_singleton h
              cases this
      · cases hclean : (removeManagedClusterResources env name
            (record (.event "ManagedClusterDenied"
              ("managed cluster " ++ name ++ " is denied by hub cluster admin"))
              (record (.getManagedCluster name) s))).1 with
        | none =>
          have h := sync_deny_stored env name s mc hfault hstored hzero hguard hacc hcond hclean
          refine ⟨_, h, ?_, ?_⟩ <;> split_ifs <;> rfl
        | some err =>
          exact ⟨mc, sync_deny_failed_stored env name s mc err hfault hstored hzero hguard hacc
            hcond hclean, rfl, rfl⟩
  | true =>
    constructor
    · intro obj hmem
      rw [sync_accept_calls env name s mc hfault hstored hzero hguard hacc] at hmem
      simp only [List.mem_append, List.mem_singleton, List.mem_map] at hmem
      rcases hmem with ((h | ⟨f, _, h⟩) | h) | h
      · cases h
      · cases h
      · cases h
      · have := eq_of_mem_ite_singleton h
        cases this
    · have h := sync_accept_stored env name s mc hfault hstored hzero hguard hacc
      refine ⟨_, h, ?_, ?_⟩ <;> split_ifs <;> rfl

/-- The stored cluster after a finalizer step whose Update is not refused carries the guard
at the end of its finalizers. -/
theorem sync_addFinalizer_stored (env : Env) (name : String) (s : St) (mc : ManagedCluster)
    (hfault : env.fault (.getManagedCluster name) = none)
    (hstored : s.world.clusters.find? (fun c => c.name == name) = some mc)
    (hzero : IsZero mc.deletionTimestamp = true)
    (hguard : managedClusterFinalizer ∉ mc.finalizers)
    (hu : env.fault (.updateManagedCluster
      { mc with finalizers := mc.finalizers ++ [managedClusterFinalizer] }) = none) :
    (sync env name s).2.world.clusters.find? (fun c => c.name == name) =
      some { mc with finalizers := mc.finalizers ++ [managedClusterFinalizer] } := by
  rw [sync_eq_addFinalizer env name s mc hfault hstored hzero hguard]
  have hany := any_of_find hstored
  obtain rfl : mc.name = name := find_name hstored
  have hmap := find_map_replace s.world.clusters mc.name
    { mc with finalizers := mc.finalizers ++ [managedClusterFinalizer] } rfl hany
  simp only [clientUpdate, record, hu, hany, if_true]
  exact hmap

/-- C16: for a stored cluster that is not deleting: when its finalizers already hold the
guard, at any position, `sync` issues no Update and the stored finalizers are unchanged; when
they do not and the Update of the finalizer step succeeds, a second `sync` issues no Update
and the stored finalizers are the old ones followed by the guard, which occurs exactly
once. -/
theorem sync_guard_once (env : Env) (name : String) (s : St) (mc : ManagedCluster)
    (hfault : env.fault (.getManagedCluster name) = none)
    (hstored : s.world.clusters.find? (fun c => c.name == name) = some mc)
    (hzero : IsZero mc.deletionTimestamp = true) :
    (managedClusterFinalizer ∈ mc.finalizers →
      (∀ obj, Call.updateManagedCluster obj ∉ callsSince s (sync env name s).2)
      ∧ ∃ mc', (sync env name s).2.world.clusters.find? (fun c => c.name == name) = some mc'
          ∧ mc'.finalizers = mc.finalizers)
    ∧ (managedClusterFinalizer ∉ mc.finalizers →
      env.fault (.updateManagedCluster
        { mc with finalizers := mc.finalizers ++ [managedClusterFinalizer] }) = none →
      ∀ env', env'.fault (.getManagedCluster name) = none →
        (∀ obj, Call.updateManagedCluster obj ∉
          callsSince (sync env name s).2 (sync env' name (sync env name s).2).2)
        ∧ ∃ mc2, (sync env' name (sync env name s).2).2.world.clusters.find?
              (fun c => c.name == name) = some mc2
            ∧ mc2.finalizers = mc.finalizers ++ [managedClusterFinalizer]
            ∧ mc2.finalizers.count managedClusterFinalizer = 1) := by
  constructor
  · intro hguard
    obtain ⟨h1, mc', h2, h3, _⟩ := sync_guarded_frame env name s mc hfault hstored hzero hguard
    exact ⟨h1, mc', h2, h3⟩
  · intro hguard hu env' hfault'
    have hpost := sync_addFinalizer_stored env name s mc hfault hstored hzero hguard hu
    obtain ⟨h1, mc2, h2, h3, _⟩ := sync_guarded_frame env' name (sync env name s).2
      { mc with finalizers := mc.finalizers ++ [managedClusterFinalizer] } hfault' hpost hzero
      (List.mem_append_right _ (List.mem_singleton.2 rfl))
    refine ⟨h1, mc2, h2, h3, ?_⟩
    rw [h3]
    simp only [List.count_append, List.count_singleton, beq_self_eq_true, if_true]
    rw [List.count_eq_zero.2 hguard]

/-- The scenario of C16: the fresh `east-1` is reconciled twice; it carries the guard
once. -/
theorem sync_guard_once_witness :
    ∃ mc2,
      (sync quietEnv "east-1"
          (sync quietEnv "east-1" (hubWith east1Fresh)).2).2.world.clusters.find?
        (fun c => c.name == "east-1") = some mc2
      ∧ mc2.finalizers = [managedClusterFinalizer]
      ∧ mc2.finalizers.count managedClusterFinalizer = 1 := by
  obtain ⟨_, mc2, h1, h2, h3⟩ :=
    (sync_guard_once quietEnv "east-1" (hubWith east1Fresh) east1Fresh rfl (by decide) rfl).2
      (by decide) rfl quietEnv rfl
  exact ⟨mc2, h1, h2, h3⟩

/-! ## Dependents of a denied or deleting cluster -/

/-- After the delete path the stored cluster is still deleting. -/
theorem sync_deleting_stays_deleting (env : Env) (name : String) (s : St) (mc : ManagedCluster)
    (hfault : env.fault (.getManagedCluster name) = none)
    (hstored : s.world.clusters.find? (fun c => c.name == name) = some mc)
    (hdel : IsZero mc.deletionTimestamp = false) (mc' : ManagedCluster)
    (hmc' : (sync env name s).2.world.clusters.find? (fun c => c.name == name) = some mc') :
    IsZero mc'.deletionTimestamp = false := by
  rw [sync_eq_deleting env name s mc hfault hstored hdel] at hmc'
  have hcl := removeManagedClusterResources_clusters env name
    (record (.getManagedCluster name) s)
  rcases hr : removeManagedClusterResources env name
    (record (.getManagedCluster name) s) with ⟨e, s2⟩
  rw [hr] at hmc' hcl
  simp only at hcl
  have hstored2 : s2.world.clusters.find? (fun c => c.name == name) = some mc := by
    rw [hcl]; exact hstored
  cases e with
  | some err =>
    simp only at hmc'
    rw [hstored2] at hmc'
    cases hmc'
    exact hdel
  | none =>
    simp only at hmc'
    obtain ⟨_, _, _, h | h⟩ := removeManagedClusterFinalizer_frame env name s2 mc hstored2
    · rw [h] at hmc'
      cases hmc'
      exact hdel
    · rw [h] at hmc'
      cases hmc'
      exact hdel

/-- A reconciliation keeps the finalizer gate, whatever fails. -/
theorem sync_guardGated (env : Env) (name : String) (s : St)
    (hinv : GuardGated name s.world) : GuardGated name (sync env name s).2.world := by
  cases hfault : env.fault (.getManagedCluster name) with
  | some f => rw [sync_get_fault env name s f hfault]; exact hinv
  | none =>
    cases hstored : s.world.clusters.find? (fun c => c.name == name) with
    | none => rw [sync_not_found env name s hfault hstored]; exact hinv
    | some mc =>
      cases hzero : IsZero mc.deletionTimestamp with
      | false =>
        intro mc' hmc' _
        exact Or.inl (sync_deleting_stays_deleting env name s mc hfault hstored hzero mc' hmc')
      | true =>
        by_cases hguard : managedClusterFinalizer ∈ mc.finalizers
        · intro mc' hmc' _
          obtain ⟨_, mc2, h2, h3, _⟩ :=
            sync_guarded_frame env name s mc hfault hstored hzero hguard
          rw [h2] at hmc'
          cases hmc'
          exact Or.inr (h3 ▸ hguard)
        · intro mc' _ hdeps
          exfalso
          rw [sync_eq_addFinalizer env name s mc hfault hstored hzero hguard] at hdeps
          obtain ⟨f1, f2, f3⟩ := clientUpdate_frame env
            { mc with finalizers := mc.finalizers ++ [managedClusterFinalizer] }
            (record (.getManagedCluster name) s)
          unfold hasDependents at hdeps
          simp only [f1, f2, f3] at hdeps
          rcases hinv mc hstored hdeps with h | h
          · rw [hzero] at h
            cases h
          · exact hguard h

theorem setAccepts_guardGated (name : String) (s : St) (v : Bool)
    (hinv : GuardGated name s.world) : GuardGated name (s.setAccepts name v).world := by
  intro mc' hmc' hdeps
  have hmap := find_map_update s.world.clusters name
    (fun c => { c with hubAcceptsClient := v }) (fun _ => rfl)
  simp only [St.setAccepts] at hmc' hdeps
  rw [hmap] at hmc'
  cases hstored : s.world.clusters.find? (fun c => c.name == name) with
  | none => rw [hstored] at hmc'; cases hmc'
  | some mc =>
    rw [hstored] at hmc'
    cases hmc'
    exact hinv mc hstored hdeps

theorem requestDeletion_guardGated (name : String) (s : St) (t : Nat) :
    GuardGated name (s.requestDeletion name t).world := by
  intro mc' hmc' _
  have hmap := find_map_update s.world.clusters name
    (fun c => if IsZero c.deletionTimestamp then { c with deletionTimestamp := some (t + 1) }
      else c)
    (fun c => by dsimp only; split_ifs <;> rfl)
  simp only [St.requestDeletion] at hmc'
  rw [hmap] at hmc'
  cases hstored : s.world.clusters.find? (fun c => c.name == name) with
  | none => rw [hstored] at hmc'; cases hmc'
  | some mc =>
    rw [hstored] at hmc'
    simp only [Option.map_some', Option.some.injEq] at hmc'
    subst hmc'
    cases hz : IsZero mc.deletionTimestamp with
    | true => left; simp [IsZero]
    | false => simp [hz]

/-- The finalizer gate holds in every reachable state, whatever calls fail. -/
theorem guardGated_of_reachable (allowed : Env → Prop) (name : String) (s : St)
    (h : Reachable allowed name s) : GuardGated name s.world := by
  induction h with
  | init s h => exact fun _ _ hdeps => absurd hdeps h
  | reconcile s env _ _ ih => exact sync_guardGated env name s ih
  | setAccepts s v _ ih => exact setAccepts_guardGated name s v ih
  | requestDeletion s t _ _ => exact requestDeletion_guardGated name s t

/-- C5, amended: after a reconciliation, under any failures, that returns nil for a stored
cluster while it is denied or deleting, neither its namespace nor its cluster role nor its
cluster role binding exists:
in every state at all, when the cluster is deleting, or carries the guard and has its
HubAccepted condition True;
in every state reachable from one without dependents of the cluster through reconciliations
of the cluster under any failures, changes of `hubAcceptsClient` and deletion requests, when
the cluster lacks the guard;
and, for the remaining case of a denied cluster that carries the guard and whose HubAccepted
condition is absent or not True, in every state so reachable through reconciliations in which
the status update of the accept path is not refused (every other call may fail). -/
theorem denied_or_deleting_has_no_dependents (env : Env) (name : String) (s : St)
    (mc : ManagedCluster)
    (hstored : s.world.clusters.find? (fun c => c.name == name) = some mc)
    (hstate : mc.hubAcceptsClient = false ∨ IsZero mc.deletionTimestamp = false)
    (hnil : (sync env name s).1 = none) :
    (IsZero mc.deletionTimestamp = false
        ∨ (managedClusterFinalizer ∈ mc.finalizers
          ∧ IsConditionTrue (FindManagedClusterCondition mc.conditions
              ManagedClusterConditionHubAccepted) = true) →
      ¬ hasDependents (sync env name s).2.world name)
    ∧ (Reachable (fun _ => True) name s → managedClusterFinalizer ∉ mc.finalizers →
      ¬ hasDependents (sync env name s).2.world name)
    ∧ (Reachable acceptStatusUnfaulted name s →
      ¬ hasDependents (sync env name s).2.world name) := by
  refine ⟨?_, ?_, ?_⟩
  · intro hcase
    apply sync_nil_no_dependents env name s mc hstored hstate hnil
    · intro hzero hguard hcond
      rcases hcase with h | h
      · rw [hzero] at h; cases h
      · rw [hcond] at h; cases h.2
    · intro hzero hguard
      rcases hcase with h | h
      · rw [hzero] at h; cases h
      · exact absurd h.1 hguard
  · intro hreach hguard
    have hinv := guardGated_of_reachable (fun _ => True) name s hreach
    apply sync_nil_no_dependents env name s mc hstored hstate hnil
    · intro _ hg _
      exact absurd hg hguard
    · intro hzero _ hdeps
      rcases hinv mc hstored hdeps with h | h
      · rw [hzero] at h; cases h
      · exact hguard h
  · intro hreach
    have hinv := gated_of_reachable name s hreach
    apply sync_nil_no_dependents env name s mc hstored hstate hnil
    · intro hzero _ hcond hdeps
      rcases hinv mc hstored hdeps with h | h
      · rw [hzero] at h; cases h
      · rw [hcond] at h; cases h.2
    · intro hzero hguard hdeps
      rcases hinv mc hstored hdeps with h | h
      · rw [hzero] at h; cases h
      · exact hguard h.1

/-- The scenarios of C5: the provisioned `east-1` is denied and reconciled, which deletes its
dependents, in a state taken as it is and as a reachable state; and the fresh `east-1`, denied
and without the guard, is reconciled in a reachable state. -/
theorem denied_or_deleting_has_no_dependents_witness :
    (sync quietEnv "east-1" revokedHub).1 = none
    ∧ ¬ hasDependents (sync quietEnv "east-1" revokedHub).2.world "east-1"
    ∧ ¬ hasDependents (sync quietEnv "east-1" (hubWith east1Fresh)).2.world "east-1" :=
  ⟨by decide,
   (denied_or_deleting_has_no_dependents quietEnv "east-1" revokedHub
    { name := "east-1", deletionTimestamp := none, finalizers := [managedClusterFinalizer],
      hubAcceptsClient := false,
      conditions := [{ type := ManagedClusterConditionHubAccepted, status := .condTrue,
                       reason := "HubClusterAdminAccepted",
                       message := "Accepted by hub cluster admin", lastTransitionTime := 7 }] }
    (by decide) (Or.inl rfl) (by decide)).2.2
    (Reachable.setAccepts _ false
      (Reachable.reconcile _ quietEnv (Reachable.init _ (by decide))
        acceptStatusUnfaulted_quietEnv)),
   (denied_or_deleting_has_no_dependents quietEnv "east-1" (hubWith east1Fresh) east1Fresh
    (by decide) (Or.inl rfl) (by decide)).2.1
    (Reachable.init _ (by decide)) (by decide)⟩

end Registration
